import Mathlib

/-! # Reference-counted owning pointers: `ptr<X>` and `array_ptr<X>`

A shallow embedding of `ptr.h` / `ptr.inl`.

* Addresses are natural numbers, `0` is the null address.
* `unsigned` is a natural number reduced modulo `2 ^ 32`.
* A `World` holds every pointer instance (by identity), the store of
  `ptr_counter` objects, and the free store of pointed-to objects.
* The member functions of the two class templates are translated one by one,
  in the namespaces `ptr` and `array_ptr`.
-/

/-! ## Machine integers -/

/-- Number of value bits of `unsigned` (ILP32, LP64 and LLP64 data models). -/
def UINT_BITS : Nat := 32

/-- Arithmetic on `unsigned` is modulo this number. -/
def UINT_MOD : Nat := 2 ^ UINT_BITS

/-- Largest value of `unsigned`. -/
def UINT_MAX : Nat := UINT_MOD - 1

/-! ## `struct ptr_counter` -/

/-- The reference counter: `unsigned _count`. -/
structure ptr_counter where
  _count : Nat
deriving DecidableEq, Repr

namespace ptr_counter

/-- Constructor `ptr_counter() : _count(0)`. -/
def ctor : ptr_counter := { _count := 0 }

/-- Member `void inc() { _count++; }` on an `unsigned`. -/
def inc (c : ptr_counter) : ptr_counter := { _count := (c._count + 1) % UINT_MOD }

/-- Member `void dec() { _count--; }` on an `unsigned`. -/
def dec (c : ptr_counter) : ptr_counter := { _count := (c._count + UINT_MOD - 1) % UINT_MOD }

end ptr_counter

/-! ## Data members and the program state -/

/-- The data members `_ptr` and `_counter`, the same in `ptr<X>` and
`array_ptr<X>`; `0` is the null address. -/
structure Obj where
  _ptr : Nat
  _counter : Nat
deriving DecidableEq, Repr

/-- The program state.

* `objs`: the pointer instances, an instance is identified by its position;
  `none` is an instance whose lifetime has ended.
* `counters`: the store of `ptr_counter` objects, a counter is identified by
  its position (position `0` is the null address and holds nothing); `none`
  is a deleted counter.
* `blocks`: the blocks of the free store that are allocated, each with its
  address and its number of elements.
* `alive`: the addresses of the constructed and not yet destroyed elements
  (the tests count them in `RefCounter::s_instances`).
* `freed`: the addresses handed to `delete` / `delete[]`, in order.
* `ub`: a deleted counter was dereferenced (undefined behaviour). -/
structure World where
  objs : List (Option Obj)
  counters : List (Option ptr_counter)
  blocks : List (Nat × Nat)
  alive : List Nat
  freed : List Nat
  ub : Bool
deriving DecidableEq, Repr

namespace World

/-- The state of a program that has not created anything yet. -/
def empty : World :=
  { objs := [], counters := [none], blocks := [], alive := [], freed := [], ub := false }

/-- The instance with identity `i`, when it is alive. -/
def obj (w : World) (i : Nat) : Option Obj := (w.objs[i]?).join

/-- The counter at address `c`, when there is one. -/
def counterAt (w : World) (c : Nat) : Option ptr_counter := (w.counters[c]?).join

/-- Write the data members of instance `i`. -/
def setObj (w : World) (i : Nat) (o : Obj) : World := { w with objs := w.objs.set i (some o) }

/-- Storage for a new instance with data members `o`; its identity is the
former `objs.length`. -/
def addObj (w : World) (o : Obj) : World := { w with objs := w.objs ++ [some o] }

/-- End of the lifetime of instance `i`. -/
def endLife (w : World) (i : Nat) : World := { w with objs := w.objs.set i none }

/-- Write the counter at address `c`. -/
def storeCounter (w : World) (c : Nat) (k : ptr_counter) : World :=
  { w with counters := w.counters.set c (some k) }

/-- The expression `new ptr_counter`: the new counter gets the address
`counters.length`, which no counter had before. -/
def newCounter (w : World) : World := { w with counters := w.counters ++ [some ptr_counter.ctor] }

/-- The statement `delete _counter`. -/
def deleteCounter (w : World) (c : Nat) : World := { w with counters := w.counters.set c none }

/-- The element addresses of a run of `n` elements at `p`. -/
def elems (p n : Nat) : List Nat := (List.range n).map (fun i => p + i)

/-- The environment allocates: `p = new X[n]` (`new X` for `n = 1`). -/
def alloc (w : World) (p n : Nat) : World :=
  { w with blocks := (p, n) :: w.blocks, alive := w.alive ++ elems p n }

/-- The statement `delete p`: the destructor of the one object at `p` runs
and the block is given back. -/
def delete (w : World) (p : Nat) : World :=
  { w with
    alive := w.alive.erase p
    blocks := w.blocks.filter (fun b => b.1 != p)
    freed := w.freed ++ [p] }

/-- The statement `delete[] p`: the destructor of every element of the run
at `p` runs (the last element first) and the block is given back. The length
of the run is the one recorded at allocation. -/
def deleteArray (w : World) (p : Nat) : World :=
  { w with
    alive := (elems p ((w.blocks.lookup p).getD 0)).reverse.foldl List.erase w.alive
    blocks := w.blocks.filter (fun b => b.1 != p)
    freed := w.freed ++ [p] }

/-- Whether an instance slot holds a live instance whose `_counter` is `c`. -/
def uses (c : Nat) (x : Option Obj) : Bool :=
  match x with
  | some o => o._counter == c
  | none => false

/-- Number of live instances whose `_counter` is `c`. -/
def sharers (w : World) (c : Nat) : Nat := w.objs.countP (uses c)

/-- Whether an instance slot holds a live instance whose `_ptr` is `p`. -/
def holds (p : Nat) (x : Option Obj) : Bool :=
  match x with
  | some o => o._ptr == p
  | none => false

/-- Number of live instances whose `_ptr` is `p`. -/
def holders (w : World) (p : Nat) : Nat := w.objs.countP (holds p)

/-- The value of `RefCounter::s_instances`. -/
def s_instances (w : World) : Nat := w.alive.length

end World

/-! ## `template <typename X> class ptr` -/

namespace ptr

/-- `ptr<X>::valid`: `return _ptr && _counter;`. -/
def valid (o : Obj) : Bool := o._ptr != 0 && o._counter != 0

/-- `ptr<X>::operator bool`: `return valid();`. -/
def toBool (o : Obj) : Bool := valid o

/-- `ptr<X>::copies`: `return valid() ? _counter->_count : 0;`
(a deleted counter reads as `0`). -/
def copies (w : World) (o : Obj) : Nat :=
  if valid o then
    match w.counterAt o._counter with
    | some k => k._count
    | none => 0
  else 0

/-- `ptr<X>::shared`: `return copies() > 1;`. -/
def shared (w : World) (o : Obj) : Bool := decide (copies w o > 1)

/-- `ptr<X>::unique`: `return copies() == 1;`. -/
def unique (w : World) (o : Obj) : Bool := copies w o == 1

/-- `ptr<X>::unreferenced`: `return copies() == 0;`. -/
def unreferenced (w : World) (o : Obj) : Bool := copies w o == 0

/-- `ptr<X>::drop` on the instance `self`. -/
def drop (w : World) (self : Nat) : World :=
  match w.obj self with
  | none => w
  | some o =>
    if valid o then
      match w.counterAt o._counter with
      | none => { w with ub := true }
      | some k =>
        let w1 := w.storeCounter o._counter k.dec
        let w2 := if unreferenced w1 o then (w1.delete o._ptr).deleteCounter o._counter else w1
        w2.setObj self { _ptr := 0, _counter := 0 }
    else w

/-- `ptr<X>::grab` on the instance `self`. -/
def grab (w : World) (self normal_ptr counter : Nat) : World :=
  let w1 := drop w self
  if normal_ptr = 0 then w1
  else
    let w2 := if counter ≠ 0 then w1 else w1.newCounter
    let c := if counter ≠ 0 then counter else w1.counters.length
    let w3 := w2.setObj self { _ptr := normal_ptr, _counter := c }
    match w3.counterAt c with
    | none => { w3 with ub := true }
    | some k => w3.storeCounter c k.inc

/-- `ptr<X>::operator=(const ptr<X>& other)`; `self` and `other` are
identities, so `self ≠ other` is the test `this != &other`. -/
def assign (w : World) (self other : Nat) : World :=
  if self ≠ other then
    match w.obj other with
    | some o => grab w self o._ptr o._counter
    | none => w
  else w

/-- `ptr<X>::operator=(X* normal_ptr)`. -/
def assignRaw (w : World) (self normal_ptr : Nat) : World := grab w self normal_ptr 0

/-- `ptr<X>::ptr()`. The new instance has the identity `w.objs.length`. -/
def ctor (w : World) : World := w.addObj { _ptr := 0, _counter := 0 }

/-- `ptr<X>::ptr(const ptr<X>& other)`. -/
def ctorCopy (w : World) (other : Nat) : World :=
  assign (w.addObj { _ptr := 0, _counter := 0 }) w.objs.length other

/-- `ptr<X>::ptr(X* normal_ptr)`. -/
def ctorRaw (w : World) (normal_ptr : Nat) : World :=
  assignRaw (w.addObj { _ptr := 0, _counter := 0 }) w.objs.length normal_ptr

/-- `ptr<X>::~ptr`, after which the lifetime of the instance has ended. -/
def dtor (w : World) (self : Nat) : World := (drop w self).endLife self

end ptr

/-! ## `template <typename X> class array_ptr` -/

namespace array_ptr

/-- `array_ptr<X>::valid`: `return _ptr && _counter;`. -/
def valid (o : Obj) : Bool := o._ptr != 0 && o._counter != 0

/-- `array_ptr<X>::operator bool`: `return valid();`. -/
def toBool (o : Obj) : Bool := valid o

/-- `array_ptr<X>::copies`: `return valid() ? _counter->_count : 0;`
(a deleted counter reads as `0`). -/
def copies (w : World) (o : Obj) : Nat :=
  if valid o then
    match w.counterAt o._counter with
    | some k => k._count
    | none => 0
  else 0

/-- `array_ptr<X>::shared`: `return copies() > 1;`. -/
def shared (w : World) (o : Obj) : Bool := decide (copies w o > 1)

/-- `array_ptr<X>::unique`: `return copies() == 1;`. -/
def unique (w : World) (o : Obj) : Bool := copies w o == 1

/-- `array_ptr<X>::unreferenced`: `return copies() == 0;`. -/
def unreferenced (w : World) (o : Obj) : Bool := copies w o == 0

/-- `array_ptr<X>::drop` on the instance `self`. -/
def drop (w : World) (self : Nat) : World :=
  match w.obj self with
  | none => w
  | some o =>
    if valid o then
      match w.counterAt o._counter with
      | none => { w with ub := true }
      | some k =>
        let w1 := w.storeCounter o._counter k.dec
        let w2 :=
          if unreferenced w1 o then (w1.deleteArray o._ptr).deleteCounter o._counter else w1
        w2.setObj self { _ptr := 0, _counter := 0 }
    else w

/-- `array_ptr<X>::grab` on the instance `self`. -/
def grab (w : World) (self normal_ptr counter : Nat) : World :=
  let w1 := drop w self
  if normal_ptr = 0 then w1
  else
    let w2 := if counter ≠ 0 then w1 else w1.newCounter
    let c := if counter ≠ 0 then counter else w1.counters.length
    let w3 := w2.setObj self { _ptr := normal_ptr, _counter := c }
    match w3.counterAt c with
    | none => { w3 with ub := true }
    | some k => w3.storeCounter c k.inc

/-- `array_ptr<X>::operator=(const array_ptr<X>& other)`. -/
def assign (w : World) (self other : Nat) : World :=
  if self ≠ other then
    match w.obj other with
    | some o => grab w self o._ptr o._counter
    | none => w
  else w

/-- `array_ptr<X>::operator=(X* normal_ptr)`. -/
def assignRaw (w : World) (self normal_ptr : Nat) : World := grab w self normal_ptr 0

/-- `array_ptr<X>::array_ptr()`. -/
def ctor (w : World) : World := w.addObj { _ptr := 0, _counter := 0 }

/-- `array_ptr<X>::array_ptr(const array_ptr<X>& other)`. -/
def ctorCopy (w : World) (other : Nat) : World :=
  assign (w.addObj { _ptr := 0, _counter := 0 }) w.objs.length other

/-- `array_ptr<X>::array_ptr(X* normal_ptr)`. -/
def ctorRaw (w : World) (normal_ptr : Nat) : World :=
  assignRaw (w.addObj { _ptr := 0, _counter := 0 }) w.objs.length normal_ptr

/-- `array_ptr<X>::~array_ptr`, after which the lifetime of the instance has ended. -/
def dtor (w : World) (self : Nat) : World := (drop w self).endLife self

end array_ptr

/-! ## Programs

A program is a list of operations. The instances an operation names must be
alive, otherwise the operation does nothing. -/

/-- The public operations, and the allocation done by the caller. -/
inductive Op where
  /-- The caller evaluates `new X[n]` (`new X` when `n = 1`) and gets `p`. -/
  | alloc (p n : Nat)
  /-- Default construction of a new instance. -/
  | ctor
  /-- Copy construction of a new instance from the instance `other`. -/
  | ctorCopy (other : Nat)
  /-- Construction of a new instance from the raw address `normal_ptr`. -/
  | ctorRaw (normal_ptr : Nat)
  /-- Copy assignment `self = other`. -/
  | assign (self other : Nat)
  /-- Assignment `self = normal_ptr` of a raw address. -/
  | assignRaw (self normal_ptr : Nat)
  /-- Destruction of the instance `self`. -/
  | dtor (self : Nat)
deriving DecidableEq, Repr

/-- One operation on `ptr<X>` instances. -/
def ptr.step (w : World) : Op → World
  | Op.alloc p n => w.alloc p n
  | Op.ctor => ptr.ctor w
  | Op.ctorCopy other => if (w.obj other).isSome then ptr.ctorCopy w other else w
  | Op.ctorRaw p => ptr.ctorRaw w p
  | Op.assign self other =>
    if (w.obj self).isSome && (w.obj other).isSome then ptr.assign w self other else w
  | Op.assignRaw self p => if (w.obj self).isSome then ptr.assignRaw w self p else w
  | Op.dtor self => if (w.obj self).isSome then ptr.dtor w self else w

/-- A program on `ptr<X>` instances. -/
def ptr.run (w : World) (ops : List Op) : World := ops.foldl ptr.step w

/-- One operation on `array_ptr<X>` instances. -/
def array_ptr.step (w : World) : Op → World
  | Op.alloc p n => w.alloc p n
  | Op.ctor => array_ptr.ctor w
  | Op.ctorCopy other => if (w.obj other).isSome then array_ptr.ctorCopy w other else w
  | Op.ctorRaw p => array_ptr.ctorRaw w p
  | Op.assign self other =>
    if (w.obj self).isSome && (w.obj other).isSome then array_ptr.assign w self other else w
  | Op.assignRaw self p => if (w.obj self).isSome then array_ptr.assignRaw w self p else w
  | Op.dtor self => if (w.obj self).isSome then array_ptr.dtor w self else w

/-- A program on `array_ptr<X>` instances. -/
def array_ptr.run (w : World) (ops : List Op) : World := ops.foldl array_ptr.step w

/-! ## The common text of the two class templates

`ptr.inl` repeats every member function of `ptr<X>` for `array_ptr<X>` and
changes one statement, the deallocation in `drop`. The definitions below are
that common text with the deallocation statement as a parameter `del`;
`ptr` is the instance `del = World.delete`, `array_ptr` the instance
`del = World.deleteArray` (theorems `ptr_step_eq`, `array_ptr_step_eq`). -/

namespace owning

/-- The text of `drop` with the deallocation statement `del`. -/
def drop (del : World → Nat → World) (w : World) (self : Nat) : World :=
  match w.obj self with
  | none => w
  | some o =>
    if ptr.valid o then
      match w.counterAt o._counter with
      | none => { w with ub := true }
      | some k =>
        let w1 := w.storeCounter o._counter k.dec
        let w2 := if ptr.unreferenced w1 o then (del w1 o._ptr).deleteCounter o._counter else w1
        w2.setObj self { _ptr := 0, _counter := 0 }
    else w

/-- The text of `grab` with the deallocation statement `del`. -/
def grab (del : World → Nat → World) (w : World) (self normal_ptr counter : Nat) : World :=
  let w1 := drop del w self
  if normal_ptr = 0 then w1
  else
    let w2 := if counter ≠ 0 then w1 else w1.newCounter
    let c := if counter ≠ 0 then counter else w1.counters.length
    let w3 := w2.setObj self { _ptr := normal_ptr, _counter := c }
    match w3.counterAt c with
    | none => { w3 with ub := true }
    | some k => w3.storeCounter c k.inc

/-- The text of the copy assignment. -/
def assign (del : World → Nat → World) (w : World) (self other : Nat) : World :=
  if self ≠ other then
    match w.obj other with
    | some o => grab del w self o._ptr o._counter
    | none => w
  else w

/-- The text of the assignment of a raw address. -/
def assignRaw (del : World → Nat → World) (w : World) (self normal_ptr : Nat) : World :=
  grab del w self normal_ptr 0

/-- The text of the copy constructor. -/
def ctorCopy (del : World → Nat → World) (w : World) (other : Nat) : World :=
  assign del (w.addObj { _ptr := 0, _counter := 0 }) w.objs.length other

/-- The text of the constructor from a raw address. -/
def ctorRaw (del : World → Nat → World) (w : World) (normal_ptr : Nat) : World :=
  assignRaw del (w.addObj { _ptr := 0, _counter := 0 }) w.objs.length normal_ptr

/-- The text of the destructor. -/
def dtor (del : World → Nat → World) (w : World) (self : Nat) : World :=
  (drop del w self).endLife self

/-- One operation, with the deallocation statement `del`. -/
def step (del : World → Nat → World) (w : World) : Op → World
  | Op.alloc p n => w.alloc p n
  | Op.ctor => ptr.ctor w
  | Op.ctorCopy other => if (w.obj other).isSome then ctorCopy del w other else w
  | Op.ctorRaw p => ctorRaw del w p
  | Op.assign self other =>
    if (w.obj self).isSome && (w.obj other).isSome then assign del w self other else w
  | Op.assignRaw self p => if (w.obj self).isSome then assignRaw del w self p else w
  | Op.dtor self => if (w.obj self).isSome then dtor del w self else w

/-- A program, with the deallocation statement `del`. -/
def run (del : World → Nat → World) (w : World) (ops : List Op) : World :=
  ops.foldl (step del) w

end owning

/-- What the proofs use of a deallocation statement: it leaves the pointer
instances and the counters alone and logs the address. -/
structure Dealloc (del : World → Nat → World) : Prop where
  objs : ∀ w p, (del w p).objs = w.objs
  counters : ∀ w p, (del w p).counters = w.counters
  ub : ∀ w p, (del w p).ub = w.ub
  freed : ∀ w p, (del w p).freed = w.freed ++ [p]

/-! ## Invariants -/

namespace World

/-- The state of the counters is the one the live instances determine: no
undefined behaviour has occurred; each instance has both data members null or
both non-null; the counter at a non-null address `c` exists exactly when
some live instance has `_counter = c`, and it then holds the number of those
instances modulo `2 ^ 32`; and that number is at most `2 ^ 32`. -/
structure Sound (w : World) : Prop where
  ub : w.ub = false
  nz : 0 < w.counters.length
  two : ∀ i o, w.obj i = some o → (o._ptr = 0 ↔ o._counter = 0)
  cnt : ∀ c, w.counterAt c =
    if c = 0 ∨ w.sharers c = 0 then none else some { _count := w.sharers c % UINT_MOD }
  bnd : ∀ c, c ≠ 0 → w.sharers c ≤ UINT_MOD

/-- The counter of an instance, when the instance has one, is shared by at
most `b` live instances. -/
def slotBounded (b : Nat) (w : World) : Option Obj → Bool
  | some o => o._counter == 0 || decide (w.sharers o._counter ≤ b)
  | none => true

/-- No counter is shared by more than `b` live instances. -/
def Bounded (b : Nat) (w : World) : Prop := ∀ x ∈ w.objs, w.slotBounded b x = true

instance decidableBounded (b : Nat) (w : World) : Decidable (w.Bounded b) := by
  unfold Bounded; infer_instance

end World

/-- Every state a program goes through, after each operation, has no counter
shared by more than `b` live instances. -/
def owning.Within (del : World → Nat → World) (b : Nat) (w : World) : List Op → Prop
  | [] => True
  | op :: ops => (owning.step del w op).Bounded b ∧ owning.Within del b (owning.step del w op) ops

/-! ## Programs that respect the caller's obligations -/

/-- The raw address the operation adopts, when it adopts one, is null or is
held by no live instance. -/
def Op.fresh (w : World) : Op → Prop
  | Op.ctorRaw p => p = 0 ∨ w.holders p = 0
  | Op.assignRaw _ p => p = 0 ∨ w.holders p = 0
  | _ => True

instance Op.decidableFresh (w : World) (op : Op) : Decidable (Op.fresh w op) := by
  cases op <;> simp only [Op.fresh] <;> infer_instance

/-- The raw address the operation adopts, as a list with at most one entry. -/
def Op.adopts (w : World) : Op → List Nat
  | Op.ctorRaw p => if p = 0 then [] else [p]
  | Op.assignRaw self p => if (w.obj self).isSome ∧ p ≠ 0 then [p] else []
  | _ => []

/-- Every raw address is adopted while no live `ptr` instance holds it. -/
def ptr.Unaliased (w : World) : List Op → Prop
  | [] => True
  | op :: ops => op.fresh w ∧ ptr.Unaliased (ptr.step w op) ops

/-- After every operation of the program, no counter is shared by more than
`b` live `ptr` instances. -/
def ptr.Within (b : Nat) (w : World) : List Op → Prop
  | [] => True
  | op :: ops => (ptr.step w op).Bounded b ∧ ptr.Within b (ptr.step w op) ops

instance ptr.decidableUnaliased (w : World) (ops : List Op) : Decidable (ptr.Unaliased w ops) := by
  induction ops generalizing w with
  | nil => exact isTrue trivial
  | cons op ops ih => unfold ptr.Unaliased; exact instDecidableAnd

instance ptr.decidableWithin (b : Nat) (w : World) (ops : List Op) :
    Decidable (ptr.Within b w ops) := by
  induction ops generalizing w with
  | nil => exact isTrue trivial
  | cons op ops ih => unfold ptr.Within; exact instDecidableAnd

/-- The raw addresses the program adopts into `ptr` instances, in order. -/
def ptr.adopted (w : World) : List Op → List Nat
  | [] => []
  | op :: ops => op.adopts w ++ ptr.adopted (ptr.step w op) ops

/-- Every raw address is adopted while no live `array_ptr` instance holds it. -/
def array_ptr.Unaliased (w : World) : List Op → Prop
  | [] => True
  | op :: ops => op.fresh w ∧ array_ptr.Unaliased (array_ptr.step w op) ops

/-- After every operation of the program, no counter is shared by more than
`b` live `array_ptr` instances. -/
def array_ptr.Within (b : Nat) (w : World) : List Op → Prop
  | [] => True
  | op :: ops => (array_ptr.step w op).Bounded b ∧ array_ptr.Within b (array_ptr.step w op) ops

instance array_ptr.decidableUnaliased (w : World) (ops : List Op) :
    Decidable (array_ptr.Unaliased w ops) := by
  induction ops generalizing w with
  | nil => exact isTrue trivial
  | cons op ops ih => unfold array_ptr.Unaliased; exact instDecidableAnd

instance array_ptr.decidableWithin (b : Nat) (w : World) (ops : List Op) :
    Decidable (array_ptr.Within b w ops) := by
  induction ops generalizing w with
  | nil => exact isTrue trivial
  | cons op ops ih => unfold array_ptr.Within; exact instDecidableAnd

/-- The raw addresses the program adopts into `array_ptr` instances, in order. -/
def array_ptr.adopted (w : World) : List Op → List Nat
  | [] => []
  | op :: ops => op.adopts w ++ array_ptr.adopted (array_ptr.step w op) ops

/-- The common text of `ptr.Unaliased` and `array_ptr.Unaliased`. -/
def owning.Unaliased (del : World → Nat → World) (w : World) : List Op → Prop
  | [] => True
  | op :: ops => op.fresh w ∧ owning.Unaliased del (owning.step del w op) ops

/-- The common text of `ptr.adopted` and `array_ptr.adopted`. -/
def owning.adopted (del : World → Nat → World) (w : World) : List Op → List Nat
  | [] => []
  | op :: ops => op.adopts w ++ owning.adopted del (owning.step del w op) ops

/-- The count invariant of a state: the counter of every Valid instance
exists, holds a count of at least one that is the number of live instances
with that counter, and `copies()` returns that number. -/
def ptr.CountInv (w : World) : Prop :=
  ∀ i o, w.obj i = some o → ptr.valid o = true →
    ∃ k, w.counterAt o._counter = some k ∧ 1 ≤ k._count ∧
      k._count = w.sharers o._counter ∧ ptr.copies w o = w.sharers o._counter

/-- The program `p = new X; ptr<X> a(p);` followed by one copy construction
for each entry of `srcs`, from the instance the entry names. -/
def lineageProg (p : Nat) (srcs : List Nat) : List Op :=
  Op.alloc p 1 :: Op.ctorRaw p :: srcs.map Op.ctorCopy

/-- The state with `n` instances that share the one resource at `p`. -/
def World.lineage (p n : Nat) : World :=
  { objs := List.replicate n (some { _ptr := p, _counter := 1 })
    counters := [none, some { _count := n % UINT_MOD }]
    blocks := [(p, 1)]
    alive := [p]
    freed := []
    ub := false }

/-! ## Ownership of the adopted addresses -/

namespace World

end World

/-- The two-state invariant: every live instance has `_ptr` null if and only
if `_counter` null. -/
def World.TwoState (w : World) : Prop :=
  ∀ i o, w.obj i = some o → (o._ptr = 0 ↔ o._counter = 0)

/-- The state after `p = new X; ptr<X> a(p);`, then `2 ^ 32 - 2` copy
constructions from `a`, then `ptr<X> t;`: the instance `a` is `0`, the
instance `t` is `UINT_MAX`, and `UINT_MAX` instances share the counter of `a`. -/
def World.full : World :=
  ptr.run World.empty (lineageProg 1 (List.replicate (UINT_MAX - 1) 0) ++ [Op.ctor])

/-- The release of one instance: its destruction when the flag is set,
otherwise the assignment of null to it. -/
def releaseOp (x : Nat × Bool) : Op :=
  if x.2 then Op.dtor x.1 else Op.assignRaw x.1 0

/-- The state of a lineage of `n` instances `0 .. n - 1` on the resource at
`p`, of which the instances in `rel` have been released: the state is sound,
every instance holds `(p, 1)` or nothing, the instances not in `rel` hold
`(p, 1)`, the counter `1` has `n - rel.length` sharers, and the resource is
alive and never deallocated while an instance is left, deallocated once and
not alive when none is left. -/
structure World.Fam (p n : Nat) (rel : List Nat) (w : World) : Prop where
  sound : w.Sound
  shape : ∀ i o, w.obj i = some o →
    o = { _ptr := p, _counter := 1 } ∨ o = { _ptr := 0, _counter := 0 }
  rest : ∀ i, i < n → i ∉ rel → w.obj i = some { _ptr := p, _counter := 1 }
  cnt : w.sharers 1 + rel.length = n
  heap : if rel.length < n then w.freed = [] ∧ w.alive = [p] else w.freed = [p] ∧ w.alive = []

/-- The program `p = new X; ptr<X> a(p);`, one copy construction for each
entry of `srcs`, and then the releases `rel`, in that order. -/
def lastOwnerProg (p : Nat) (srcs : List Nat) (rel : List (Nat × Bool)) : List Op :=
  lineageProg p srcs ++ rel.map releaseOp

/-! ## Comparison and access

The result of `operator->`, `operator*` and `operator[]` is the address of
the object they denote; `none` is a failed `assert(_ptr)`. Addresses count in
elements, so the element `i` of a run at `p` has the address `p + i`, and the
order of addresses is the order of the natural numbers. -/

/-- The raw expression `p[i]`, by the address of the element it denotes. -/
def rawIndex (p i : Nat) : Nat := p + i

namespace ptr

/-- `ptr<X>::operator==`: `return _ptr == other._ptr;`. -/
def op_eq (a other : Obj) : Bool := a._ptr == other._ptr

/-- `ptr<X>::operator!=`: `return _ptr != other._ptr;`. -/
def op_ne (a other : Obj) : Bool := a._ptr != other._ptr

/-- `ptr<X>::operator<`: `return _ptr < other._ptr;`. -/
def op_lt (a other : Obj) : Bool := decide (a._ptr < other._ptr)

/-- `ptr<X>::operator<=`: `return _ptr <= other._ptr;`. -/
def op_le (a other : Obj) : Bool := decide (a._ptr ≤ other._ptr)

/-- `ptr<X>::operator>`: `return _ptr > other._ptr;`. -/
def op_gt (a other : Obj) : Bool := decide (a._ptr > other._ptr)

/-- `ptr<X>::operator>=`: `return _ptr >= other._ptr;`. -/
def op_ge (a other : Obj) : Bool := decide (a._ptr ≥ other._ptr)

/-- `ptr<X>::operator->`: `assert(_ptr); return _ptr;`. -/
def arrow (o : Obj) : Option Nat := if o._ptr ≠ 0 then some o._ptr else none

/-- `ptr<X>::operator*`: `assert(_ptr); return *_ptr;`. -/
def deref (o : Obj) : Option Nat := if o._ptr ≠ 0 then some o._ptr else none

/-- `ptr<X>::operator[](size_t i)`: `assert(_ptr); return _ptr[i];`. -/
def index (o : Obj) (i : Nat) : Option Nat := if o._ptr ≠ 0 then some (rawIndex o._ptr i) else none

/-- `ptr<X>::operator[](size_t i) const`: `assert(_ptr); return _ptr[i];`. -/
def index_const (o : Obj) (i : Nat) : Option Nat :=
  if o._ptr ≠ 0 then some (rawIndex o._ptr i) else none

end ptr

namespace array_ptr

/-- `array_ptr<X>::operator==`: `return _ptr == other._ptr;`. -/
def op_eq (a other : Obj) : Bool := a._ptr == other._ptr

/-- `array_ptr<X>::operator!=`: `return _ptr != other._ptr;`. -/
def op_ne (a other : Obj) : Bool := a._ptr != other._ptr

/-- `array_ptr<X>::operator<`: `return _ptr < other._ptr;`. -/
def op_lt (a other : Obj) : Bool := decide (a._ptr < other._ptr)

/-- `array_ptr<X>::operator<=`: `return _ptr <= other._ptr;`. -/
def op_le (a other : Obj) : Bool := decide (a._ptr ≤ other._ptr)

/-- `array_ptr<X>::operator>`: `return _ptr > other._ptr;`. -/
def op_gt (a other : Obj) : Bool := decide (a._ptr > other._ptr)

/-- `array_ptr<X>::operator>=`: `return _ptr >= other._ptr;`. -/
def op_ge (a other : Obj) : Bool := decide (a._ptr ≥ other._ptr)

/-- `array_ptr<X>::operator->`: `assert(_ptr); return _ptr;`. -/
def arrow (o : Obj) : Option Nat := if o._ptr ≠ 0 then some o._ptr else none

/-- `array_ptr<X>::operator*`: `assert(_ptr); return *_ptr;`. -/
def deref (o : Obj) : Option Nat := if o._ptr ≠ 0 then some o._ptr else none

/-- `array_ptr<X>::operator[](size_t i)`: `assert(_ptr); return _ptr[i];`. -/
def index (o : Obj) (i : Nat) : Option Nat := if o._ptr ≠ 0 then some (rawIndex o._ptr i) else none

/-- `array_ptr<X>::operator[](size_t i) const`: `assert(_ptr); return _ptr[i];`. -/
def index_const (o : Obj) (i : Nat) : Option Nat :=
  if o._ptr ≠ 0 then some (rawIndex o._ptr i) else none

end array_ptr


/-! ## Comparing the two class templates -/

/-- The state `w` with `a` as the addresses of the alive elements. -/
def World.withAlive (w : World) (a : List Nat) : World := { w with alive := a }

/-! ## Lists of pointers -/

/-- The address the instance `i` holds (null when it holds none or its
lifetime has ended). -/
def World.addr (w : World) (i : Nat) : Nat :=
  match w.obj i with
  | some o => o._ptr
  | none => 0

/-- The instances of the list number `r`, when the copies are made in a state
with `base` instances: the list `0` is `l`, the list `r + 1` is the copy
number `r`. -/
def listIds (base : Nat) (l : List Nat) : Nat → List Nat
  | 0 => l
  | r + 1 => (List.range l.length).map (fun j => base + r * l.length + j)

/-- The count that `drop` on the instance `self` hands to `dec`: `drop`
executes `_counter->dec()` when `valid()` holds, and does not call `dec`
otherwise. -/
def World.decArg (w : World) (self : Nat) : Option Nat :=
  match w.obj self with
  | some o => if ptr.valid o then (w.counterAt o._counter).map (fun k => k._count) else none
  | none => none

/-- The count handed to `dec` in the copy assignment `self = other`, which
calls `grab`, and so `drop`, when `this != &other`. -/
def World.assignDec (w : World) (self other : Nat) : Option Nat :=
  if self ≠ other then
    match w.obj other with
    | some _ => w.decArg self
    | none => none
  else none

/-- The count handed to `dec` in one operation, when the operation calls
`dec`. -/
def World.stepDec (w : World) : Op → Option Nat
  | Op.alloc _ _ => none
  | Op.ctor => none
  | Op.ctorCopy other =>
    if (w.obj other).isSome then
      (w.addObj { _ptr := 0, _counter := 0 }).assignDec w.objs.length other
    else none
  | Op.ctorRaw _ => (w.addObj { _ptr := 0, _counter := 0 }).decArg w.objs.length
  | Op.assign self other =>
    if (w.obj self).isSome && (w.obj other).isSome then w.assignDec self other else none
  | Op.assignRaw self _ => if (w.obj self).isSome then w.decArg self else none
  | Op.dtor self => if (w.obj self).isSome then w.decArg self else none

/-- The counts handed to `dec` in a program on `ptr<X>` instances, in order. -/
def ptr.decs (w : World) : List Op → List Nat
  | [] => []
  | op :: ops => (w.stepDec op).toList ++ ptr.decs (ptr.step w op) ops

/-- The counts handed to `dec` in a program on `array_ptr<X>` instances, in
order. -/
def array_ptr.decs (w : World) : List Op → List Nat
  | [] => []
  | op :: ops => (w.stepDec op).toList ++ array_ptr.decs (array_ptr.step w op) ops

/-- The common text of `ptr.decs` and `array_ptr.decs`. -/
def owning.decs (del : World → Nat → World) (w : World) : List Op → List Nat
  | [] => []
  | op :: ops => (w.stepDec op).toList ++ owning.decs del (owning.step del w op) ops

/-! ## Lineages -/

/-- What every reachable state has, whatever the program: the counter store
has the null address; the counter a live instance names is an address of the
counter store; two live instances with the same non-null counter have the
same address; and every stored count is a value of `unsigned`. -/
structure World.Lineages (w : World) : Prop where
  nz : 0 < w.counters.length
  lt : ∀ i o, w.obj i = some o → o._counter < w.counters.length
  addr : ∀ i j oi oj, w.obj i = some oi → w.obj j = some oj → oi._counter ≠ 0 →
    oi._counter = oj._counter → oi._ptr = oj._ptr
  rng : ∀ c k, w.counterAt c = some k → k._count < UINT_MOD

/-! ## Frame of an operation -/

/-- What an operation on the instance `t` leaves alone, between the state
`w` before it and the state `v` after it, when `t` held the data members `ot`
before, `newc` is the counter `t` gets, and `gone` lists the addresses of the
objects that the deallocation of `ot._ptr` destroys: the data members of
every other instance; every counter but that of `ot` and `newc`; the
deallocations, but for at most one deallocation of `ot._ptr`; and the alive
objects, but for those in `gone`. -/
def World.Frame (w v : World) (t : Nat) (ot : Obj) (newc : Nat) (gone : List Nat) : Prop :=
  (∀ j, j ≠ t → v.obj j = w.obj j) ∧
  (∀ d, d ≠ ot._counter → d ≠ newc → v.counterAt d = w.counterAt d) ∧
  (v.freed = w.freed ∨ v.freed = w.freed ++ [ot._ptr]) ∧
  (∀ q, q ∉ gone → v.alive.count q = w.alive.count q)
/-! ## Basic facts -/

theorem ptr_drop_eq (w : World) (self : Nat) : ptr.drop w self = owning.drop World.delete w self :=
  rfl

theorem array_ptr_drop_eq (w : World) (self : Nat) :
    array_ptr.drop w self = owning.drop World.deleteArray w self := rfl

theorem ptr_step_eq (w : World) (op : Op) : ptr.step w op = owning.step World.delete w op := by
  cases op <;> rfl

theorem array_ptr_step_eq (w : World) (op : Op) :
    array_ptr.step w op = owning.step World.deleteArray w op := by
  cases op <;> rfl

theorem ptr_run_eq (w : World) (ops : List Op) : ptr.run w ops = owning.run World.delete w ops := by
  induction ops generalizing w with
  | nil => rfl
  | cons op ops ih => simp only [ptr.run, owning.run, List.foldl_cons, ptr_step_eq] at ih ⊢; exact ih _

theorem array_ptr_run_eq (w : World) (ops : List Op) :
    array_ptr.run w ops = owning.run World.deleteArray w ops := by
  induction ops generalizing w with
  | nil => rfl
  | cons op ops ih =>
    simp only [array_ptr.run, owning.run, List.foldl_cons, array_ptr_step_eq] at ih ⊢; exact ih _

theorem World.delete_dealloc : Dealloc World.delete :=
  { objs := fun _ _ => rfl, counters := fun _ _ => rfl, ub := fun _ _ => rfl,
    freed := fun _ _ => rfl }

theorem World.deleteArray_dealloc : Dealloc World.deleteArray :=
  { objs := fun _ _ => rfl, counters := fun _ _ => rfl, ub := fun _ _ => rfl,
    freed := fun _ _ => rfl }

theorem UINT_MOD_eq : UINT_MOD = 4294967296 := by decide

theorem UINT_MAX_eq : UINT_MAX = 4294967295 := by decide

/-- Decrementing the count of `s` sharers, `1 ≤ s ≤ 2 ^ 32`. -/
theorem dec_sharers (s : Nat) (h1 : 1 ≤ s) (h2 : s ≤ UINT_MOD) :
    (s % UINT_MOD + UINT_MOD - 1) % UINT_MOD = (s - 1) % UINT_MOD ∧ (s - 1) % UINT_MOD = s - 1 := by
  rw [UINT_MOD_eq] at *
  omega

/-- Incrementing the count of `s` sharers. -/
theorem inc_sharers (s : Nat) : (s % UINT_MOD + 1) % UINT_MOD = (s + 1) % UINT_MOD := by
  rw [UINT_MOD_eq]
  omega

theorem List.countP_set_add {α : Type} (p : α → Bool) (l : List α) (i : Nat) (x y : α)
    (h : l[i]? = some x) :
    (l.set i y).countP p + (if p x then 1 else 0) = l.countP p + (if p y then 1 else 0) := by
  induction l generalizing i with
  | nil => simp at h
  | cons a l ih =>
    cases i with
    | zero =>
      simp only [List.getElem?_cons_zero, Option.some.injEq] at h
      subst h
      simp only [List.set_cons_zero, List.countP_cons]
      omega
    | succ i =>
      simp only [List.getElem?_cons_succ] at h
      have := ih i h
      simp only [List.set_cons_succ, List.countP_cons]
      omega

theorem List.countP_pos_of_getElem? {α : Type} (p : α → Bool) (l : List α) (i : Nat) (x : α)
    (h : l[i]? = some x) (hp : p x = true) : 1 ≤ l.countP p := by
  have hm : x ∈ l := List.getElem?_mem h
  exact List.countP_pos_iff.mpr ⟨x, hm, hp⟩

namespace World

theorem obj_eq_some {w : World} {i : Nat} {o : Obj} :
    w.obj i = some o ↔ w.objs[i]? = some (some o) := by
  unfold obj
  cases h : w.objs[i]? with
  | none => simp
  | some x => cases x <;> simp

theorem counterAt_eq_some {w : World} {c : Nat} {k : ptr_counter} :
    w.counterAt c = some k ↔ w.counters[c]? = some (some k) := by
  unfold counterAt
  cases h : w.counters[c]? with
  | none => simp
  | some x => cases x <;> simp

theorem obj_lt {w : World} {i : Nat} {o : Obj} (h : w.obj i = some o) : i < w.objs.length := by
  rw [obj_eq_some] at h
  exact (List.getElem?_eq_some.mp h).1

theorem counterAt_lt {w : World} {c : Nat} {k : ptr_counter} (h : w.counterAt c = some k) :
    c < w.counters.length := by
  rw [counterAt_eq_some] at h
  exact (List.getElem?_eq_some.mp h).1

theorem obj_of_set {w v : World} {i : Nat} {x : Option Obj} (h : v.objs = w.objs.set i x)
    (hi : i < w.objs.length) (j : Nat) : v.obj j = if j = i then x else w.obj j := by
  unfold obj
  rw [h]
  simp only [List.getElem?_set]
  by_cases hji : j = i
  · subst hji; simp [hi]
  · have : ¬ i = j := fun h => hji h.symm
    simp [hji, this]

theorem counterAt_of_set {w v : World} {c : Nat} {x : Option ptr_counter}
    (h : v.counters = w.counters.set c x) (hc : c < w.counters.length) (d : Nat) :
    v.counterAt d = if d = c then x else w.counterAt d := by
  unfold counterAt
  rw [h]
  simp only [List.getElem?_set]
  by_cases hdc : d = c
  · subst hdc; simp [hc]
  · have : ¬ c = d := fun h => hdc h.symm
    simp [hdc, this]

theorem sharers_of_set {w v : World} {i : Nat} {x y : Option Obj} (h : v.objs = w.objs.set i y)
    (hx : w.objs[i]? = some x) (c : Nat) :
    v.sharers c + (if uses c x then 1 else 0) = w.sharers c + (if uses c y then 1 else 0) := by
  unfold sharers
  rw [h]
  exact List.countP_set_add _ _ _ _ _ hx

theorem sharers_pos_of_obj {w : World} {i : Nat} {o : Obj} (h : w.obj i = some o) :
    1 ≤ w.sharers o._counter := by
  rw [obj_eq_some] at h
  exact List.countP_pos_of_getElem? _ _ _ _ h (by simp [uses])

theorem sharers_le_length (w : World) (c : Nat) : w.sharers c ≤ w.objs.length :=
  List.countP_le_length _

/-- What `Bounded` says of each counter. -/
theorem Bounded.le {b : Nat} {w : World} (h : w.Bounded b) (c : Nat) (hc : c ≠ 0) :
    w.sharers c ≤ b := by
  by_cases h0 : w.sharers c = 0
  · omega
  · have hpos : 0 < w.objs.countP (uses c) := Nat.pos_of_ne_zero h0
    obtain ⟨x, hx, hu⟩ := List.countP_pos_iff.mp hpos
    have hb := h x hx
    cases x with
    | none => simp [uses] at hu
    | some o =>
      simp only [uses, beq_iff_eq] at hu
      subst hu
      simpa [slotBounded, hc] using hb

theorem Bounded.mono {b d : Nat} {w : World} (h : w.Bounded b) (hbd : b ≤ d) : w.Bounded d := by
  intro x hx
  have hb := h x hx
  cases x with
  | none => rfl
  | some o =>
    simp only [slotBounded, Bool.or_eq_true, beq_iff_eq, decide_eq_true_eq] at hb ⊢
    rcases hb with hb | hb
    · exact Or.inl hb
    · exact Or.inr (by omega)

end World

namespace owning

variable {del : World → Nat → World}

theorem drop_none {w : World} {self : Nat} (h : w.obj self = none) : drop del w self = w := by
  simp [drop, h]

theorem drop_invalid {w : World} {self : Nat} {o : Obj} (ho : w.obj self = some o)
    (hv : ptr.valid o = false) : drop del w self = w := by
  simp [drop, ho, hv]

theorem counterAt_storeCounter {w : World} {c : Nat} {k k1 : ptr_counter}
    (hk : w.counterAt c = some k) (d : Nat) :
    (w.storeCounter c k1).counterAt d = if d = c then some k1 else w.counterAt d := by
  have hlt := World.counterAt_lt hk
  unfold World.counterAt World.storeCounter
  simp only [List.getElem?_set]
  by_cases hdc : d = c
  · subst hdc; simp [hlt]
  · have : ¬ c = d := fun h => hdc h.symm
    simp [hdc, this]

/-- The text of `drop` on a Valid instance whose counter exists. -/
theorem drop_valid {w : World} {self : Nat} {o : Obj} {k : ptr_counter}
    (ho : w.obj self = some o) (hv : ptr.valid o = true)
    (hk : w.counterAt o._counter = some k) :
    drop del w self =
      if k.dec._count = 0 then
        ((del (w.storeCounter o._counter k.dec) o._ptr).deleteCounter o._counter).setObj self
          { _ptr := 0, _counter := 0 }
      else (w.storeCounter o._counter k.dec).setObj self { _ptr := 0, _counter := 0 } := by
  have hu : ptr.unreferenced (w.storeCounter o._counter k.dec) o = decide (k.dec._count = 0) := by
    simp only [ptr.unreferenced, ptr.copies, hv, counterAt_storeCounter hk, if_true]
    by_cases h0 : k.dec._count = 0 <;> simp [h0]
  simp only [drop, ho, hv, hk, hu, if_true, decide_eq_true_eq]
  split <;> rfl

theorem drop_valid_objs (hd : Dealloc del) {w : World} {self : Nat} {o : Obj} {k : ptr_counter}
    (ho : w.obj self = some o) (hv : ptr.valid o = true)
    (hk : w.counterAt o._counter = some k) :
    (drop del w self).objs = w.objs.set self (some { _ptr := 0, _counter := 0 }) := by
  rw [drop_valid ho hv hk]
  split <;> simp [World.setObj, World.deleteCounter, World.storeCounter, hd.objs]

theorem drop_valid_counters (hd : Dealloc del) {w : World} {self : Nat} {o : Obj}
    {k : ptr_counter} (ho : w.obj self = some o) (hv : ptr.valid o = true)
    (hk : w.counterAt o._counter = some k) :
    (drop del w self).counters =
      w.counters.set o._counter (if k.dec._count = 0 then none else some k.dec) := by
  rw [drop_valid ho hv hk]
  split <;> simp [World.setObj, World.deleteCounter, World.storeCounter, hd.counters]

theorem drop_valid_freed (hd : Dealloc del) {w : World} {self : Nat} {o : Obj} {k : ptr_counter}
    (ho : w.obj self = some o) (hv : ptr.valid o = true)
    (hk : w.counterAt o._counter = some k) :
    (drop del w self).freed = if k.dec._count = 0 then w.freed ++ [o._ptr] else w.freed := by
  rw [drop_valid ho hv hk]
  split <;> simp [World.setObj, World.deleteCounter, World.storeCounter, hd.freed]

theorem drop_valid_ub (hd : Dealloc del) {w : World} {self : Nat} {o : Obj} {k : ptr_counter}
    (ho : w.obj self = some o) (hv : ptr.valid o = true)
    (hk : w.counterAt o._counter = some k) :
    (drop del w self).ub = w.ub := by
  rw [drop_valid ho hv hk]
  split <;> simp [World.setObj, World.deleteCounter, World.storeCounter, hd.ub]

end owning

namespace owning

variable {del : World → Nat → World}

theorem valid_iff {o : Obj} : ptr.valid o = true ↔ o._ptr ≠ 0 ∧ o._counter ≠ 0 := by
  simp [ptr.valid]

/-- The counter of a live instance with a non-null `_counter`, in a sound state. -/
theorem Sound_counterAt {w : World} (hs : w.Sound) {i : Nat} {o : Obj} (ho : w.obj i = some o)
    (hc : o._counter ≠ 0) :
    w.counterAt o._counter = some { _count := w.sharers o._counter % UINT_MOD } := by
  have h1 := World.sharers_pos_of_obj ho
  rw [hs.cnt]
  have : ¬ (o._counter = 0 ∨ w.sharers o._counter = 0) := by omega
  simp [this]

theorem sound_drop (hd : Dealloc del) {w : World} (hs : w.Sound) (self : Nat) :
    (drop del w self).Sound := by
  cases ho : w.obj self with
  | none => rw [drop_none ho]; exact hs
  | some o =>
    cases hv : ptr.valid o with
    | false => rw [drop_invalid ho hv]; exact hs
    | true =>
      obtain ⟨hp0, hc0⟩ := valid_iff.mp hv
      have hs1 := World.sharers_pos_of_obj ho
      have hsM := hs.bnd _ hc0
      have hk := Sound_counterAt hs ho hc0
      have hobjs := drop_valid_objs hd ho hv hk
      have hcnt := drop_valid_counters hd ho hv hk
      have hub := drop_valid_ub hd ho hv hk
      have hlt := World.obj_lt ho
      have hclt := World.counterAt_lt hk
      have hdec := dec_sharers _ hs1 hsM
      simp only [ptr_counter.dec] at hcnt
      rw [hdec.1, hdec.2] at hcnt
      have hsh := fun c => World.sharers_of_set hobjs (World.obj_eq_some.mp ho) c
      simp only [World.uses, beq_iff_eq] at hsh
      refine ⟨by rw [hub]; exact hs.ub, by rw [hcnt, List.length_set]; exact hs.nz, ?_, ?_, ?_⟩
      · intro i oi hi
        rw [World.obj_of_set hobjs hlt] at hi
        by_cases his : i = self
        · simp only [his, if_true, Option.some.injEq] at hi
          subst hi; simp
        · simp only [his, if_false] at hi
          exact hs.two i oi hi
      · intro c
        rw [World.counterAt_of_set hcnt hclt]
        have h := hsh c
        by_cases hcc : c = o._counter
        · subst hcc
          simp only [if_true] at h ⊢
          have h0 : ¬ (0 = o._counter) := fun h => hc0 h.symm
          simp only [h0, if_false] at h
          have he : (drop del w self).sharers o._counter = w.sharers o._counter - 1 := by omega
          rw [he]
          by_cases h1 : w.sharers o._counter - 1 = 0
          · simp [h1]
          · simp [h1, hc0, hdec.2]
        · have hcc2 : ¬ (o._counter = c) := fun h => hcc h.symm
          simp only [hcc, hcc2, if_false] at h ⊢
          rw [hs.cnt c]
          by_cases hc : c = 0
          · simp [hc]
          · have h0 : ¬ (0 = c) := fun h => hc h.symm
            simp only [h0, if_false] at h
            have he : (drop del w self).sharers c = w.sharers c := by omega
            rw [he]
      · intro c hc
        have h := hsh c
        have h0 : ¬ (0 = c) := fun h => hc h.symm
        simp only [h0, if_false] at h
        have := hs.bnd c hc
        omega

end owning

namespace World

theorem Sound.congr {w v : World} (hs : w.Sound) (ho : v.objs = w.objs)
    (hc : v.counters = w.counters) (hu : v.ub = w.ub) : v.Sound := by
  refine ⟨by rw [hu]; exact hs.ub, by rw [hc]; exact hs.nz, ?_, ?_, ?_⟩
  · intro i o h
    exact hs.two i o (by simpa [obj, ho] using h)
  · intro c
    have := hs.cnt c
    simpa [counterAt, sharers, ho, hc] using this
  · intro c h
    have := hs.bnd c h
    simpa [sharers, ho] using this

theorem empty_sound : World.empty.Sound := by
  refine ⟨rfl, by decide, ?_, ?_, ?_⟩
  · intro i o h
    simp [obj, empty] at h
  · intro c
    cases c <;> simp [counterAt, sharers, empty]
  · intro c _
    simp [sharers, empty]

/-- An instance that is not Valid has both data members null, in a sound state. -/
theorem Sound.invalid_eq {w : World} (hs : w.Sound) {i : Nat} {o : Obj} (ho : w.obj i = some o)
    (hv : ptr.valid o = false) : o = { _ptr := 0, _counter := 0 } := by
  have h2 := hs.two i o ho
  have : ¬ (o._ptr ≠ 0 ∧ o._counter ≠ 0) := by
    intro h
    rw [← owning.valid_iff] at h
    rw [h] at hv
    cases hv
  cases o with
  | mk p c =>
    simp only at h2 this
    have hp : p = 0 := by
      by_contra hp
      exact this ⟨hp, fun hc => hp (h2.mpr hc)⟩
    have hc : c = 0 := h2.mp hp
    subst hp; subst hc; rfl

theorem obj_addObj (w : World) (o : Obj) (j : Nat) :
    (w.addObj o).obj j = if j = w.objs.length then some o else w.obj j := by
  unfold obj addObj
  by_cases h : j = w.objs.length
  · subst h; simp
  · simp only [h, if_false]
    rcases Nat.lt_or_gt_of_ne h with h1 | h1
    · rw [List.getElem?_append_left h1]
    · rw [List.getElem?_eq_none (by simp; omega), List.getElem?_eq_none (by omega)]

theorem sharers_addObj (w : World) (o : Obj) (c : Nat) :
    (w.addObj o).sharers c = w.sharers c + (if o._counter = c then 1 else 0) := by
  simp [sharers, addObj, uses, List.countP_append, List.countP_cons]

theorem Sound.addObj {w : World} (hs : w.Sound) :
    (w.addObj { _ptr := 0, _counter := 0 }).Sound := by
  refine ⟨hs.ub, hs.nz, ?_, ?_, ?_⟩
  · intro i o h
    rw [obj_addObj] at h
    by_cases hi : i = w.objs.length
    · simp only [hi, if_true, Option.some.injEq] at h
      subst h; simp
    · simp only [hi, if_false] at h
      exact hs.two i o h
  · intro c
    have h1 : (w.addObj { _ptr := 0, _counter := 0 }).counterAt c = w.counterAt c := rfl
    rw [h1, sharers_addObj, hs.cnt c]
    by_cases hc : c = 0
    · simp [hc]
    · have h0 : ¬ (0 = c) := fun h => hc h.symm
      simp [h0]
  · intro c hc
    rw [sharers_addObj]
    have h0 : ¬ (0 = c) := fun h => hc h.symm
    simp only [h0, if_false, Nat.add_zero]
    exact hs.bnd c hc

end World

namespace owning

variable {del : World → Nat → World}

/-- The instances after `drop`, in a sound state: `self` has both data
members null, the other instances are as before. -/
theorem drop_obj (hd : Dealloc del) {w : World} (hs : w.Sound) {self : Nat} {o : Obj}
    (ho : w.obj self = some o) (j : Nat) :
    (drop del w self).obj j =
      if j = self then some { _ptr := 0, _counter := 0 } else w.obj j := by
  cases hv : ptr.valid o with
  | false =>
    rw [drop_invalid ho hv]
    by_cases hj : j = self
    · subst hj
      simp only [if_true, ho, hs.invalid_eq ho hv]
    · simp [hj]
  | true =>
    obtain ⟨_, hc0⟩ := valid_iff.mp hv
    have hk := Sound_counterAt hs ho hc0
    exact World.obj_of_set (drop_valid_objs hd ho hv hk) (World.obj_lt ho) j

end owning

namespace owning

variable {del : World → Nat → World}

theorem grab_null (w : World) (self counter : Nat) :
    grab del w self 0 counter = drop del w self := by
  simp [grab]

/-- The text of `grab` with a donor counter that exists. -/
theorem grab_copy {w : World} {self p c : Nat} {k : ptr_counter} (hp : p ≠ 0) (hc : c ≠ 0)
    (hk : (drop del w self).counterAt c = some k) :
    grab del w self p c =
      ((drop del w self).storeCounter c k.inc).setObj self { _ptr := p, _counter := c } := by
  have hk2 : ((drop del w self).setObj self { _ptr := p, _counter := c }).counterAt c = some k := hk
  simp only [grab, hp, hc, hk2, if_false, ne_eq, not_false_eq_true, if_true]
  rfl

theorem counterAt_newCounter (w : World) (d : Nat) :
    w.newCounter.counterAt d =
      if d = w.counters.length then some ptr_counter.ctor else w.counterAt d := by
  unfold World.counterAt World.newCounter
  by_cases h : d = w.counters.length
  · subst h; simp
  · simp only [h, if_false]
    rcases Nat.lt_or_gt_of_ne h with h1 | h1
    · rw [List.getElem?_append_left h1]
    · rw [List.getElem?_eq_none (by simp; omega), List.getElem?_eq_none (by omega)]

theorem ctor_inc : ptr_counter.ctor.inc = { _count := 1 } := by decide

/-- The text of `grab` without a donor counter. -/
theorem grab_raw {w : World} {self p : Nat} (hp : p ≠ 0) :
    grab del w self p 0 =
      ((drop del w self).newCounter.storeCounter (drop del w self).counters.length
        { _count := 1 }).setObj self
        { _ptr := p, _counter := (drop del w self).counters.length } := by
  have hk2 : ((drop del w self).newCounter.setObj self
      { _ptr := p, _counter := (drop del w self).counters.length }).counterAt
      (drop del w self).counters.length = some ptr_counter.ctor := by
    have := counterAt_newCounter (drop del w self) (drop del w self).counters.length
    simpa using this
  simp only [grab, hp, hk2, if_false, ne_eq, not_true_eq_false, ctor_inc]
  rfl

/-- Adopting the pair `(p, c)` of a live instance into the instance `self`,
whose data members are null. -/
theorem sound_adopt_copy {w : World} (hs : w.Sound) {self p c : Nat}
    (ho : w.obj self = some { _ptr := 0, _counter := 0 }) (hp : p ≠ 0) (hc : c ≠ 0)
    (h1 : 1 ≤ w.sharers c) (hb : w.sharers c < UINT_MOD) :
    ((w.storeCounter c { _count := (w.sharers c % UINT_MOD + 1) % UINT_MOD }).setObj self
      { _ptr := p, _counter := c }).Sound := by
  have hk : w.counterAt c = some { _count := w.sharers c % UINT_MOD } := by
    rw [hs.cnt]
    have : ¬ (c = 0 ∨ w.sharers c = 0) := by omega
    simp [this]
  have hlt := World.obj_lt ho
  have hclt := World.counterAt_lt hk
  have hobjs : ((w.storeCounter c { _count := (w.sharers c % UINT_MOD + 1) % UINT_MOD }).setObj
      self { _ptr := p, _counter := c }).objs = w.objs.set self (some { _ptr := p, _counter := c }) :=
    rfl
  have hcnt : ((w.storeCounter c { _count := (w.sharers c % UINT_MOD + 1) % UINT_MOD }).setObj
      self { _ptr := p, _counter := c }).counters =
      w.counters.set c (some { _count := (w.sharers c % UINT_MOD + 1) % UINT_MOD }) := rfl
  have hsh := fun d => World.sharers_of_set hobjs (World.obj_eq_some.mp ho) d
  simp only [World.uses, beq_iff_eq] at hsh
  refine ⟨hs.ub, by rw [hcnt, List.length_set]; exact hs.nz, ?_, ?_, ?_⟩
  · intro i oi hi
    rw [World.obj_of_set hobjs hlt] at hi
    by_cases his : i = self
    · simp only [his, if_true, Option.some.injEq] at hi
      subst hi; simp [hp, hc]
    · simp only [his, if_false] at hi
      exact hs.two i oi hi
  · intro d
    rw [World.counterAt_of_set hcnt hclt]
    have h := hsh d
    by_cases hd0 : d = 0
    · subst hd0
      have : ¬ (0 = c) := fun h => hc h.symm
      simp only [this, if_false]
      rw [hs.cnt 0]; simp
    · have h0 : ¬ (0 = d) := fun h => hd0 h.symm
      simp only [h0, if_false, Nat.add_zero] at h
      by_cases hdc : d = c
      · subst hdc
        simp only [if_true] at h ⊢
        rw [h, inc_sharers]
        simp [hd0]
      · have hcd : ¬ (c = d) := fun h => hdc h.symm
        simp only [hdc, hcd, if_false, Nat.add_zero] at h ⊢
        rw [h, hs.cnt d]
  · intro d hd0
    have h := hsh d
    have h0 : ¬ (0 = d) := fun h => hd0 h.symm
    simp only [h0, if_false, Nat.add_zero] at h
    have := hs.bnd d hd0
    by_cases hcd : c = d
    · subst hcd; simp only [if_true] at h; omega
    · simp only [hcd, if_false, Nat.add_zero] at h; omega

/-- No live instance has a `_counter` beyond the counter store, in a sound state. -/
theorem Sound_sharers_fresh {w : World} (hs : w.Sound) {c : Nat} (hc : w.counters.length ≤ c) :
    w.sharers c = 0 := by
  have h := hs.cnt c
  have hn : w.counterAt c = none := by
    unfold World.counterAt
    rw [List.getElem?_eq_none hc]; rfl
  rw [hn] at h
  have hz := hs.nz
  by_contra h0
  have : ¬ (c = 0 ∨ w.sharers c = 0) := by omega
  simp [this] at h

/-- Adopting `p` with a new counter into the instance `self`, whose data
members are null. -/
theorem sound_adopt_raw {w : World} (hs : w.Sound) {self p : Nat}
    (ho : w.obj self = some { _ptr := 0, _counter := 0 }) (hp : p ≠ 0) :
    ((w.newCounter.storeCounter w.counters.length { _count := 1 }).setObj self
      { _ptr := p, _counter := w.counters.length }).Sound := by
  have hlt := World.obj_lt ho
  have hz := hs.nz
  have hfresh := Sound_sharers_fresh hs (Nat.le_refl _)
  have hobjs : ((w.newCounter.storeCounter w.counters.length { _count := 1 }).setObj self
      { _ptr := p, _counter := w.counters.length }).objs =
      w.objs.set self (some { _ptr := p, _counter := w.counters.length }) := rfl
  have hcnt : ((w.newCounter.storeCounter w.counters.length { _count := 1 }).setObj self
      { _ptr := p, _counter := w.counters.length }).counters =
      w.counters ++ [some { _count := 1 }] := by
    simp [World.setObj, World.storeCounter, World.newCounter]
  have hcat : ∀ d, ((w.newCounter.storeCounter w.counters.length { _count := 1 }).setObj self
      { _ptr := p, _counter := w.counters.length }).counterAt d =
      if d = w.counters.length then some { _count := 1 } else w.counterAt d := by
    intro d
    unfold World.counterAt
    rw [hcnt]
    by_cases h : d = w.counters.length
    · subst h; simp
    · simp only [h, if_false]
      rcases Nat.lt_or_gt_of_ne h with h1 | h1
      · rw [List.getElem?_append_left h1]
      · rw [List.getElem?_eq_none (by simp; omega), List.getElem?_eq_none (by omega)]
  have hsh := fun d => World.sharers_of_set hobjs (World.obj_eq_some.mp ho) d
  simp only [World.uses, beq_iff_eq] at hsh
  refine ⟨hs.ub, by rw [hcnt]; simp, ?_, ?_, ?_⟩
  · intro i oi hi
    rw [World.obj_of_set hobjs hlt] at hi
    by_cases his : i = self
    · simp only [his, if_true, Option.some.injEq] at hi
      subst hi
      simp only [hp, false_iff]
      omega
    · simp only [his, if_false] at hi
      exact hs.two i oi hi
  · intro d
    rw [hcat]
    have h := hsh d
    by_cases hd0 : d = 0
    · subst hd0
      have : ¬ (0 = w.counters.length) := by omega
      simp only [this, if_false]
      rw [hs.cnt 0]; simp
    · have h0 : ¬ (0 = d) := fun h => hd0 h.symm
      simp only [h0, if_false, Nat.add_zero] at h
      by_cases hdc : d = w.counters.length
      · subst hdc
        simp only [if_true] at h ⊢
        rw [h, hfresh]
        simp [hd0, UINT_MOD_eq]
      · have hcd : ¬ (w.counters.length = d) := fun h => hdc h.symm
        simp only [hdc, hcd, if_false, Nat.add_zero] at h ⊢
        rw [h, hs.cnt d]
  · intro d hd0
    have h := hsh d
    have h0 : ¬ (0 = d) := fun h => hd0 h.symm
    simp only [h0, if_false, Nat.add_zero] at h
    have := hs.bnd d hd0
    by_cases hcd : w.counters.length = d
    · subst hcd
      simp only [if_true] at h
      rw [h, hfresh, UINT_MOD_eq]; omega
    · simp only [hcd, if_false, Nat.add_zero] at h; omega

end owning

namespace owning

variable {del : World → Nat → World}

theorem sound_grab (hd : Dealloc del) {w : World} (hs : w.Sound) {self : Nat} {o0 : Obj}
    (ho : w.obj self = some o0) (p c : Nat)
    (hsrc : c ≠ 0 → ∃ j oj, j ≠ self ∧ w.obj j = some oj ∧ oj._counter = c)
    (hb : (grab del w self p c).Bounded UINT_MOD) : (grab del w self p c).Sound := by
  have hs1 := sound_drop hd hs self
  have ho1 : (drop del w self).obj self = some { _ptr := 0, _counter := 0 } := by
    rw [drop_obj hd hs ho]; simp
  by_cases hp : p = 0
  · subst hp; rw [grab_null]; exact hs1
  by_cases hc : c = 0
  · subst hc; rw [grab_raw hp]; exact sound_adopt_raw hs1 ho1 hp
  obtain ⟨j, oj, hj, hoj, hjc⟩ := hsrc hc
  have hoj1 : (drop del w self).obj j = some oj := by
    rw [drop_obj hd hs ho]; simp [hj, hoj]
  have h1 : 1 ≤ (drop del w self).sharers c := by
    have := World.sharers_pos_of_obj hoj1
    rwa [hjc] at this
  have hk : (drop del w self).counterAt c =
      some { _count := (drop del w self).sharers c % UINT_MOD } := by
    have := Sound_counterAt hs1 hoj1 (by rw [hjc]; exact hc)
    rwa [hjc] at this
  rw [grab_copy hp hc hk] at hb ⊢
  have hsh := @World.sharers_of_set (drop del w self)
    (((drop del w self).storeCounter c
      (ptr_counter.inc { _count := (drop del w self).sharers c % UINT_MOD })).setObj self
      { _ptr := p, _counter := c }) self _ _ rfl (World.obj_eq_some.mp ho1) c
  simp only [World.uses, beq_iff_eq, hc, if_true] at hsh
  have hbc := hb.le c hc
  have h0 : ¬ (0 = c) := fun h => hc h.symm
  simp only [h0, if_false, Nat.add_zero] at hsh
  exact sound_adopt_copy hs1 ho1 hp hc h1 (by omega)

theorem obj_endLife {w : World} {i : Nat} (hi : i < w.objs.length) (j : Nat) :
    (w.endLife i).obj j = if j = i then none else w.obj j := by
  have := World.obj_of_set (rfl : (w.endLife i).objs = w.objs.set i none) hi j
  rw [this]

theorem sound_endLife {w : World} (hs : w.Sound) {self : Nat}
    (ho : w.obj self = some { _ptr := 0, _counter := 0 }) : (w.endLife self).Sound := by
  have hlt := World.obj_lt ho
  have hsh := fun d => World.sharers_of_set (rfl : (w.endLife self).objs = w.objs.set self none)
    (World.obj_eq_some.mp ho) d
  simp only [World.uses, beq_iff_eq] at hsh
  have hsh2 : ∀ d, d ≠ 0 → (w.endLife self).sharers d = w.sharers d := by
    intro d hd0
    have h := hsh d
    have h0 : ¬ (0 = d) := fun h => hd0 h.symm
    simp only [h0, if_false, Nat.add_zero] at h
    simpa using h
  refine ⟨hs.ub, hs.nz, ?_, ?_, ?_⟩
  · intro i oi hi
    rw [obj_endLife hlt] at hi
    by_cases his : i = self
    · simp [his] at hi
    · simp only [his, if_false] at hi
      exact hs.two i oi hi
  · intro d
    have h1 : (w.endLife self).counterAt d = w.counterAt d := rfl
    rw [h1, hs.cnt d]
    by_cases hd0 : d = 0
    · simp [hd0]
    · rw [hsh2 d hd0]
  · intro d hd0
    rw [hsh2 d hd0]; exact hs.bnd d hd0

theorem sound_assign (hd : Dealloc del) {w : World} (hs : w.Sound) {self other : Nat}
    {o0 : Obj} (ho : w.obj self = some o0)
    (hb : (assign del w self other).Bounded UINT_MOD) : (assign del w self other).Sound := by
  unfold assign at hb ⊢
  by_cases hso : self = other
  · simp [hso]; exact hs
  · simp only [ne_eq, hso, not_false_eq_true, if_true] at hb ⊢
    cases hoo : w.obj other with
    | none => simp only [hoo] ; exact hs
    | some o =>
      simp only [hoo] at hb ⊢
      exact sound_grab hd hs ho _ _ (fun _ => ⟨other, o, fun h => hso h.symm, hoo, rfl⟩) hb

theorem sound_step (hd : Dealloc del) {w : World} (hs : w.Sound) (op : Op)
    (hb : (step del w op).Bounded UINT_MOD) : (step del w op).Sound := by
  cases op with
  | alloc p n => exact hs.congr rfl rfl rfl
  | ctor => exact hs.addObj
  | ctorCopy other =>
    simp only [step] at hb ⊢
    cases hoo : w.obj other with
    | none => simp [hoo]; exact hs
    | some o =>
      simp only [hoo, Option.isSome_some, if_true] at hb ⊢
      have hself : (w.addObj { _ptr := 0, _counter := 0 }).obj w.objs.length =
          some { _ptr := 0, _counter := 0 } := by
        rw [World.obj_addObj]; simp
      exact sound_assign hd hs.addObj hself hb
  | ctorRaw p =>
    simp only [step, ctorRaw, assignRaw] at hb ⊢
    have hself : (w.addObj { _ptr := 0, _counter := 0 }).obj w.objs.length =
        some { _ptr := 0, _counter := 0 } := by
      rw [World.obj_addObj]; simp
    exact sound_grab hd hs.addObj hself _ _ (fun h => absurd rfl h) hb
  | assign self other =>
    simp only [step] at hb ⊢
    cases hos : w.obj self with
    | none => simp [hos]; exact hs
    | some o0 =>
      cases hoo : w.obj other with
      | none => simp [hoo]; exact hs
      | some o =>
        simp only [hos, hoo, Option.isSome_some, Bool.and_self, if_true] at hb ⊢
        exact sound_assign hd hs hos hb
  | assignRaw self p =>
    simp only [step, assignRaw] at hb ⊢
    cases hos : w.obj self with
    | none => simp [hos]; exact hs
    | some o0 =>
      simp only [hos, Option.isSome_some, if_true] at hb ⊢
      exact sound_grab hd hs hos _ _ (fun h => absurd rfl h) hb
  | dtor self =>
    simp only [step, dtor] at hb ⊢
    cases hos : w.obj self with
    | none => simp [hos]; exact hs
    | some o0 =>
      simp only [hos, Option.isSome_some, if_true] at hb ⊢
      have ho1 : (drop del w self).obj self = some { _ptr := 0, _counter := 0 } := by
        rw [drop_obj hd hs hos]; simp
      exact sound_endLife (sound_drop hd hs self) ho1

theorem run_cons (w : World) (op : Op) (ops : List Op) :
    run del w (op :: ops) = run del (step del w op) ops := rfl

theorem run_append (w : World) (ops1 ops2 : List Op) :
    run del w (ops1 ++ ops2) = run del (run del w ops1) ops2 := by
  simp [run, List.foldl_append]

theorem sound_run (hd : Dealloc del) {w : World} (hs : w.Sound) (ops : List Op)
    (hb : Within del UINT_MOD w ops) : (run del w ops).Sound := by
  induction ops generalizing w with
  | nil => exact hs
  | cons op ops ih =>
    rw [run_cons]
    exact ih (sound_step hd hs op hb.1) hb.2

end owning

/-! ## One lineage of many instances -/

namespace owning

variable {del : World → Nat → World}

theorem run_lineage_start (p : Nat) (hp : p ≠ 0) :
    run del World.empty [Op.alloc p 1, Op.ctorRaw p] = World.lineage p 1 := by
  simp only [run, List.foldl_cons, List.foldl_nil, step, ctorRaw, assignRaw]
  have ho : ((World.empty.alloc p 1).addObj { _ptr := 0, _counter := 0 }).obj
      (World.empty.alloc p 1).objs.length = some { _ptr := 0, _counter := 0 } := by
    rw [World.obj_addObj]; simp
  rw [grab_raw hp, drop_invalid ho (by decide)]
  have he : World.elems p 1 = [p] := by simp [World.elems, List.range_succ]
  simp [World.lineage, World.empty, World.alloc, World.addObj, World.newCounter,
    World.storeCounter, World.setObj, he, UINT_MOD_eq]

theorem step_lineage (p n j : Nat) (hp : p ≠ 0) (hj : j < n) :
    step del (World.lineage p n) (Op.ctorCopy j) = World.lineage p (n + 1) := by
  have hoj : (World.lineage p n).obj j = some { _ptr := p, _counter := 1 } := by
    simp [World.obj, World.lineage, hj]
  have hlen : (World.lineage p n).objs.length = n := by simp [World.lineage]
  have hoj2 : ((World.lineage p n).addObj { _ptr := 0, _counter := 0 }).obj j =
      some { _ptr := p, _counter := 1 } := by
    rw [World.obj_addObj, hlen]
    have : ¬ j = n := by omega
    simp [this, hoj]
  have ho : ((World.lineage p n).addObj { _ptr := 0, _counter := 0 }).obj n =
      some { _ptr := 0, _counter := 0 } := by
    rw [World.obj_addObj, hlen]; simp
  have hnj : n ≠ j := by omega
  simp only [step, hoj, Option.isSome_some, if_true, ctorCopy, assign, hlen, hoj2, ne_eq, hnj,
    not_false_eq_true]
  have hk : (drop del ((World.lineage p n).addObj { _ptr := 0, _counter := 0 }) n).counterAt 1 =
      some { _count := n % UINT_MOD } := by
    rw [drop_invalid ho (by decide)]
    rfl
  rw [grab_copy hp (by decide) hk, drop_invalid ho (by decide)]
  simp only [World.lineage, World.addObj, World.storeCounter, World.setObj, ptr_counter.inc,
    inc_sharers]
  congr 1
  rw [List.set_append_right _ _ (by simp)]
  simp [List.replicate_succ']

theorem run_lineage_copies (p : Nat) (hp : p ≠ 0) (srcs : List Nat) (n : Nat)
    (h : ∀ i (hi : i < srcs.length), srcs[i] < n + i) :
    run del (World.lineage p n) (srcs.map Op.ctorCopy) = World.lineage p (n + srcs.length) := by
  induction srcs generalizing n with
  | nil => rfl
  | cons j rest ih =>
    rw [List.map_cons, run_cons, step_lineage p n j hp (by simpa using h 0 (by simp))]
    rw [ih (n + 1) (fun i hi => by
      have := h (i + 1) (by simpa using hi)
      simp only [List.getElem_cons_succ] at this
      omega)]
    simp only [List.length_cons]
    congr 1
    omega

/-- The state after `lineageProg`. -/
theorem run_lineageProg (p : Nat) (hp : p ≠ 0) (srcs : List Nat)
    (h : ∀ i (hi : i < srcs.length), srcs[i] < 1 + i) :
    run del World.empty (lineageProg p srcs) = World.lineage p (1 + srcs.length) := by
  have : lineageProg p srcs = [Op.alloc p 1, Op.ctorRaw p] ++ srcs.map Op.ctorCopy := rfl
  rw [this, run_append, run_lineage_start p hp, run_lineage_copies p hp srcs 1 h]

end owning

/-! ## From the common text to the two class templates -/

theorem ptr_within_iff (b : Nat) (w : World) (ops : List Op) :
    ptr.Within b w ops ↔ owning.Within World.delete b w ops := by
  induction ops generalizing w with
  | nil => exact Iff.rfl
  | cons op ops ih => simp only [ptr.Within, owning.Within, ptr_step_eq, ih]

theorem array_ptr_within_iff (b : Nat) (w : World) (ops : List Op) :
    array_ptr.Within b w ops ↔ owning.Within World.deleteArray b w ops := by
  induction ops generalizing w with
  | nil => exact Iff.rfl
  | cons op ops ih => simp only [array_ptr.Within, owning.Within, array_ptr_step_eq, ih]

theorem ptr_unaliased_iff (w : World) (ops : List Op) :
    ptr.Unaliased w ops ↔ owning.Unaliased World.delete w ops := by
  induction ops generalizing w with
  | nil => exact Iff.rfl
  | cons op ops ih => simp only [ptr.Unaliased, owning.Unaliased, ptr_step_eq, ih]

namespace owning

variable {del : World → Nat → World}

theorem Within.mono_bound {b d : Nat} (hbd : b ≤ d) {w : World} {ops : List Op}
    (h : Within del b w ops) : Within del d w ops := by
  induction ops generalizing w with
  | nil => trivial
  | cons op ops ih => exact ⟨h.1.mono hbd, ih h.2⟩

theorem Within.run_bounded {b : Nat} {w : World} {ops : List Op} (h : Within del b w ops)
    (hw : w.Bounded b) : (run del w ops).Bounded b := by
  induction ops generalizing w with
  | nil => exact hw
  | cons op ops ih => rw [run_cons]; exact ih h.2 h.1

theorem empty_bounded (b : Nat) : World.empty.Bounded b := by
  intro x hx
  simp [World.empty] at hx

/-- In a sound state where no counter has more than `UINT_MAX` sharers, the
count invariant holds. -/
theorem countInv_of_sound {w : World} (hs : w.Sound) (hb : w.Bounded UINT_MAX) :
    ptr.CountInv w := by
  intro i o ho hv
  obtain ⟨_, hc0⟩ := valid_iff.mp hv
  have h1 := World.sharers_pos_of_obj ho
  have hk := Sound_counterAt hs ho hc0
  have hle := hb.le _ hc0
  have hmod : w.sharers o._counter % UINT_MOD = w.sharers o._counter := by
    rw [UINT_MAX_eq] at hle
    rw [UINT_MOD_eq]
    omega
  rw [hmod] at hk
  exact ⟨_, hk, h1, rfl, by simp [ptr.copies, hv, hk]⟩

theorem unaliased_copies (w : World) (srcs : List Nat) :
    Unaliased del w (srcs.map Op.ctorCopy) := by
  induction srcs generalizing w with
  | nil => trivial
  | cons j rest ih => exact ⟨trivial, ih _⟩

theorem unaliased_lineageProg (p : Nat) (srcs : List Nat) :
    Unaliased del World.empty (lineageProg p srcs) := by
  refine ⟨trivial, ?_, unaliased_copies _ _⟩
  right
  rfl

theorem replicate_srcs (k n : Nat) (hn : 1 ≤ n) :
    ∀ i (hi : i < (List.replicate k 0).length), (List.replicate k 0)[i] < n + i := by
  intro i hi
  rw [List.getElem_replicate]
  omega

theorem lineage_obj (p n i : Nat) (hi : i < n) :
    (World.lineage p n).obj i = some { _ptr := p, _counter := 1 } := by
  simp [World.obj, World.lineage, hi]

theorem lineage_sharers (p n : Nat) : (World.lineage p n).sharers 1 = n := by
  simp [World.sharers, World.lineage, List.countP_replicate, World.uses]

theorem lineage_holders (p n : Nat) : (World.lineage p n).holders p = n := by
  simp [World.holders, World.lineage, List.countP_replicate, World.holds]

end owning

/-! ## Ownership is preserved -/

namespace World

theorem sharers_zero_ne {w : World} {c : Nat} (h : w.sharers c = 0) {j : Nat} {o : Obj}
    (ho : w.obj j = some o) : o._counter ≠ c := by
  intro hc
  have := sharers_pos_of_obj ho
  rw [hc] at this
  omega

end World

namespace owning

variable {del : World → Nat → World}

theorem drop_freed_invalid {w : World} {self : Nat} (h : ∀ o, w.obj self = some o →
    ptr.valid o = false) : drop del w self = w := by
  cases ho : w.obj self with
  | none => exact drop_none ho
  | some o => exact drop_invalid ho (h o ho)

end owning

namespace owning

variable {del : World → Nat → World}

theorem grab_freed (w : World) (self p c : Nat) :
    (grab del w self p c).freed = (drop del w self).freed := by
  unfold grab
  by_cases hp : p = 0
  · simp [hp]
  · by_cases hc : c = 0
    · simp only [hp, hc, if_false, ne_eq, not_true_eq_false]
      split <;> rfl
    · simp only [hp, hc, if_false, ne_eq, not_false_eq_true, if_true]
      split <;> rfl

end owning

namespace owning

variable {del : World → Nat → World}

end owning

namespace owning

variable {del : World → Nat → World}

theorem run_single (w : World) (op : Op) : run del w [op] = step del w op := rfl

/-- Destroying one instance of a lineage of `n` instances whose counter has
wrapped to `1` releases the resource. -/
theorem step_lineage_dtor (hd : Dealloc del) (p n : Nat) (hp : p ≠ 0) (hn : 1 < n)
    (hmod : n % UINT_MOD = 1) :
    (step del (World.lineage p n) (Op.dtor 0)).freed = [p] ∧
    (step del (World.lineage p n) (Op.dtor 0)).obj 1 = some { _ptr := p, _counter := 1 } ∧
    (step del (World.lineage p n) (Op.dtor 0)).counterAt 1 = none ∧
    (step del (World.lineage p n) (Op.dtor 0)).sharers 1 = n - 1 := by
  have ho := lineage_obj p n 0 (by omega)
  have ho1 := lineage_obj p n 1 hn
  have hv : ptr.valid { _ptr := p, _counter := 1 } = true := by
    simp [ptr.valid, hp]
  have hk : (World.lineage p n).counterAt ({ _ptr := p, _counter := 1 } : Obj)._counter =
      some { _count := 1 } := by
    have h2 : (World.lineage p n).counterAt 1 = some { _count := n % UINT_MOD } := rfl
    rw [hmod] at h2
    exact h2
  have hz : (ptr_counter.dec { _count := 1 })._count = 0 := by decide
  have hobjs := drop_valid_objs hd ho hv hk
  have hfreed := drop_valid_freed hd ho hv hk
  have hcnt := drop_valid_counters hd ho hv hk
  simp only [hz, if_true] at hfreed hcnt
  have hlen : 0 < (drop del (World.lineage p n) 0).objs.length := by
    rw [hobjs, List.length_set]
    exact World.obj_lt ho
  have hstep : step del (World.lineage p n) (Op.dtor 0) =
      (drop del (World.lineage p n) 0).endLife 0 := by
    simp only [step, ho, Option.isSome_some, if_true, dtor]
  rw [hstep]
  refine ⟨?_, ?_, ?_, ?_⟩
  · have : ((drop del (World.lineage p n) 0).endLife 0).freed =
        (drop del (World.lineage p n) 0).freed := rfl
    rw [this, hfreed]; rfl
  · rw [obj_endLife hlen]
    simp only [Nat.one_ne_zero, if_false]
    rw [World.obj_of_set hobjs (World.obj_lt ho)]
    simp only [Nat.one_ne_zero, if_false]
    exact ho1
  · have : ((drop del (World.lineage p n) 0).endLife 0).counterAt 1 =
        (drop del (World.lineage p n) 0).counterAt 1 := rfl
    rw [this, World.counterAt_of_set hcnt (World.counterAt_lt hk)]
    simp
  · have hd0 : (drop del (World.lineage p n) 0).obj 0 = some { _ptr := 0, _counter := 0 } := by
      rw [World.obj_of_set hobjs (World.obj_lt ho)]; simp
    have h1 := World.sharers_of_set
      (rfl : ((drop del (World.lineage p n) 0).endLife 0).objs =
        (drop del (World.lineage p n) 0).objs.set 0 none) (World.obj_eq_some.mp hd0) 1
    have h2 := World.sharers_of_set hobjs (World.obj_eq_some.mp ho) 1
    simp only [World.uses, beq_iff_eq] at h1 h2
    have h3 := lineage_sharers p n
    simp at h1 h2
    omega

end owning

/-! ## The two-state invariant, without any assumption on the program -/

namespace owning

variable {del : World → Nat → World}

theorem twoState_of_set {w v : World} (h : w.TwoState) {i : Nat} {x : Option Obj}
    (hv : v.objs = w.objs.set i x) (hx : ∀ o, x = some o → (o._ptr = 0 ↔ o._counter = 0)) :
    v.TwoState := by
  intro j oj hj
  by_cases hi : i < w.objs.length
  · rw [World.obj_of_set hv hi] at hj
    by_cases hji : j = i
    · simp only [hji, if_true] at hj
      exact hx oj hj
    · simp only [hji, if_false] at hj
      exact h j oj hj
  · have : v.objs = w.objs := by
      rw [hv, List.set_eq_of_length_le (by omega)]
    exact h j oj (by simpa [World.obj, this] using hj)

theorem drop_shape (hd : Dealloc del) (w : World) (self : Nat) :
    ((drop del w self).objs = w.objs ∨
      (drop del w self).objs = w.objs.set self (some { _ptr := 0, _counter := 0 })) ∧
    (drop del w self).counters.length = w.counters.length := by
  unfold drop
  cases w.obj self with
  | none => exact ⟨Or.inl rfl, rfl⟩
  | some o =>
    simp only
    split
    · cases w.counterAt o._counter with
      | none => exact ⟨Or.inl rfl, rfl⟩
      | some k =>
        simp only
        split
        · refine ⟨Or.inr ?_, ?_⟩
          · simp [World.setObj, World.deleteCounter, World.storeCounter, hd.objs]
          · simp [World.setObj, World.deleteCounter, World.storeCounter, hd.counters]
        · refine ⟨Or.inr ?_, ?_⟩
          · simp [World.setObj, World.storeCounter]
          · simp [World.setObj, World.storeCounter]
    · exact ⟨Or.inl rfl, rfl⟩

theorem twoState_drop (hd : Dealloc del) {w : World} (h : w.TwoState) (self : Nat) :
    (drop del w self).TwoState := by
  rcases (drop_shape hd w self).1 with h1 | h1
  · intro j oj hj
    exact h j oj (by simpa [World.obj, h1] using hj)
  · exact twoState_of_set h h1 (fun o ho => by cases ho; simp)

theorem grab_shape (hd : Dealloc del) (w : World) (self p c : Nat)
    (hz : 0 < w.counters.length) :
    ((grab del w self p c).objs = (drop del w self).objs ∨
      ∃ d, d ≠ 0 ∧ p ≠ 0 ∧
        (grab del w self p c).objs = (drop del w self).objs.set self (some { _ptr := p, _counter := d })) ∧
    0 < (grab del w self p c).counters.length := by
  have hlen := (drop_shape hd w self).2
  generalize hg : grab del w self p c = g
  unfold grab at hg
  by_cases hp : p = 0
  · simp only [hp, if_true] at hg
    subst hg
    exact ⟨Or.inl rfl, by omega⟩
  · by_cases hc : c = 0
    · simp only [hp, hc, if_false, ne_eq, not_true_eq_false] at hg
      split at hg
      · subst hg
        refine ⟨Or.inr ⟨(drop del w self).counters.length, by omega, hp, rfl⟩, ?_⟩
        simp [World.setObj, World.newCounter]
      · subst hg
        refine ⟨Or.inr ⟨(drop del w self).counters.length, by omega, hp, rfl⟩, ?_⟩
        simp [World.setObj, World.newCounter, World.storeCounter]
    · simp only [hp, hc, if_false, ne_eq, not_false_eq_true, if_true] at hg
      split at hg
      · subst hg
        refine ⟨Or.inr ⟨c, hc, hp, rfl⟩, ?_⟩
        simp only [World.setObj]; omega
      · subst hg
        refine ⟨Or.inr ⟨c, hc, hp, rfl⟩, ?_⟩
        simp only [World.setObj, World.storeCounter, List.length_set]; omega

theorem twoState_grab (hd : Dealloc del) {w : World} (h : w.TwoState)
    (hz : 0 < w.counters.length) (self p c : Nat) :
    (grab del w self p c).TwoState ∧ 0 < (grab del w self p c).counters.length := by
  have h1 := twoState_drop hd h self
  have hg := grab_shape hd w self p c hz
  refine ⟨?_, hg.2⟩
  rcases hg.1 with h2 | ⟨d, hd0, hp, h2⟩
  · intro j oj hj
    exact h1 j oj (by simpa [World.obj, h2] using hj)
  · exact twoState_of_set h1 h2 (fun o ho => by cases ho; simp [hd0, hp])

theorem twoState_addObj {w : World} (h : w.TwoState) :
    (w.addObj { _ptr := 0, _counter := 0 }).TwoState := by
  intro i o hi
  rw [World.obj_addObj] at hi
  by_cases hil : i = w.objs.length
  · simp only [hil, if_true, Option.some.injEq] at hi
    subst hi; simp
  · simp only [hil, if_false] at hi
    exact h i o hi

theorem twoState_assign (hd : Dealloc del) {w : World} (h : w.TwoState)
    (hz : 0 < w.counters.length) (self other : Nat) :
    (assign del w self other).TwoState ∧ 0 < (assign del w self other).counters.length := by
  unfold assign
  by_cases hso : self = other
  · simp only [hso, ne_eq, not_true_eq_false, if_false]; exact ⟨h, hz⟩
  · simp only [ne_eq, hso, not_false_eq_true, if_true]
    cases w.obj other with
    | none => exact ⟨h, hz⟩
    | some o => exact twoState_grab hd h hz _ _ _

theorem twoState_step (hd : Dealloc del) {w : World} (h : w.TwoState)
    (hz : 0 < w.counters.length) (op : Op) :
    (step del w op).TwoState ∧ 0 < (step del w op).counters.length := by
  cases op with
  | alloc p n => exact ⟨fun i o hi => h i o hi, hz⟩
  | ctor => exact ⟨twoState_addObj h, hz⟩
  | ctorCopy other =>
    simp only [step]
    split
    · exact twoState_assign hd (twoState_addObj h) hz _ _
    · exact ⟨h, hz⟩
  | ctorRaw p => exact twoState_grab hd (twoState_addObj h) hz _ _ _
  | assign self other =>
    simp only [step]
    split
    · exact twoState_assign hd h hz _ _
    · exact ⟨h, hz⟩
  | assignRaw self p =>
    simp only [step]
    split
    · exact twoState_grab hd h hz _ _ _
    · exact ⟨h, hz⟩
  | dtor self =>
    simp only [step]
    split
    · refine ⟨twoState_of_set (twoState_drop hd h self) (rfl : (dtor del w self).objs = _)
        (fun o ho => by cases ho), ?_⟩
      have := (drop_shape hd w self).2
      show 0 < (drop del w self).counters.length
      omega
    · exact ⟨h, hz⟩

theorem twoState_run (hd : Dealloc del) {w : World} (h : w.TwoState)
    (hz : 0 < w.counters.length) (ops : List Op) :
    (run del w ops).TwoState ∧ 0 < (run del w ops).counters.length := by
  induction ops generalizing w with
  | nil => exact ⟨h, hz⟩
  | cons op ops ih =>
    rw [run_cons]
    have := twoState_step hd h hz op
    exact ih this.1 this.2

theorem twoState_empty : World.empty.TwoState := by
  intro i o h
  simp [World.obj, World.empty] at h

end owning

/-! ## One operation on a given state -/

namespace owning

variable {del : World → Nat → World}

/-- The state after `drop` on a Valid instance whose counter holds `m`,
`1 ≤ m ≤ UINT_MAX`. -/
theorem drop_count (hd : Dealloc del) {w : World} {self : Nat} {o : Obj} {m : Nat}
    (ho : w.obj self = some o) (hv : ptr.valid o = true)
    (hk : w.counterAt o._counter = some { _count := m }) (h1 : 1 ≤ m) (h2 : m ≤ UINT_MAX) :
    (drop del w self).objs = w.objs.set self (some { _ptr := 0, _counter := 0 }) ∧
    (drop del w self).counters =
      w.counters.set o._counter (if m = 1 then none else some { _count := m - 1 }) ∧
    (drop del w self).freed = (if m = 1 then w.freed ++ [o._ptr] else w.freed) ∧
    (drop del w self).ub = w.ub := by
  have hdec : (ptr_counter.dec { _count := m })._count = m - 1 := by
    simp only [ptr_counter.dec]
    rw [UINT_MAX_eq] at h2
    rw [UINT_MOD_eq]
    omega
  have hdec2 : ptr_counter.dec { _count := m } = { _count := m - 1 } := by
    cases h : ptr_counter.dec { _count := m } with
    | mk x => rw [h] at hdec; simp only at hdec; rw [hdec]
  have hiff : (m - 1 = 0) ↔ (m = 1) := by omega
  refine ⟨drop_valid_objs hd ho hv hk, ?_, ?_, drop_valid_ub hd ho hv hk⟩
  · rw [drop_valid_counters hd ho hv hk, hdec, hdec2]
    by_cases hm : m = 1
    · simp [hm]
    · have : ¬ (m - 1 = 0) := fun h => hm (hiff.mp h)
      simp [hm, this]
  · rw [drop_valid_freed hd ho hv hk, hdec]
    by_cases hm : m = 1
    · simp [hm]
    · have : ¬ (m - 1 = 0) := fun h => hm (hiff.mp h)
      simp [hm, this]

/-- The instances after `drop`: `self` is reset when it was Valid with an
existing counter, nothing else changes. -/
theorem drop_obj_other (hd : Dealloc del) (w : World) (self : Nat) {j : Nat} (hj : j ≠ self) :
    (drop del w self).obj j = w.obj j := by
  rcases (drop_shape hd w self).1 with h | h
  · simp [World.obj, h]
  · unfold World.obj
    rw [h, List.getElem?_set_ne (fun h => hj h.symm)]

/-- The counters after `drop`: only the counter of `self` can change. -/
theorem drop_counterAt_other (hd : Dealloc del) (w : World) (self : Nat) {o : Obj}
    (ho : w.obj self = some o) {c : Nat} (hc : c ≠ o._counter) :
    (drop del w self).counterAt c = w.counterAt c := by
  cases hv : ptr.valid o with
  | false => rw [drop_invalid ho hv]
  | true =>
    cases hk : w.counterAt o._counter with
    | none =>
      have : drop del w self = { w with ub := true } := by simp [drop, ho, hv, hk]
      rw [this]; rfl
    | some k =>
      rw [World.counterAt_of_set (drop_valid_counters hd ho hv hk) (World.counterAt_lt hk)]
      simp [hc]

/-- Copy assignment `t = s` from a Valid instance of another lineage whose
counter exists. -/
theorem assign_other (hd : Dealloc del) {w : World} {t s : Nat} {ot os : Obj} {k : ptr_counter}
    (hts : t ≠ s) (ht : w.obj t = some ot) (hs : w.obj s = some os)
    (hv : ptr.valid os = true) (hk : w.counterAt os._counter = some k)
    (hlin : ot._counter ≠ os._counter) :
    assign del w t s =
      ((drop del w t).storeCounter os._counter k.inc).setObj t
        { _ptr := os._ptr, _counter := os._counter } := by
  obtain ⟨hp0, hc0⟩ := valid_iff.mp hv
  have hk1 : (drop del w t).counterAt os._counter = some k := by
    rw [drop_counterAt_other hd w t ht (fun h => hlin h.symm)]; exact hk
  simp only [assign, ne_eq, hts, not_false_eq_true, if_true, hs]
  exact grab_copy hp0 hc0 hk1

theorem obj_setObj {w : World} {i : Nat} (hi : i < w.objs.length) (o : Obj) (j : Nat) :
    (w.setObj i o).obj j = if j = i then some o else w.obj j :=
  World.obj_of_set (rfl : (w.setObj i o).objs = w.objs.set i (some o)) hi j

theorem counterAt_store {w : World} {c : Nat} (hc : c < w.counters.length) (k : ptr_counter)
    (d : Nat) : (w.storeCounter c k).counterAt d = if d = c then some k else w.counterAt d :=
  World.counterAt_of_set (rfl : (w.storeCounter c k).counters = w.counters.set c (some k)) hc d

theorem drop_objs_length (hd : Dealloc del) (w : World) (self : Nat) :
    (drop del w self).objs.length = w.objs.length := by
  rcases (drop_shape hd w self).1 with h | h
  · rw [h]
  · rw [h, List.length_set]

end owning

theorem ptr_assign_eq (w : World) (t s : Nat) : ptr.assign w t s = owning.assign World.delete w t s :=
  rfl

theorem ptr_grab_eq (w : World) (t p c : Nat) : ptr.grab w t p c = owning.grab World.delete w t p c :=
  rfl

theorem ptr_ctorCopy_eq (w : World) (s : Nat) : ptr.ctorCopy w s = owning.ctorCopy World.delete w s :=
  rfl

theorem array_ptr_assign_eq (w : World) (t s : Nat) :
    array_ptr.assign w t s = owning.assign World.deleteArray w t s := rfl

theorem array_ptr_grab_eq (w : World) (t p c : Nat) :
    array_ptr.grab w t p c = owning.grab World.deleteArray w t p c := rfl

theorem array_ptr_ctorCopy_eq (w : World) (s : Nat) :
    array_ptr.ctorCopy w s = owning.ctorCopy World.deleteArray w s := rfl

namespace owning

variable {del : World → Nat → World}

theorem inc_count {n : Nat} (h : n < UINT_MAX) :
    ptr_counter.inc { _count := n } = { _count := n + 1 } := by
  simp only [ptr_counter.inc]
  rw [UINT_MAX_eq] at h
  rw [UINT_MOD_eq]
  congr 1
  omega

/-- What copy assignment `t = s` does, for a Valid `s` of another lineage
whose counter holds `n < UINT_MAX`. -/
theorem assign_other_spec (hd : Dealloc del) {w : World} {t s : Nat} {ot os : Obj} {n : Nat}
    (hts : t ≠ s) (ht : w.obj t = some ot) (hs : w.obj s = some os)
    (hv : ptr.valid os = true) (hn : w.counterAt os._counter = some { _count := n })
    (hmax : n < UINT_MAX) (hlin : ot._counter ≠ os._counter) :
    (assign del w t s).obj t = some { _ptr := os._ptr, _counter := os._counter } ∧
    (assign del w t s).counterAt os._counter = some { _count := n + 1 } ∧
    (assign del w t s).obj s = some os ∧
    (assign del w t s).freed = (drop del w t).freed ∧
    (∀ d, d ≠ os._counter → (assign del w t s).counterAt d = (drop del w t).counterAt d) ∧
    (∀ j, j ≠ t → (assign del w t s).obj j = w.obj j) := by
  have hlen : t < (drop del w t).objs.length := by
    rw [drop_objs_length hd]; exact World.obj_lt ht
  have hclen : os._counter < (drop del w t).counters.length := by
    rw [(drop_shape hd w t).2]; exact World.counterAt_lt hn
  rw [assign_other hd hts ht hs hv hn hlin, inc_count hmax]
  have hobj : ∀ j, (((drop del w t).storeCounter os._counter { _count := n + 1 }).setObj t
      { _ptr := os._ptr, _counter := os._counter }).obj j =
      if j = t then some { _ptr := os._ptr, _counter := os._counter } else (drop del w t).obj j :=
    fun j => obj_setObj (w := (drop del w t).storeCounter os._counter { _count := n + 1 }) hlen _ j
  have hcnt : ∀ d, (((drop del w t).storeCounter os._counter { _count := n + 1 }).setObj t
      { _ptr := os._ptr, _counter := os._counter }).counterAt d =
      if d = os._counter then some { _count := n + 1 } else (drop del w t).counterAt d :=
    fun d => counterAt_store hclen _ d
  refine ⟨?_, ?_, ?_, rfl, ?_, ?_⟩
  · rw [hobj]; simp
  · rw [hcnt]; simp
  · rw [hobj]
    have : ¬ s = t := fun h => hts h.symm
    simp only [this, if_false]
    rw [drop_obj_other hd w t this]; exact hs
  · intro d hd0
    rw [hcnt]; simp [hd0]
  · intro j hj
    rw [hobj]
    simp only [hj, if_false]
    exact drop_obj_other hd w t hj

end owning

namespace owning

variable {del : World → Nat → World}

theorem grab_heap (w : World) (self p c : Nat) :
    (grab del w self p c).alive = (drop del w self).alive ∧
    (grab del w self p c).blocks = (drop del w self).blocks := by
  unfold grab
  by_cases hp : p = 0
  · simp [hp]
  · by_cases hc : c = 0
    · simp only [hp, hc, if_false, ne_eq, not_true_eq_false]
      split <;> exact ⟨rfl, rfl⟩
    · simp only [hp, hc, if_false, ne_eq, not_false_eq_true, if_true]
      split <;> exact ⟨rfl, rfl⟩

theorem assign_heap {w : World} {t s : Nat} (hts : t ≠ s) {os : Obj} (hs : w.obj s = some os) :
    (assign del w t s).alive = (drop del w t).alive ∧
    (assign del w t s).blocks = (drop del w t).blocks := by
  simp only [assign, ne_eq, hts, not_false_eq_true, if_true, hs]
  exact grab_heap _ _ _ _

end owning

/-- The free store after `ptr<X>::drop` on a Valid instance whose counter
holds `m`, `1 ≤ m ≤ UINT_MAX`. -/
theorem ptr_drop_heap {w : World} {self : Nat} {o : Obj} {m : Nat}
    (ho : w.obj self = some o) (hv : ptr.valid o = true)
    (hk : w.counterAt o._counter = some { _count := m }) (h1 : 1 ≤ m) (h2 : m ≤ UINT_MAX) :
    (ptr.drop w self).alive = (if m = 1 then w.alive.erase o._ptr else w.alive) ∧
    (ptr.drop w self).blocks =
      (if m = 1 then w.blocks.filter (fun b => b.1 != o._ptr) else w.blocks) := by
  have hdec : (ptr_counter.dec { _count := m })._count = m - 1 := by
    simp only [ptr_counter.dec]
    rw [UINT_MAX_eq] at h2
    rw [UINT_MOD_eq]
    omega
  rw [ptr_drop_eq, owning.drop_valid ho hv hk, hdec]
  by_cases hm : m = 1
  · subst hm
    simp only [if_true]
    exact ⟨rfl, rfl⟩
  · have : ¬ (m - 1 = 0) := by omega
    simp only [this, hm, if_false]
    exact ⟨rfl, rfl⟩

/-- The free store after `array_ptr<X>::drop` on a Valid instance whose
counter holds `m`, `1 ≤ m ≤ UINT_MAX`. -/
theorem array_ptr_drop_heap {w : World} {self : Nat} {o : Obj} {m : Nat}
    (ho : w.obj self = some o) (hv : ptr.valid o = true)
    (hk : w.counterAt o._counter = some { _count := m }) (h1 : 1 ≤ m) (h2 : m ≤ UINT_MAX) :
    (array_ptr.drop w self).alive =
      (if m = 1 then
        (World.elems o._ptr ((w.blocks.lookup o._ptr).getD 0)).reverse.foldl List.erase w.alive
      else w.alive) ∧
    (array_ptr.drop w self).blocks =
      (if m = 1 then w.blocks.filter (fun b => b.1 != o._ptr) else w.blocks) := by
  have hdec : (ptr_counter.dec { _count := m })._count = m - 1 := by
    simp only [ptr_counter.dec]
    rw [UINT_MAX_eq] at h2
    rw [UINT_MOD_eq]
    omega
  rw [array_ptr_drop_eq, owning.drop_valid ho hv hk, hdec]
  by_cases hm : m = 1
  · subst hm
    simp only [if_true]
    exact ⟨rfl, rfl⟩
  · have : ¬ (m - 1 = 0) := by omega
    simp only [this, hm, if_false]
    exact ⟨rfl, rfl⟩

theorem counterAt_addObj (w : World) (o : Obj) (c : Nat) :
    (w.addObj o).counterAt c = w.counterAt c := rfl

theorem lineage_counterAt (p n : Nat) (hn : n < UINT_MOD) :
    (World.lineage p n).counterAt 1 = some { _count := n } := by
  have h : (World.lineage p n).counterAt 1 = some { _count := n % UINT_MOD } := rfl
  rw [Nat.mod_eq_of_lt hn] at h
  exact h

/-- The state `World.full`, and the copy assignment `t = a` in it. -/
theorem full_eq :
    World.full = (World.lineage 1 UINT_MAX).addObj { _ptr := 0, _counter := 0 } ∧
    ptr.assign World.full UINT_MAX 0 = World.lineage 1 UINT_MOD := by
  have h1 : World.full = (World.lineage 1 UINT_MAX).addObj { _ptr := 0, _counter := 0 } := by
    unfold World.full
    rw [ptr_run_eq, owning.run_append,
      owning.run_lineageProg 1 (by decide) _ (owning.replicate_srcs _ 1 (by decide)),
      List.length_replicate, owning.run_single]
    have : 1 + (UINT_MAX - 1) = UINT_MAX := by decide
    rw [this]
    rfl
  refine ⟨h1, ?_⟩
  have hlen : (World.lineage 1 UINT_MAX).objs.length = UINT_MAX := by
    simp [World.lineage]
  have hstep := @owning.step_lineage World.delete 1 UINT_MAX 0 (by decide) (by decide)
  have ho := owning.lineage_obj 1 UINT_MAX 0 (by decide)
  simp only [owning.step, ho, Option.isSome_some, if_true, owning.ctorCopy, hlen] at hstep
  rw [h1, ptr_assign_eq, hstep]
  rfl

theorem ptr_assignRaw_eq (w : World) (t p : Nat) :
    ptr.assignRaw w t p = owning.grab World.delete w t p 0 := rfl

theorem ptr_ctorRaw_eq (w : World) (p : Nat) :
    ptr.ctorRaw w p =
      owning.grab World.delete (w.addObj { _ptr := 0, _counter := 0 }) w.objs.length p 0 := rfl

theorem array_ptr_assignRaw_eq (w : World) (t p : Nat) :
    array_ptr.assignRaw w t p = owning.grab World.deleteArray w t p 0 := rfl

namespace owning

variable {del : World → Nat → World}

/-- What `grab` does with a non-null address and no donor counter, in a
sound state. -/
theorem grab_raw_spec (hd : Dealloc del) {w : World} (hs : w.Sound) {t : Nat} {ot : Obj}
    (ht : w.obj t = some ot) {p : Nat} (hp : p ≠ 0) :
    (grab del w t p 0).obj t = some { _ptr := p, _counter := w.counters.length } ∧
    w.counters.length ≠ 0 ∧
    w.counterAt w.counters.length = none ∧
    (drop del w t).counterAt w.counters.length = none ∧
    (grab del w t p 0).counterAt w.counters.length = some { _count := 1 } ∧
    (grab del w t p 0).sharers w.counters.length = 1 ∧
    (∀ j oj, j ≠ t → (grab del w t p 0).obj j = some oj → oj._counter ≠ w.counters.length) ∧
    (∀ j, j ≠ t → (grab del w t p 0).obj j = w.obj j) ∧
    (∀ c, c ≠ w.counters.length → (grab del w t p 0).counterAt c = (drop del w t).counterAt c) ∧
    (grab del w t p 0).Sound := by
  have hs1 := sound_drop hd hs t
  have ho1 : (drop del w t).obj t = some { _ptr := 0, _counter := 0 } := by
    rw [drop_obj hd hs ht]; simp
  have hlen := (drop_shape hd w t).2
  have hsound := sound_adopt_raw hs1 ho1 hp
  have hfresh := Sound_sharers_fresh hs1 (Nat.le_refl _)
  have hnone : ∀ v : World, v.counterAt v.counters.length = none := by
    intro v
    unfold World.counterAt
    rw [List.getElem?_eq_none (Nat.le_refl _)]; rfl
  have hlt : t < (drop del w t).objs.length := World.obj_lt ho1
  rw [grab_raw hp]
  rw [hlen] at hsound hfresh ⊢
  have hobj : ∀ j, (((drop del w t).newCounter.storeCounter w.counters.length
      { _count := 1 }).setObj t { _ptr := p, _counter := w.counters.length }).obj j =
      if j = t then some { _ptr := p, _counter := w.counters.length }
      else (drop del w t).obj j :=
    fun j => obj_setObj (w := (drop del w t).newCounter.storeCounter w.counters.length
      { _count := 1 }) hlt _ j
  have hsh := @World.sharers_of_set (drop del w t)
    (((drop del w t).newCounter.storeCounter w.counters.length { _count := 1 }).setObj t
      { _ptr := p, _counter := w.counters.length }) t _ _ rfl (World.obj_eq_some.mp ho1)
      w.counters.length
  simp only [World.uses, beq_iff_eq, if_true] at hsh
  have hz := hs.nz
  have h0 : ¬ (0 = w.counters.length) := by omega
  simp only [h0, if_false, Nat.add_zero] at hsh
  have hcnt := hsound.cnt
  refine ⟨?_, by omega, hnone w, ?_, ?_, ?_, ?_, ?_, ?_, hsound⟩
  · rw [hobj]; simp
  · rw [← hlen]; exact hnone _
  · rw [hcnt, hsh, hfresh]
    have : ¬ (w.counters.length = 0) := by omega
    simp [this, UINT_MOD_eq]
  · rw [hsh, hfresh]
  · intro j oj hj hoj
    rw [hobj] at hoj
    simp only [hj, if_false] at hoj
    exact World.sharers_zero_ne hfresh hoj
  · intro j hj
    rw [hobj]
    simp only [hj, if_false]
    exact drop_obj_other hd w t hj
  · intro c hc
    have h1 := hcnt c
    have h2 := hs1.cnt c
    have hshc := @World.sharers_of_set (drop del w t)
      (((drop del w t).newCounter.storeCounter w.counters.length { _count := 1 }).setObj t
        { _ptr := p, _counter := w.counters.length }) t _ _ rfl (World.obj_eq_some.mp ho1) c
    simp only [World.uses, beq_iff_eq] at hshc
    have hc2 : ¬ (w.counters.length = c) := fun h => hc h.symm
    simp only [hc2, if_false, Nat.add_zero] at hshc
    rw [h1, h2]
    by_cases hc0 : c = 0
    · simp [hc0]
    · have h00 : ¬ (0 = c) := fun h => hc0 h.symm
      simp only [h00, if_false, Nat.add_zero] at hshc
      rw [hshc]

end owning

namespace owning

variable {del : World → Nat → World}

/-- Dropping twice is dropping once. -/
theorem drop_drop (hd : Dealloc del) (w : World) (t : Nat) :
    drop del (drop del w t) t = drop del w t := by
  cases ho : w.obj t with
  | none => rw [drop_none ho, drop_none ho]
  | some o =>
    cases hv : ptr.valid o with
    | false => rw [drop_invalid ho hv, drop_invalid ho hv]
    | true =>
      cases hk : w.counterAt o._counter with
      | none =>
        have h1 : drop del w t = { w with ub := true } := by simp [drop, ho, hv, hk]
        rw [h1]
        have ho2 : ({ w with ub := true } : World).obj t = some o := ho
        have hk2 : ({ w with ub := true } : World).counterAt o._counter = none := hk
        simp [drop, ho2, hv, hk2]
      | some k =>
        have h1 : (drop del w t).obj t = some { _ptr := 0, _counter := 0 } := by
          rw [World.obj_of_set (drop_valid_objs hd ho hv hk) (World.obj_lt ho)]; simp
        exact drop_invalid h1 (by decide)

end owning

/-! ## Destroying the elements of a run -/

theorem List.count_foldl_erase (L l : List Nat) (e : Nat) :
    (L.foldl List.erase l).count e = l.count e - L.count e := by
  induction L generalizing l with
  | nil => simp
  | cons a L ih =>
    rw [List.foldl_cons, ih, List.count_erase, List.count_cons]
    by_cases h : a = e
    · subst h; simp; omega
    · have : (a == e) = false := by simpa using h
      simp [this]

theorem List.length_foldl_erase (L l : List Nat) (hn : L.Nodup) (hm : ∀ e ∈ L, e ∈ l) :
    (L.foldl List.erase l).length + L.length = l.length := by
  induction L generalizing l with
  | nil => simp
  | cons a L ih =>
    rw [List.foldl_cons]
    have ha : a ∈ l := hm a (List.mem_cons_self _ _)
    have hn2 := List.nodup_cons.mp hn
    have h := ih (l.erase a) hn2.2 (fun e he => by
      have hne : e ≠ a := fun h => hn2.1 (h ▸ he)
      exact (List.mem_erase_of_ne hne).mpr (hm e (List.mem_cons_of_mem _ he)))
    rw [List.length_erase_of_mem ha] at h
    have hpos : 0 < l.length := List.length_pos_of_mem ha
    simp only [List.length_cons]
    omega

theorem World.elems_nodup (p n : Nat) : (World.elems p n).Nodup := by
  unfold World.elems
  exact (List.nodup_range n).map (fun a b h => by simpa using h)

theorem World.elems_length (p n : Nat) : (World.elems p n).length = n := by
  simp [World.elems]

/-! ## Releasing the instances of one lineage in any order -/

theorem lineage_sound (p n : Nat) (hp : p ≠ 0) (hn0 : 1 ≤ n) (hn : n ≤ UINT_MOD) :
    (World.lineage p n).Sound := by
  have hsh : ∀ c, (World.lineage p n).sharers c = if c = 1 then n else 0 := by
    intro c
    simp only [World.sharers, World.lineage, List.countP_replicate, World.uses, beq_iff_eq]
    by_cases hc : c = 1
    · simp [hc]
    · have : ¬ (1 = c) := fun h => hc h.symm
      simp [hc, this]
  refine ⟨rfl, by simp [World.lineage], ?_, ?_, ?_⟩
  · intro i o ho
    have : o = { _ptr := p, _counter := 1 } := by
      simp only [World.obj, World.lineage, List.getElem?_replicate] at ho
      split at ho
      · simpa using ho.symm
      · simp at ho
    subst this
    simp [hp]
  · intro c
    rw [hsh]
    match c with
    | 0 => simp [World.counterAt, World.lineage]
    | 1 =>
      have h0 : n ≠ 0 := by omega
      simp [World.counterAt, World.lineage, h0]
    | c + 2 => simp [World.counterAt, World.lineage]
  · intro c _
    rw [hsh]
    split <;> omega

theorem lineage_fam (p n : Nat) (hp : p ≠ 0) (hn0 : 1 ≤ n) (hn : n ≤ UINT_MOD) :
    (World.lineage p n).Fam p n [] := by
  refine ⟨lineage_sound p n hp hn0 hn, ?_, ?_, ?_, ?_⟩
  · intro i o ho
    left
    simp only [World.obj, World.lineage, List.getElem?_replicate] at ho
    split at ho
    · simpa using ho.symm
    · simp at ho
  · intro i hi _
    exact owning.lineage_obj p n i hi
  · simpa using owning.lineage_sharers p n
  · have : ([] : List Nat).length < n := by simpa using hn0
    simp only [this, if_true]
    exact ⟨rfl, rfl⟩

/-- The free store after `ptr<X>::drop` on a Valid instance whose counter exists. -/
theorem ptr_drop_alive {w : World} {self : Nat} {o : Obj} {k : ptr_counter}
    (ho : w.obj self = some o) (hv : ptr.valid o = true)
    (hk : w.counterAt o._counter = some k) :
    (owning.drop World.delete w self).alive =
      (if k.dec._count = 0 then w.alive.erase o._ptr else w.alive) := by
  rw [owning.drop_valid ho hv hk]
  split <;> rfl

/-- Releasing one more instance of the lineage. -/
theorem fam_release {p n : Nat} (hp : p ≠ 0) {rel : List Nat} {w : World}
    (hf : w.Fam p n rel) {i : Nat} (hi : i < n) (hir : i ∉ rel) (b : Bool) :
    (owning.step World.delete w (releaseOp (i, b))).Fam p n (rel ++ [i]) := by
  have hd := World.delete_dealloc
  have ho := hf.rest i hi hir
  have hv : ptr.valid { _ptr := p, _counter := 1 } = true := by simp [ptr.valid, hp]
  have hs1 := World.sharers_pos_of_obj ho
  simp only at hs1
  have hsM := hf.sound.bnd 1 (by decide)
  have hk := owning.Sound_counterAt hf.sound ho Nat.one_ne_zero
  simp only at hk
  have hobjs := owning.drop_valid_objs hd ho hv hk
  have hfreed := owning.drop_valid_freed hd ho hv hk
  have halive := ptr_drop_alive ho hv hk
  have hdec := dec_sharers _ hs1 hsM
  have hcount : (ptr_counter.dec { _count := w.sharers 1 % UINT_MOD })._count =
      w.sharers 1 - 1 := by
    simp only [ptr_counter.dec]
    rw [hdec.1, hdec.2]
  simp only [hcount] at hfreed halive
  have hlt := World.obj_lt ho
  have hcnt := hf.cnt
  have hheap := hf.heap
  have hrl : rel.length < n := by omega
  simp only [hrl, if_true] at hheap
  have hsh := World.sharers_of_set hobjs (World.obj_eq_some.mp ho) 1
  simp only [World.uses, beq_iff_eq, if_true] at hsh
  have hsh1 : (owning.drop World.delete w i).sharers 1 = w.sharers 1 - 1 := by
    simp at hsh; omega
  have hdobj : ∀ j, (owning.drop World.delete w i).obj j =
      if j = i then some { _ptr := 0, _counter := 0 } else w.obj j :=
    fun j => World.obj_of_set hobjs hlt j
  have hdsound := owning.sound_drop hd hf.sound i
  have hdfam : (owning.drop World.delete w i).Fam p n (rel ++ [i]) := by
    refine ⟨hdsound, ?_, ?_, ?_, ?_⟩
    · intro j o hj
      rw [hdobj] at hj
      by_cases hji : j = i
      · simp only [hji, if_true, Option.some.injEq] at hj
        exact Or.inr hj.symm
      · simp only [hji, if_false] at hj
        exact hf.shape j o hj
    · intro j hj hjr
      rw [hdobj]
      have hji : j ≠ i := fun h => hjr (by simp [h])
      simp only [hji, if_false]
      exact hf.rest j hj (fun h => hjr (by simp [h]))
    · rw [hsh1, List.length_append]
      simp only [List.length_singleton]
      omega
    · rw [hfreed, halive, List.length_append, hheap.1, hheap.2]
      simp only [List.length_singleton]
      by_cases hlast : rel.length + 1 < n
      · have : ¬ (w.sharers 1 - 1 = 0) := by omega
        simp [hlast, this]
      · have : w.sharers 1 - 1 = 0 := by omega
        simp [hlast, this]
  cases b with
  | false =>
    have : owning.step World.delete w (releaseOp (i, false)) = owning.drop World.delete w i := by
      have hrel : releaseOp (i, false) = Op.assignRaw i 0 := rfl
      rw [hrel]
      simp only [owning.step, ho, Option.isSome_some, if_true, owning.assignRaw,
        owning.grab_null]
    rw [this]
    exact hdfam
  | true =>
    have : owning.step World.delete w (releaseOp (i, true)) =
        (owning.drop World.delete w i).endLife i := by
      have hrel : releaseOp (i, true) = Op.dtor i := rfl
      rw [hrel]
      simp only [owning.step, ho, Option.isSome_some, if_true, owning.dtor]
    rw [this]
    have hoi : (owning.drop World.delete w i).obj i = some { _ptr := 0, _counter := 0 } := by
      rw [hdobj]; simp
    have hlt2 : i < (owning.drop World.delete w i).objs.length := World.obj_lt hoi
    have hsh2 := World.sharers_of_set
      (rfl : ((owning.drop World.delete w i).endLife i).objs =
        (owning.drop World.delete w i).objs.set i none) (World.obj_eq_some.mp hoi) 1
    simp only [World.uses, beq_iff_eq] at hsh2
    refine ⟨owning.sound_endLife hdsound hoi, ?_, ?_, ?_, hdfam.heap⟩
    · intro j o hj
      rw [owning.obj_endLife hlt2] at hj
      by_cases hji : j = i
      · simp [hji] at hj
      · simp only [hji, if_false] at hj
        exact hdfam.shape j o hj
    · intro j hj hjr
      rw [owning.obj_endLife hlt2]
      have hji : j ≠ i := fun h => hjr (by simp [h])
      simp only [hji, if_false]
      exact hdfam.rest j hj hjr
    · have := hdfam.cnt
      simp at hsh2
      omega

theorem fam_run {p n : Nat} (hp : p ≠ 0) (rel : List (Nat × Bool)) {rel0 : List Nat}
    {w : World} (hf : w.Fam p n rel0) (hnd : (rel0 ++ rel.map Prod.fst).Nodup)
    (hlt : ∀ x ∈ rel, x.1 < n) :
    (owning.run World.delete w (rel.map releaseOp)).Fam p n (rel0 ++ rel.map Prod.fst) := by
  induction rel generalizing w rel0 with
  | nil => simpa using hf
  | cons x rel ih =>
    have hx : x.1 ∉ rel0 := by
      intro h
      have := (List.nodup_append.mp hnd).2.2
      exact this h (by simp)
    have h1 := fam_release hp hf (hlt x (List.mem_cons_self _ _)) hx x.2
    have h2 := ih h1 (by simpa [List.append_assoc] using hnd)
      (fun y hy => hlt y (List.mem_cons_of_mem _ hy))
    simpa [List.append_assoc, owning.run_cons] using h2

/-- The state after `lastOwnerProg`. -/
theorem run_lastOwnerProg (p : Nat) (hp : p ≠ 0) (srcs : List Nat)
    (hsrc : ∀ i (hi : i < srcs.length), srcs[i] < 1 + i) (hn : 1 + srcs.length ≤ UINT_MOD)
    (rel : List (Nat × Bool)) (hnd : (rel.map Prod.fst).Nodup)
    (hlt : ∀ x ∈ rel, x.1 < 1 + srcs.length) :
    (ptr.run World.empty (lastOwnerProg p srcs rel)).Fam p (1 + srcs.length)
      (rel.map Prod.fst) := by
  rw [ptr_run_eq, lastOwnerProg, owning.run_append, owning.run_lineageProg p hp srcs hsrc]
  have h := fam_run hp rel (lineage_fam p (1 + srcs.length) hp (by omega) hn)
    (by simpa using hnd) hlt
  simpa using h

theorem alive_endLife (w : World) (i : Nat) : (w.endLife i).alive = w.alive := rfl

/-- The alive objects after destroying one instance of a lineage whose
counter has wrapped to `1`. -/
theorem step_lineage_dtor_alive (p n : Nat) (hp : p ≠ 0) (hn : 1 < n)
    (hmod : n % UINT_MOD = 1) :
    (owning.step World.delete (World.lineage p n) (Op.dtor 0)).alive = [] := by
  have ho := owning.lineage_obj p n 0 (by omega)
  have hv : ptr.valid { _ptr := p, _counter := 1 } = true := by simp [ptr.valid, hp]
  have hk : (World.lineage p n).counterAt ({ _ptr := p, _counter := 1 } : Obj)._counter =
      some { _count := 1 } := by
    have h2 : (World.lineage p n).counterAt 1 = some { _count := n % UINT_MOD } := rfl
    rw [hmod] at h2
    exact h2
  have hal := ptr_drop_alive ho hv hk
  have hz : (ptr_counter.dec { _count := 1 })._count = 0 := by decide
  simp only [hz, if_true] at hal
  have hstep : owning.step World.delete (World.lineage p n) (Op.dtor 0) =
      (owning.drop World.delete (World.lineage p n) 0).endLife 0 := by
    simp only [owning.step, ho, Option.isSome_some, if_true, owning.dtor]
  rw [hstep, alive_endLife, hal]
  simp [World.lineage]

/-- The first release in a lineage of `2 ^ 32 + 1` instances. -/
theorem run_wrap_release :
    (ptr.run World.empty (lastOwnerProg 1 (List.replicate UINT_MOD 0) [(0, true)])).freed = [1] ∧
    (ptr.run World.empty (lastOwnerProg 1 (List.replicate UINT_MOD 0) [(0, true)])).alive = [] ∧
    (ptr.run World.empty (lastOwnerProg 1 (List.replicate UINT_MOD 0) [(0, true)])).sharers 1 =
      UINT_MOD ∧
    (ptr.run World.empty (lastOwnerProg 1 (List.replicate UINT_MOD 0) [(0, true)])).obj 1 =
      some { _ptr := 1, _counter := 1 } := by
  have hd := World.delete_dealloc
  have hrun : owning.run World.delete World.empty (lineageProg 1 (List.replicate UINT_MOD 0)) =
      World.lineage 1 (1 + UINT_MOD) := by
    rw [owning.run_lineageProg 1 (by decide) _ (owning.replicate_srcs _ 1 (by decide)),
      List.length_replicate]
  have hprog : lastOwnerProg 1 (List.replicate UINT_MOD 0) [(0, true)] =
      lineageProg 1 (List.replicate UINT_MOD 0) ++ [Op.dtor 0] := rfl
  have h := owning.step_lineage_dtor hd 1 (1 + UINT_MOD) (by decide) (by decide) (by decide)
  have hal := step_lineage_dtor_alive 1 (1 + UINT_MOD) (by decide) (by decide) (by decide)
  have hsub : 1 + UINT_MOD - 1 = UINT_MOD := by decide
  rw [ptr_run_eq, hprog, owning.run_append, hrun, owning.run_single]
  refine ⟨h.1, hal, ?_, h.2.1⟩
  rw [h.2.2.2, hsub]

/-! ## Comparisons -/

theorem nat_beq_decide (a b : Nat) : (a == b) = decide (a = b) := by
  by_cases h : a = b <;> simp [h]

theorem nat_bne_decide (a b : Nat) : (a != b) = decide (a ≠ b) := by
  by_cases h : a = b <;> simp [h]

/-! ## Validity after each operation -/

namespace owning

variable {del : World → Nat → World}

/-- The instances after `grab` with a non-null address. -/
theorem grab_nonnull_objs (w : World) (self p c : Nat) (hp : p ≠ 0) :
    (grab del w self p c).objs =
      (drop del w self).objs.set self
        (some { _ptr := p, _counter := if c ≠ 0 then c else (drop del w self).counters.length }) := by
  unfold grab
  simp only [hp, if_false]
  by_cases hc : c = 0
  · simp only [hc, ne_eq, not_true_eq_false, if_false]
    split <;> rfl
  · simp only [hc, ne_eq, not_false_eq_true, if_true]
    split <;> rfl

theorem grab_nonnull_obj (hd : Dealloc del) {w : World} {self : Nat} {o0 : Obj}
    (ho : w.obj self = some o0) (p c : Nat) (hp : p ≠ 0) :
    (grab del w self p c).obj self =
      some { _ptr := p, _counter := if c ≠ 0 then c else (drop del w self).counters.length } := by
  have hlt : self < (drop del w self).objs.length := by
    rw [drop_objs_length hd]; exact World.obj_lt ho
  rw [World.obj_of_set (grab_nonnull_objs w self p c hp) hlt]
  simp

/-- Validity of the target after each assignment, in a sound state. -/
theorem validity_after (hd : Dealloc del) {w : World} (hs : w.Sound) {t s : Nat} {ot os : Obj}
    (ht : w.obj t = some ot) (hso : w.obj s = some os) (hts : t ≠ s) {p : Nat} (hp : p ≠ 0) :
    (∃ o, (grab del w t 0 0).obj t = some o ∧ ptr.valid o = false) ∧
    (ptr.valid os = false → ∃ o, (assign del w t s).obj t = some o ∧ ptr.valid o = false) ∧
    (∃ o, (grab del w t p 0).obj t = some o ∧ ptr.valid o = true) ∧
    (ptr.valid os = true → ∃ o, (assign del w t s).obj t = some o ∧ ptr.valid o = true) := by
  have ho1 : (drop del w t).obj t = some { _ptr := 0, _counter := 0 } := by
    rw [drop_obj hd hs ht]; simp
  have hz : 0 < (drop del w t).counters.length := by
    rw [(drop_shape hd w t).2]; exact hs.nz
  refine ⟨?_, ?_, ?_, ?_⟩
  · rw [grab_null]
    exact ⟨_, ho1, by decide⟩
  · intro hv
    have := hs.invalid_eq hso hv
    subst this
    simp only [assign, ne_eq, hts, not_false_eq_true, if_true, hso, grab_null]
    exact ⟨_, ho1, by decide⟩
  · refine ⟨_, grab_nonnull_obj hd ht p 0 hp, ?_⟩
    rw [if_neg (by simp)]
    exact valid_iff.mpr ⟨hp, by simp only; omega⟩
  · intro hv
    obtain ⟨hp0, hc0⟩ := valid_iff.mp hv
    simp only [assign, ne_eq, hts, not_false_eq_true, if_true, hso]
    refine ⟨_, grab_nonnull_obj hd ht os._ptr os._counter hp0, ?_⟩
    rw [if_pos hc0]
    exact valid_iff.mpr ⟨hp0, hc0⟩

/-- Validity of the new instance after each constructor, in a sound state. -/
theorem validity_after_ctor (hd : Dealloc del) {w : World} (hs : w.Sound) {s : Nat} {os : Obj}
    (hso : w.obj s = some os) {p : Nat} (hp : p ≠ 0) :
    (∃ o, (ptr.ctor w).obj w.objs.length = some o ∧ ptr.valid o = false) ∧
    (ptr.valid os = false →
      ∃ o, (ctorCopy del w s).obj w.objs.length = some o ∧ ptr.valid o = false) ∧
    (∃ o, (ctorRaw del w p).obj w.objs.length = some o ∧ ptr.valid o = true) ∧
    (ptr.valid os = true →
      ∃ o, (ctorCopy del w s).obj w.objs.length = some o ∧ ptr.valid o = true) := by
  have ht0 : (w.addObj { _ptr := 0, _counter := 0 }).obj w.objs.length =
      some { _ptr := 0, _counter := 0 } := by
    rw [World.obj_addObj]; simp
  have hlt := World.obj_lt hso
  have hs0 : (w.addObj { _ptr := 0, _counter := 0 }).obj s = some os := by
    rw [World.obj_addObj]
    have : ¬ s = w.objs.length := by omega
    simp [this, hso]
  have hne : w.objs.length ≠ s := by omega
  have h := validity_after hd hs.addObj ht0 hs0 hne hp
  exact ⟨⟨_, ht0, by decide⟩, h.2.1, h.2.2.1, h.2.2.2⟩

end owning

theorem array_ptr_ctorRaw_eq (w : World) (p : Nat) :
    array_ptr.ctorRaw w p = owning.ctorRaw World.deleteArray w p := rfl

theorem ptr_ctorRaw_eq2 (w : World) (p : Nat) :
    ptr.ctorRaw w p = owning.ctorRaw World.delete w p := rfl

/-! ## A copy that is destroyed again -/

theorem List.set_of_getElem? {α : Type} (l : List α) (i : Nat) (x : α) (h : l[i]? = some x) :
    l.set i x = l := by
  induction l generalizing i with
  | nil => simp at h
  | cons a l ih =>
    cases i with
    | zero =>
      simp only [List.getElem?_cons_zero, Option.some.injEq] at h
      subst h; rfl
    | succ i =>
      simp only [List.getElem?_cons_succ] at h
      simp only [List.set_cons_succ, ih i h]

theorem World.ext_fields {w v : World} (h1 : w.objs = v.objs) (h2 : w.counters = v.counters)
    (h3 : w.blocks = v.blocks) (h4 : w.alive = v.alive) (h5 : w.freed = v.freed)
    (h6 : w.ub = v.ub) : w = v := by
  cases w; cases v
  simp only at h1 h2 h3 h4 h5 h6
  subst h1 h2 h3 h4 h5 h6
  rfl

namespace owning

variable {del : World → Nat → World}

theorem inc_dec_count (n : Nat) (h1 : 1 ≤ n) (h2 : n ≤ UINT_MAX) :
    (ptr_counter.inc { _count := n }).dec = { _count := n } ∧
    (ptr_counter.inc { _count := n }).dec._count ≠ 0 := by
  have : ((n + 1) % UINT_MOD + UINT_MOD - 1) % UINT_MOD = n := by
    rw [UINT_MAX_eq] at h2
    rw [UINT_MOD_eq]
    omega
  constructor
  · simp only [ptr_counter.inc, ptr_counter.dec, this]
  · simp only [ptr_counter.inc, ptr_counter.dec, this]
    omega

/-- Copy construction from a Valid instance whose counter exists. -/
theorem ctorCopy_valid (hd : Dealloc del) {w : World} {a : Nat} {oa : Obj} {k : ptr_counter}
    (ha : w.obj a = some oa) (hv : ptr.valid oa = true)
    (hk : w.counterAt oa._counter = some k) :
    ctorCopy del w a =
      ((w.addObj { _ptr := 0, _counter := 0 }).storeCounter oa._counter k.inc).setObj
        w.objs.length { _ptr := oa._ptr, _counter := oa._counter } := by
  have hlt := World.obj_lt ha
  have hne : w.objs.length ≠ a := by omega
  have ht0 : (w.addObj { _ptr := 0, _counter := 0 }).obj w.objs.length =
      some { _ptr := 0, _counter := 0 } := by
    rw [World.obj_addObj]; simp
  have ha0 : (w.addObj { _ptr := 0, _counter := 0 }).obj a = some oa := by
    rw [World.obj_addObj]
    have : ¬ a = w.objs.length := by omega
    simp [this, ha]
  have hc0 : ({ _ptr := 0, _counter := 0 } : Obj)._counter ≠ oa._counter := by
    have := (valid_iff.mp hv).2
    exact fun h => this h.symm
  have h := assign_other hd (w := w.addObj { _ptr := 0, _counter := 0 }) hne ht0 ha0 hv hk hc0
  rw [drop_invalid ht0 (by decide)] at h
  exact h

/-- Copy construction from a Valid instance with count `n >= 1`, followed by
the destruction of the copy, gives back the state, with one more instance
whose lifetime has ended. -/
theorem copy_destroy (hd : Dealloc del) {w : World} {a : Nat} {oa : Obj} {n : Nat}
    (ha : w.obj a = some oa) (hv : ptr.valid oa = true)
    (hk : w.counterAt oa._counter = some { _count := n }) (h1 : 1 ≤ n) (h2 : n ≤ UINT_MAX) :
    dtor del (ctorCopy del w a) w.objs.length = { w with objs := w.objs ++ [none] } := by
  have hcl := World.counterAt_lt hk
  have hw1 := ctorCopy_valid hd ha hv hk
  have hob : (ctorCopy del w a).obj w.objs.length =
      some { _ptr := oa._ptr, _counter := oa._counter } := by
    rw [hw1]
    have hlen : w.objs.length < ((w.addObj { _ptr := 0, _counter := 0 }).storeCounter
        oa._counter (ptr_counter.inc { _count := n })).objs.length := by
      simp [World.addObj, World.storeCounter]
    rw [obj_setObj hlen]; simp
  have hkb : (ctorCopy del w a).counterAt
      ({ _ptr := oa._ptr, _counter := oa._counter } : Obj)._counter =
      some (ptr_counter.inc { _count := n }) := by
    rw [hw1]
    have hcl2 : oa._counter < (w.addObj { _ptr := 0, _counter := 0 }).counters.length := hcl
    have := counterAt_store hcl2 (ptr_counter.inc { _count := n }) oa._counter
    simpa using this
  have hid := inc_dec_count n h1 h2
  have hdrop := @drop_valid del _ _ _ _ hob hv hkb
  simp only [hid.2, if_false] at hdrop
  unfold dtor
  rw [hdrop, hid.1, hw1]
  apply World.ext_fields
  · simp only [World.endLife, World.setObj, World.storeCounter, World.addObj]
    rw [List.set_set, List.set_set, List.set_append_right _ _ (Nat.le_refl _)]
    simp
  · simp only [World.endLife, World.setObj, World.storeCounter, World.addObj]
    rw [List.set_set]
    exact List.set_of_getElem? _ _ _ (World.counterAt_eq_some.mp hk)
  · rfl
  · rfl
  · rfl
  · rfl

end owning

namespace owning

variable {del : World → Nat → World}

/-- Destroying the instance `j` of a lineage of `n` instances whose counter
has wrapped to `1` releases the resource and deletes the counter, while the
other instances still hold the address. -/
theorem dtor_lineage_at (hd : Dealloc del) (p n j : Nat) (hp : p ≠ 0) (hj : j < n)
    (hmod : n % UINT_MOD = 1) :
    (dtor del (World.lineage p n) j).freed = [p] ∧
    (dtor del (World.lineage p n) j).counterAt 1 = none ∧
    (∀ i, i < n → i ≠ j →
      (dtor del (World.lineage p n) j).obj i = some { _ptr := p, _counter := 1 }) := by
  have ho := lineage_obj p n j hj
  have hv : ptr.valid { _ptr := p, _counter := 1 } = true := by
    simp [ptr.valid, hp]
  have hk : (World.lineage p n).counterAt ({ _ptr := p, _counter := 1 } : Obj)._counter =
      some { _count := 1 } := by
    have h2 : (World.lineage p n).counterAt 1 = some { _count := n % UINT_MOD } := rfl
    rw [hmod] at h2
    exact h2
  have hz : (ptr_counter.dec { _count := 1 })._count = 0 := by decide
  have hobjs := drop_valid_objs hd ho hv hk
  have hfreed := drop_valid_freed hd ho hv hk
  have hcnt := drop_valid_counters hd ho hv hk
  simp only [hz, if_true] at hfreed hcnt
  have hlen : j < (drop del (World.lineage p n) j).objs.length := by
    rw [hobjs, List.length_set]
    exact World.obj_lt ho
  unfold dtor
  refine ⟨?_, ?_, ?_⟩
  · have : ((drop del (World.lineage p n) j).endLife j).freed =
        (drop del (World.lineage p n) j).freed := rfl
    rw [this, hfreed]; rfl
  · have : ((drop del (World.lineage p n) j).endLife j).counterAt 1 =
        (drop del (World.lineage p n) j).counterAt 1 := rfl
    rw [this, World.counterAt_of_set hcnt (World.counterAt_lt hk)]
    simp
  · intro i hi hij
    rw [obj_endLife hlen]
    simp only [hij, if_false]
    rw [World.obj_of_set hobjs (World.obj_lt ho)]
    simp only [hij, if_false]
    exact lineage_obj p n i hi

end owning

/-- Copy construction in a lineage. -/
theorem ctorCopy_lineage (p n j : Nat) (hp : p ≠ 0) (hj : j < n) :
    ptr.ctorCopy (World.lineage p n) j = World.lineage p (n + 1) := by
  have h := @owning.step_lineage World.delete p n j hp hj
  have ho := owning.lineage_obj p n j hj
  simp only [owning.step, ho, Option.isSome_some, if_true] at h
  exact h

theorem lineage_length (p n : Nat) : (World.lineage p n).objs.length = n := by
  simp [World.lineage]

theorem ptr_dtor_eq (w : World) (t : Nat) : ptr.dtor w t = owning.dtor World.delete w t := rfl

namespace owning

variable {del : World → Nat → World}

/-! ### Copying from an Invalid source -/

/-- In a two-state world an Invalid instance has a null `_ptr`. -/
theorem invalid_ptr_null {w : World} (hw : w.TwoState) {a : Nat} {oa : Obj}
    (ha : w.obj a = some oa) (hva : ptr.valid oa = false) : oa._ptr = 0 := by
  by_contra hp
  have hc : oa._counter ≠ 0 := fun hc => hp ((hw a oa ha).mpr hc)
  have := valid_iff.mpr ⟨hp, hc⟩
  rw [hva] at this
  exact Bool.noConfusion this

/-- Copy assignment from an Invalid source is the text of `drop`. -/
theorem assign_invalid {w : World} (hw : w.TwoState) {a b : Nat} {oa : Obj} (hab : b ≠ a)
    (ha : w.obj a = some oa) (hva : ptr.valid oa = false) :
    assign del w b a = drop del w b := by
  have hp := invalid_ptr_null hw ha hva
  simp only [assign, ne_eq, hab, not_false_eq_true, if_true, ha]
  rw [hp]
  exact grab_null w b oa._counter

/-- Copy construction from an Invalid source is the default construction. -/
theorem ctorCopy_invalid {w : World} (hw : w.TwoState) {a : Nat} {oa : Obj}
    (ha : w.obj a = some oa) (hva : ptr.valid oa = false) :
    ctorCopy del w a = w.addObj { _ptr := 0, _counter := 0 } := by
  have hlt := World.obj_lt ha
  have hp := invalid_ptr_null hw ha hva
  have hne : w.objs.length ≠ a := by omega
  have ha2 : (w.addObj { _ptr := 0, _counter := 0 }).obj a = some oa := by
    rw [World.obj_addObj, if_neg (fun h : a = w.objs.length => hne h.symm)]
    exact ha
  have hself : (w.addObj { _ptr := 0, _counter := 0 }).obj w.objs.length =
      some { _ptr := 0, _counter := 0 } := by
    rw [World.obj_addObj]; simp
  unfold ctorCopy
  simp only [assign, ne_eq, hne, not_false_eq_true, if_true, ha2]
  rw [hp, grab_null]
  exact drop_invalid hself (by decide)

end owning

/-! ## The two deallocation statements differ in the alive elements only -/

theorem World.deleteArray_withAlive (w : World) (a : List Nat) (p : Nat) :
    ∃ a1, World.deleteArray (w.withAlive a) p = (World.delete w p).withAlive a1 :=
  ⟨(World.elems p ((w.blocks.lookup p).getD 0)).reverse.foldl List.erase a, rfl⟩

namespace owning

/-- Two deallocation statements that differ in the alive elements only. -/
theorem drop_withAlive {d1 d2 : World → Nat → World}
    (hdd : ∀ w a p, ∃ a1, d1 (World.withAlive w a) p = (d2 w p).withAlive a1)
    (w : World) (a : List Nat) (self : Nat) :
    ∃ a1, drop d1 (w.withAlive a) self = (drop d2 w self).withAlive a1 := by
  unfold drop
  have ho : (w.withAlive a).obj self = w.obj self := rfl
  rw [ho]
  cases w.obj self with
  | none => exact ⟨a, rfl⟩
  | some o =>
    simp only
    cases hv : ptr.valid o with
    | false => exact ⟨a, rfl⟩
    | true =>
      simp only [if_true]
      have hk : (w.withAlive a).counterAt o._counter = w.counterAt o._counter := rfl
      rw [hk]
      cases w.counterAt o._counter with
      | none => exact ⟨a, rfl⟩
      | some k =>
        simp only
        have hu : ptr.unreferenced ((w.withAlive a).storeCounter o._counter k.dec) o =
            ptr.unreferenced (w.storeCounter o._counter k.dec) o := rfl
        rw [hu]
        cases ptr.unreferenced (w.storeCounter o._counter k.dec) o with
        | false => exact ⟨a, rfl⟩
        | true =>
          simp only [if_true]
          have hst : (w.withAlive a).storeCounter o._counter k.dec =
              (w.storeCounter o._counter k.dec).withAlive a := rfl
          obtain ⟨a1, h1⟩ := hdd (w.storeCounter o._counter k.dec) a o._ptr
          rw [hst, h1]
          exact ⟨a1, rfl⟩

theorem grab_withAlive {d1 d2 : World → Nat → World}
    (hdd : ∀ w a p, ∃ a1, d1 (World.withAlive w a) p = (d2 w p).withAlive a1)
    (w : World) (a : List Nat) (self p c : Nat) :
    ∃ a1, grab d1 (w.withAlive a) self p c = (grab d2 w self p c).withAlive a1 := by
  obtain ⟨a1, h1⟩ := drop_withAlive hdd w a self
  unfold grab
  simp only [h1]
  refine ⟨a1, ?_⟩
  by_cases hp : p = 0
  · simp only [hp, if_true]
  · simp only [hp, if_false]
    generalize drop d2 w self = w1
    by_cases hc : c = 0
    · subst hc
      simp only [ne_eq, not_true_eq_false, if_false]
      have hk : (((w1.withAlive a1).newCounter).setObj self
          { _ptr := p, _counter := (w1.withAlive a1).counters.length }).counterAt
            (w1.withAlive a1).counters.length =
          ((w1.newCounter).setObj self
            { _ptr := p, _counter := w1.counters.length }).counterAt w1.counters.length := rfl
      rw [hk]
      cases ((w1.newCounter).setObj self
            { _ptr := p, _counter := w1.counters.length }).counterAt w1.counters.length with
      | none => rfl
      | some k => rfl
    · simp only [ne_eq, hc, not_false_eq_true, if_true]
      have hk : ((w1.withAlive a1).setObj self { _ptr := p, _counter := c }).counterAt c =
          (w1.setObj self { _ptr := p, _counter := c }).counterAt c := rfl
      rw [hk]
      cases (w1.setObj self { _ptr := p, _counter := c }).counterAt c with
      | none => rfl
      | some k => rfl

theorem step_withAlive {d1 d2 : World → Nat → World}
    (hdd : ∀ w a p, ∃ a1, d1 (World.withAlive w a) p = (d2 w p).withAlive a1)
    (w : World) (a : List Nat) (op : Op) :
    ∃ a1, step d1 (w.withAlive a) op = (step d2 w op).withAlive a1 := by
  have hobj : ∀ i, (w.withAlive a).obj i = w.obj i := fun _ => rfl
  cases op with
  | alloc p n => exact ⟨a ++ World.elems p n, rfl⟩
  | ctor => exact ⟨a, rfl⟩
  | ctorCopy other =>
    simp only [step, hobj]
    cases hs : (w.obj other).isSome with
    | false => exact ⟨a, by simp⟩
    | true =>
      simp only [if_true]
      unfold ctorCopy assign
      have h2 : ((w.withAlive a).addObj { _ptr := 0, _counter := 0 }) =
          (w.addObj { _ptr := 0, _counter := 0 }).withAlive a := rfl
      have h3 : (w.withAlive a).objs.length = w.objs.length := rfl
      rw [h2, h3]
      have h4 : ((w.addObj { _ptr := 0, _counter := 0 }).withAlive a).obj other =
          (w.addObj { _ptr := 0, _counter := 0 }).obj other := rfl
      rw [h4]
      by_cases hne : w.objs.length = other
      · simp only [ne_eq, hne, not_true_eq_false, if_false]
        exact ⟨a, rfl⟩
      · simp only [ne_eq, hne, not_false_eq_true, if_true]
        cases (w.addObj { _ptr := 0, _counter := 0 }).obj other with
        | none => exact ⟨a, rfl⟩
        | some o => exact grab_withAlive hdd _ a _ _ _
  | ctorRaw p =>
    simp only [step]
    unfold ctorRaw assignRaw
    exact grab_withAlive hdd (w.addObj { _ptr := 0, _counter := 0 }) a _ _ _
  | assign self other =>
    simp only [step, hobj]
    cases hs : ((w.obj self).isSome && (w.obj other).isSome) with
    | false => exact ⟨a, by simp⟩
    | true =>
      simp only [if_true]
      unfold assign
      rw [hobj]
      by_cases hne : self = other
      · simp only [ne_eq, hne, not_true_eq_false, if_false]
        exact ⟨a, rfl⟩
      · simp only [ne_eq, hne, not_false_eq_true, if_true]
        cases w.obj other with
        | none => exact ⟨a, rfl⟩
        | some o => exact grab_withAlive hdd _ a _ _ _
  | assignRaw self p =>
    simp only [step, hobj]
    cases hs : (w.obj self).isSome with
    | false => exact ⟨a, by simp⟩
    | true =>
      simp only [if_true]
      exact grab_withAlive hdd w a _ _ _
  | dtor self =>
    simp only [step, hobj]
    cases hs : (w.obj self).isSome with
    | false => exact ⟨a, by simp⟩
    | true =>
      simp only [if_true]
      unfold dtor
      obtain ⟨a1, h1⟩ := drop_withAlive hdd w a self
      rw [h1]
      exact ⟨a1, rfl⟩

theorem run_withAlive {d1 d2 : World → Nat → World}
    (hdd : ∀ w a p, ∃ a1, d1 (World.withAlive w a) p = (d2 w p).withAlive a1)
    (ops : List Op) (w : World) (a : List Nat) :
    ∃ a1, run d1 (w.withAlive a) ops = (run d2 w ops).withAlive a1 := by
  induction ops generalizing w a with
  | nil => exact ⟨a, rfl⟩
  | cons op ops ih =>
    rw [run_cons, run_cons]
    obtain ⟨a1, h1⟩ := step_withAlive hdd w a op
    rw [h1]
    exact ih _ a1

end owning

/-- A program on `array_ptr<X>` instances and the same program on `ptr<X>`
instances, from the same state, reach states that differ in the alive
elements only. -/
theorem array_ptr_run_withAlive (w : World) (ops : List Op) :
    ∃ a, array_ptr.run w ops = (ptr.run w ops).withAlive a := by
  rw [array_ptr_run_eq, ptr_run_eq]
  exact owning.run_withAlive World.deleteArray_withAlive ops w w.alive

/-! ## Lists of pointers: copies -/

namespace owning

variable {del : World → Nat → World}

end owning

namespace World

end World

namespace owning

variable {del : World → Nat → World}

end owning

/-! ## Lists of pointers: destruction -/

namespace World

end World

theorem listIds_length (base : Nat) (l : List Nat) (r : Nat) :
    (listIds base l r).length = l.length := by
  cases r <;> simp [listIds]

/-- The instances `L` are distinct live instances: those of them that use
the counter `c` are at most the sharers of `c`. -/
theorem countP_map_obj_le (L : List Nat) {w : World} (hnd : L.Nodup)
    (hL : ∀ i ∈ L, (w.obj i).isSome = true) (c : Nat) :
    (L.map w.obj).countP (World.uses c) ≤ w.sharers c := by
  induction L generalizing w with
  | nil => simp
  | cons i L ih =>
    have hnd2 := List.nodup_cons.mp hnd
    obtain ⟨o, ho⟩ := Option.isSome_iff_exists.mp (hL i (List.mem_cons_self _ _))
    have hlt := World.obj_lt ho
    have hobj := @owning.obj_endLife w i hlt
    have hmap : L.map (w.endLife i).obj = L.map w.obj := by
      apply List.map_congr_left
      intro x hx
      have hxi : x ≠ i := fun h => hnd2.1 (h ▸ hx)
      rw [hobj]; simp only [hxi, if_false]
    have hL1 : ∀ x ∈ L, ((w.endLife i).obj x).isSome = true := by
      intro x hx
      have hxi : x ≠ i := fun h => hnd2.1 (h ▸ hx)
      rw [hobj]; simp only [hxi, if_false]
      exact hL x (List.mem_cons_of_mem _ hx)
    have h3 := ih hnd2.2 hL1
    rw [hmap] at h3
    have h4 := World.sharers_of_set (rfl : (w.endLife i).objs = w.objs.set i none)
      (World.obj_eq_some.mp ho) c
    have h5 : World.uses c none = false := rfl
    rw [h5] at h4
    simp only [Bool.false_eq_true, if_false, Nat.add_zero] at h4
    rw [List.map_cons, List.countP_cons, ho]
    omega

namespace owning

variable {del : World → Nat → World}

/-- Construction from a non-null raw address, in any state: a new counter is
created for the new instance, whoever holds the address. -/
theorem ctorRaw_nonnull (w : World) {p : Nat} (hp : p ≠ 0) :
    ctorRaw del w p =
      ((w.addObj { _ptr := 0, _counter := 0 }).newCounter.storeCounter w.counters.length
        { _count := 1 }).setObj w.objs.length { _ptr := p, _counter := w.counters.length } := by
  have hself : (w.addObj { _ptr := 0, _counter := 0 }).obj w.objs.length =
      some { _ptr := 0, _counter := 0 } := by
    rw [World.obj_addObj]; simp
  unfold ctorRaw assignRaw
  rw [grab_raw hp, drop_invalid hself (by decide)]
  rfl

/-- What construction from a non-null raw address gives and leaves. -/
theorem ctorRaw_spec (w : World) (hz : 0 < w.counters.length) {p : Nat} (hp : p ≠ 0) :
    (ctorRaw del w p).obj w.objs.length = some { _ptr := p, _counter := w.counters.length } ∧
    ptr.valid { _ptr := p, _counter := w.counters.length } = true ∧
    w.counterAt w.counters.length = none ∧
    (ctorRaw del w p).counterAt w.counters.length = some { _count := 1 } ∧
    (∀ j, j ≠ w.objs.length → (ctorRaw del w p).obj j = w.obj j) ∧
    (∀ c, c ≠ w.counters.length → (ctorRaw del w p).counterAt c = w.counterAt c) ∧
    (ctorRaw del w p).freed = w.freed ∧ (ctorRaw del w p).alive = w.alive ∧
    (ctorRaw del w p).blocks = w.blocks ∧ (ctorRaw del w p).ub = w.ub := by
  rw [ctorRaw_nonnull w hp]
  have hlen : w.objs.length < ((w.addObj { _ptr := 0, _counter := 0 }).newCounter.storeCounter
      w.counters.length { _count := 1 }).objs.length := by
    simp [World.addObj, World.newCounter, World.storeCounter]
  have hclen : w.counters.length <
      (w.addObj { _ptr := 0, _counter := 0 }).newCounter.counters.length := by
    simp [World.addObj, World.newCounter]
  have hcnt : ∀ c, (((w.addObj { _ptr := 0, _counter := 0 }).newCounter.storeCounter
      w.counters.length { _count := 1 }).setObj w.objs.length
        { _ptr := p, _counter := w.counters.length }).counterAt c =
      if c = w.counters.length then some { _count := 1 } else w.counterAt c := by
    intro c
    have h1 : (((w.addObj { _ptr := 0, _counter := 0 }).newCounter.storeCounter
        w.counters.length { _count := 1 }).setObj w.objs.length
          { _ptr := p, _counter := w.counters.length }).counterAt c =
        ((w.addObj { _ptr := 0, _counter := 0 }).newCounter.storeCounter
          w.counters.length { _count := 1 }).counterAt c := rfl
    rw [h1, counterAt_store hclen]
    by_cases hc : c = w.counters.length
    · simp [hc]
    · simp only [hc, if_false]
      have h2 := counterAt_newCounter (w.addObj { _ptr := 0, _counter := 0 }) c
      have h3 : (w.addObj { _ptr := 0, _counter := 0 }).counters.length = w.counters.length := rfl
      rw [h3] at h2
      simp only [hc, if_false] at h2
      rw [h2]
      rfl
  refine ⟨?_, ?_, ?_, ?_, ?_, ?_, rfl, rfl, rfl, rfl⟩
  · rw [obj_setObj hlen]; simp
  · exact valid_iff.mpr ⟨hp, by simp only; omega⟩
  · unfold World.counterAt
    rw [List.getElem?_eq_none (Nat.le_refl _)]
    rfl
  · rw [hcnt]; simp
  · intro j hj
    rw [obj_setObj hlen]
    simp only [hj, if_false]
    have h1 : ((w.addObj { _ptr := 0, _counter := 0 }).newCounter.storeCounter
        w.counters.length { _count := 1 }).obj j =
        (w.addObj { _ptr := 0, _counter := 0 }).obj j := rfl
    rw [h1, World.obj_addObj]
    simp only [hj, if_false]
  · intro c hc
    rw [hcnt]
    simp only [hc, if_false]

end owning

/-! ## The calls of `dec` -/

theorem ptr_decs_eq (w : World) (ops : List Op) :
    ptr.decs w ops = owning.decs World.delete w ops := by
  induction ops generalizing w with
  | nil => rfl
  | cons op ops ih => simp only [ptr.decs, owning.decs, ptr_step_eq, ih]

theorem array_ptr_decs_eq (w : World) (ops : List Op) :
    array_ptr.decs w ops = owning.decs World.deleteArray w ops := by
  induction ops generalizing w with
  | nil => rfl
  | cons op ops ih => simp only [array_ptr.decs, owning.decs, array_ptr_step_eq, ih]

namespace owning

variable {del : World → Nat → World}

theorem decs_append (w : World) (ops1 ops2 : List Op) :
    decs del w (ops1 ++ ops2) = decs del w ops1 ++ decs del (run del w ops1) ops2 := by
  induction ops1 generalizing w with
  | nil => rfl
  | cons op ops ih =>
    rw [List.cons_append, decs, decs, run_cons, ih, List.append_assoc]

/-- In a sound state where no counter has more than `UINT_MAX` sharers, `drop`
hands a count of at least one to `dec`. -/
theorem decArg_pos {w : World} (hs : w.Sound) (hb : w.Bounded UINT_MAX) {self c : Nat}
    (h : w.decArg self = some c) : 1 ≤ c ∧ c ≤ UINT_MAX := by
  unfold World.decArg at h
  cases ho : w.obj self with
  | none => rw [ho] at h; cases h
  | some o =>
    rw [ho] at h
    simp only at h
    cases hv : ptr.valid o with
    | false => rw [hv] at h; simp at h
    | true =>
      rw [hv] at h
      simp only [if_true] at h
      obtain ⟨k, hk, hkc, hsh, _⟩ := countInv_of_sound hs hb self o ho hv
      rw [hk] at h
      simp only [Option.map_some', Option.some.injEq] at h
      obtain ⟨_, hc0⟩ := valid_iff.mp hv
      have := hb.le _ hc0
      omega

theorem decArg_fresh (w : World) :
    (w.addObj { _ptr := 0, _counter := 0 }).decArg w.objs.length = none := by
  unfold World.decArg
  rw [World.obj_addObj]
  simp [ptr.valid]

theorem stepDec_pos {w : World} (hs : w.Sound) (hb : w.Bounded UINT_MAX) {op : Op} {c : Nat}
    (h : w.stepDec op = some c) : 1 ≤ c ∧ c ≤ UINT_MAX := by
  cases op with
  | alloc p n => cases h
  | ctor => cases h
  | ctorCopy other =>
    simp only [World.stepDec, World.assignDec] at h
    split at h
    · split at h
      · split at h
        · rw [decArg_fresh] at h; cases h
        · cases h
      · cases h
    · cases h
  | ctorRaw p =>
    simp only [World.stepDec] at h
    rw [decArg_fresh] at h; cases h
  | assign self other =>
    simp only [World.stepDec, World.assignDec] at h
    split at h
    · split at h
      · split at h
        · exact decArg_pos hs hb h
        · cases h
      · cases h
    · cases h
  | assignRaw self p =>
    simp only [World.stepDec] at h
    split at h
    · exact decArg_pos hs hb h
    · cases h
  | dtor self =>
    simp only [World.stepDec] at h
    split at h
    · exact decArg_pos hs hb h
    · cases h

/-- In a program that keeps every counter within `UINT_MAX` sharers, every
call of `dec` gets a count of at least one, and every state is sound. -/
theorem decs_pos (hd : Dealloc del) (ops : List Op) {w : World} (hs : w.Sound)
    (hb : w.Bounded UINT_MAX) (hw : Within del UINT_MAX w ops) :
    (∀ c ∈ decs del w ops, 1 ≤ c ∧ c ≤ UINT_MAX) ∧ (run del w ops).Sound ∧
    (run del w ops).Bounded UINT_MAX := by
  induction ops generalizing w with
  | nil => exact ⟨fun c h => absurd h (List.not_mem_nil _), hs, hb⟩
  | cons op ops ih =>
    have hb1 := hw.1
    have hs1 := sound_step hd hs op (hb1.mono (by decide))
    obtain ⟨g1, g2, g3⟩ := ih hs1 hb1 hw.2
    rw [run_cons]
    refine ⟨?_, g2, g3⟩
    intro c hc
    rw [decs, List.mem_append] at hc
    rcases hc with hc | hc
    · exact stepDec_pos hs hb (by simpa using hc)
    · exact g1 c hc

/-- In a sound state where no counter has more than `UINT_MAX` sharers, every
counter in the store holds a count of at least one. -/
theorem counters_pos {w : World} (hs : w.Sound) (hb : w.Bounded UINT_MAX) {c : Nat}
    {k : ptr_counter} (hk : w.counterAt c = some k) : 1 ≤ k._count ∧ k._count ≤ UINT_MAX := by
  rw [hs.cnt] at hk
  by_cases h : c = 0 ∨ w.sharers c = 0
  · simp [h] at hk
  · simp only [h, if_false, Option.some.injEq] at hk
    have hc0 : c ≠ 0 := fun e => h (Or.inl e)
    have hle := hb.le c hc0
    subst hk
    simp only
    rw [UINT_MAX_eq] at hle ⊢
    rw [UINT_MOD_eq]
    omega

/-- Destroying an instance of a lineage whose counter has wrapped to `0`:
`dec` wraps the count to `UINT_MAX`, and nothing is deallocated. -/
theorem dtor_lineage_zero (hd : Dealloc del) (p n j : Nat) (hp : p ≠ 0) (hj : j < n)
    (hmod : n % UINT_MOD = 0) :
    (World.lineage p n).decArg j = some 0 ∧
    (dtor del (World.lineage p n) j).counterAt 1 = some { _count := UINT_MAX } ∧
    (dtor del (World.lineage p n) j).freed = [] := by
  have ho := lineage_obj p n j hj
  have hv : ptr.valid { _ptr := p, _counter := 1 } = true := by
    simp [ptr.valid, hp]
  have hk : (World.lineage p n).counterAt ({ _ptr := p, _counter := 1 } : Obj)._counter =
      some { _count := 0 } := by
    have h2 : (World.lineage p n).counterAt 1 = some { _count := n % UINT_MOD } := rfl
    rw [hmod] at h2
    exact h2
  have hz : (ptr_counter.dec { _count := 0 }) = { _count := UINT_MAX } := by decide
  have hz2 : ¬ ((ptr_counter.dec { _count := 0 })._count = 0) := by decide
  have hfreed := drop_valid_freed hd ho hv hk
  have hcnt := drop_valid_counters hd ho hv hk
  rw [if_neg hz2] at hfreed hcnt
  refine ⟨?_, ?_, ?_⟩
  · unfold World.decArg
    rw [ho]
    simp only [hv, if_true]
    rw [hk]
    rfl
  · have : (dtor del (World.lineage p n) j).counterAt 1 =
        (drop del (World.lineage p n) j).counterAt 1 := rfl
    rw [this, World.counterAt_of_set hcnt (World.counterAt_lt hk), hz]
    simp
  · have : (dtor del (World.lineage p n) j).freed = (drop del (World.lineage p n) j).freed := rfl
    rw [this, hfreed]
    rfl

end owning

namespace owning

variable {del : World → Nat → World}

/-- The destruction of an instance of a lineage whose counter has wrapped to
`0` hands the count `0` to `dec`. -/
theorem decs_lineage_dtor (hd : Dealloc del) (p n j : Nat) (hp : p ≠ 0) (hj : j < n)
    (hmod : n % UINT_MOD = 0) : 0 ∈ decs del (World.lineage p n) [Op.dtor j] := by
  have h := (dtor_lineage_zero hd p n j hp hj hmod).1
  have ho := lineage_obj p n j hj
  have hstep : (World.lineage p n).stepDec (Op.dtor j) = some 0 := by
    show (if ((World.lineage p n).obj j).isSome then (World.lineage p n).decArg j else none) =
      some 0
    rw [ho, h]
    rfl
  rw [decs, hstep]
  exact List.mem_append_left _ (List.mem_singleton.mpr rfl)

end owning

/-! ## Assigning to a sole owner the address it owns -/

namespace owning

variable {del : World → Nat → World}

/-- The assignment `t = p` to the sole owner `t` of `p`. -/
theorem readopt (hd : Dealloc del) {w : World} {t : Nat} {ot : Obj} (ht : w.obj t = some ot)
    (hv : ptr.valid ot = true) (hk : w.counterAt ot._counter = some { _count := 1 }) :
    (drop del w t).freed = w.freed ++ [ot._ptr] ∧
    (grab del w t ot._ptr 0).obj t =
      some { _ptr := ot._ptr, _counter := w.counters.length } ∧
    ptr.valid { _ptr := ot._ptr, _counter := w.counters.length } = true ∧
    w.counterAt w.counters.length = none ∧
    (grab del w t ot._ptr 0).counterAt w.counters.length = some { _count := 1 } ∧
    (grab del w t ot._ptr 0).counterAt ot._counter = none ∧
    (grab del w t ot._ptr 0).freed = w.freed ++ [ot._ptr] ∧
    (grab del w t ot._ptr 0).ub = w.ub ∧
    (∀ j, j ≠ t → (grab del w t ot._ptr 0).obj j = w.obj j) ∧
    (drop del (grab del w t ot._ptr 0) t).freed = w.freed ++ [ot._ptr, ot._ptr] ∧
    (drop del (grab del w t ot._ptr 0) t).obj t = some { _ptr := 0, _counter := 0 } ∧
    (drop del (grab del w t ot._ptr 0) t).counterAt w.counters.length = none := by
  obtain ⟨hp0, hc0⟩ := valid_iff.mp hv
  have hclt := World.counterAt_lt hk
  have hlt := World.obj_lt ht
  obtain ⟨d1, d2, d3, d4⟩ := drop_count hd ht hv hk (Nat.le_refl 1) (by decide)
  simp only [if_true] at d2 d3
  have hdlen : (drop del w t).counters.length = w.counters.length := (drop_shape hd w t).2
  have hdolen : (drop del w t).objs.length = w.objs.length := drop_objs_length hd w t
  have hfresh : w.counterAt w.counters.length = none := by
    unfold World.counterAt
    rw [List.getElem?_eq_none (Nat.le_refl _)]
    rfl
  have hg := @grab_raw del w t ot._ptr hp0
  rw [hdlen] at hg
  have hlen1 : t < ((drop del w t).newCounter.storeCounter w.counters.length
      { _count := 1 }).objs.length := by
    show t < (drop del w t).objs.length
    rw [hdolen]; exact hlt
  have hclen1 : w.counters.length < (drop del w t).newCounter.counters.length := by
    show w.counters.length < ((drop del w t).counters ++ [some ptr_counter.ctor]).length
    rw [List.length_append, hdlen]; simp
  have hcnt : ∀ c, (grab del w t ot._ptr 0).counterAt c =
      if c = w.counters.length then some { _count := 1 } else (drop del w t).counterAt c := by
    intro c
    rw [hg]
    have h1 : (((drop del w t).newCounter.storeCounter w.counters.length
        { _count := 1 }).setObj t { _ptr := ot._ptr, _counter := w.counters.length }).counterAt c =
        ((drop del w t).newCounter.storeCounter w.counters.length { _count := 1 }).counterAt c :=
      rfl
    rw [h1, counterAt_store hclen1]
    by_cases hc : c = w.counters.length
    · simp [hc]
    · simp only [hc, if_false]
      have h2 := counterAt_newCounter (drop del w t) c
      rw [hdlen] at h2
      simp only [hc, if_false] at h2
      exact h2
  have hobj : ∀ j, (grab del w t ot._ptr 0).obj j =
      if j = t then some { _ptr := ot._ptr, _counter := w.counters.length }
      else (drop del w t).obj j := by
    intro j
    rw [hg, obj_setObj hlen1]
    rfl
  have hv1 : ptr.valid { _ptr := ot._ptr, _counter := w.counters.length } = true :=
    valid_iff.mpr ⟨hp0, by simp only; omega⟩
  have hfreed1 : (grab del w t ot._ptr 0).freed = w.freed ++ [ot._ptr] := by
    rw [grab_freed, d3]
  have ht1 : (grab del w t ot._ptr 0).obj t =
      some { _ptr := ot._ptr, _counter := w.counters.length } := by
    rw [hobj]; simp
  have hk1 : (grab del w t ot._ptr 0).counterAt
      ({ _ptr := ot._ptr, _counter := w.counters.length } : Obj)._counter =
      some { _count := 1 } := by
    rw [hcnt]; simp
  obtain ⟨e1, e2, e3, _⟩ := drop_count hd ht1 hv1 hk1 (Nat.le_refl 1) (by decide)
  simp only [if_true] at e2 e3
  have hlen2 : t < (grab del w t ot._ptr 0).objs.length := World.obj_lt ht1
  refine ⟨d3, ht1, hv1, hfresh, by rw [hcnt]; simp, ?_, hfreed1, ?_, ?_, ?_, ?_, ?_⟩
  · rw [hcnt]
    have hne : ot._counter ≠ w.counters.length := by omega
    simp only [hne, if_false]
    rw [World.counterAt_of_set d2 hclt]
    simp
  · rw [hg]
    exact d4
  · intro j hj
    rw [hobj]
    simp only [hj, if_false]
    exact drop_obj_other hd w t hj
  · rw [e3, hfreed1, List.append_assoc]
    rfl
  · rw [World.obj_of_set e1 hlen2]; simp
  · rw [World.counterAt_of_set e2 (World.counterAt_lt hk1)]
    simp

end owning

/-! ## Lineages -/

namespace owning

variable {del : World → Nat → World}

theorem lineages_empty : World.empty.Lineages := by
  refine ⟨by decide, ?_, ?_, ?_⟩
  · intro i o h
    simp [World.obj, World.empty] at h
  · intro i j oi oj h
    simp [World.obj, World.empty] at h
  · intro c k h
    cases c <;> simp [World.counterAt, World.empty] at h

theorem lineages_congr {w v : World} (h : w.Lineages) (ho : v.objs = w.objs)
    (hl : w.counters.length ≤ v.counters.length)
    (hr : ∀ c k, v.counterAt c = some k → k._count < UINT_MOD) : v.Lineages := by
  have hobj : ∀ i, v.obj i = w.obj i := fun i => by unfold World.obj; rw [ho]
  refine ⟨by have := h.nz; omega, ?_, ?_, hr⟩
  · intro i o hi
    rw [hobj] at hi
    have := h.lt i o hi
    omega
  · intro i j oi oj hi hj
    rw [hobj] at hi hj
    exact h.addr i j oi oj hi hj

theorem lineages_set {w v : World} (h : w.Lineages) {i : Nat} {x : Option Obj}
    (ho : v.objs = w.objs.set i x) (hl : w.counters.length ≤ v.counters.length)
    (hr : ∀ c k, v.counterAt c = some k → k._count < UINT_MOD)
    (hx : ∀ o, x = some o → o._counter < v.counters.length ∧
      (o._counter ≠ 0 → ∀ j oj, j ≠ i → w.obj j = some oj → oj._counter = o._counter →
        oj._ptr = o._ptr)) : v.Lineages := by
  by_cases hi : i < w.objs.length
  · have hobj := fun j => World.obj_of_set ho hi j
    refine ⟨by have := h.nz; omega, ?_, ?_, hr⟩
    · intro j o hj
      rw [hobj] at hj
      by_cases hji : j = i
      · simp only [hji, if_true] at hj
        exact (hx o hj).1
      · simp only [hji, if_false] at hj
        have := h.lt j o hj
        omega
    · intro j1 j2 o1 o2 h1 h2 hc0 hc
      rw [hobj] at h1 h2
      by_cases hj1 : j1 = i
      · simp only [hj1, if_true] at h1
        by_cases hj2 : j2 = i
        · simp only [hj2, if_true] at h2
          rw [h1] at h2
          cases h2
          rfl
        · simp only [hj2, if_false] at h2
          exact ((hx o1 h1).2 hc0 j2 o2 hj2 h2 hc.symm).symm
      · simp only [hj1, if_false] at h1
        by_cases hj2 : j2 = i
        · simp only [hj2, if_true] at h2
          exact (hx o2 h2).2 (by rw [← hc]; exact hc0) j1 o1 hj1 h1 hc
        · simp only [hj2, if_false] at h2
          exact h.addr j1 j2 o1 o2 h1 h2 hc0 hc
  · exact lineages_congr h (by rw [ho, List.set_eq_of_length_le (by omega)]) hl hr

/-- The stored counts after `drop` are values of `unsigned`. -/
theorem drop_rng (hd : Dealloc del) {w : World}
    (hr : ∀ c k, w.counterAt c = some k → k._count < UINT_MOD) (self : Nat) :
    ∀ c k, (drop del w self).counterAt c = some k → k._count < UINT_MOD := by
  intro c k hk
  cases ho : w.obj self with
  | none => rw [drop_none ho] at hk; exact hr c k hk
  | some o =>
    cases hv : ptr.valid o with
    | false => rw [drop_invalid ho hv] at hk; exact hr c k hk
    | true =>
      cases hk0 : w.counterAt o._counter with
      | none =>
        have : drop del w self = { w with ub := true } := by simp [drop, ho, hv, hk0]
        rw [this] at hk
        exact hr c k hk
      | some k0 =>
        rw [World.counterAt_of_set (drop_valid_counters hd ho hv hk0) (World.counterAt_lt hk0)]
          at hk
        by_cases hc : c = o._counter
        · simp only [hc, if_true] at hk
          split at hk
          · exact Option.noConfusion hk
          · have hk2 := Option.some.inj hk
            rw [← hk2]
            exact Nat.mod_lt _ (by decide)
        · simp only [hc, if_false] at hk
          exact hr c k hk

theorem lineages_drop (hd : Dealloc del) {w : World} (h : w.Lineages) (self : Nat) :
    (drop del w self).Lineages := by
  have hlen := (drop_shape hd w self).2
  have hr := drop_rng hd h.rng self
  rcases (drop_shape hd w self).1 with h1 | h1
  · exact lineages_congr h h1 (by omega) hr
  · refine lineages_set h h1 (by omega) hr ?_
    intro o ho
    cases ho
    exact ⟨by simp only; have := h.nz; omega, fun h0 => absurd rfl h0⟩

/-- The counter store after `grab` of a non-null address. -/
theorem grab_counters (w : World) (self p c : Nat) (hp : p ≠ 0)
    (hr : ∀ d k, (drop del w self).counterAt d = some k → k._count < UINT_MOD) :
    (grab del w self p c).counters.length =
      (drop del w self).counters.length + (if c = 0 then 1 else 0) ∧
    (∀ d k, (grab del w self p c).counterAt d = some k → k._count < UINT_MOD) := by
  generalize hg : grab del w self p c = g
  unfold grab at hg
  simp only [hp, if_false] at hg
  have hinc : ∀ k : ptr_counter, k.inc._count < UINT_MOD := fun k => Nat.mod_lt _ (by decide)
  have hnew : ∀ d k, (drop del w self).newCounter.counterAt d = some k → k._count < UINT_MOD := by
    intro d k hk
    rw [counterAt_newCounter] at hk
    split at hk
    · have hk2 := Option.some.inj hk
      rw [← hk2]
      decide
    · exact hr d k hk
  have hset : ∀ (u : World) (a : Nat) (k0 : ptr_counter),
      (∀ d k, u.counterAt d = some k → k._count < UINT_MOD) →
      ∀ d k, (u.storeCounter a k0.inc).counterAt d = some k → k._count < UINT_MOD := by
    intro u a k0 hu d k hk
    by_cases ha : a < u.counters.length
    · rw [counterAt_store ha] at hk
      split at hk
      · have hk2 := Option.some.inj hk
        rw [← hk2]
        exact hinc k0
      · exact hu d k hk
    · have : (u.storeCounter a k0.inc).counters = u.counters := by
        show u.counters.set a _ = u.counters
        rw [List.set_eq_of_length_le (by omega)]
      have h2 : (u.storeCounter a k0.inc).counterAt d = u.counterAt d := by
        unfold World.counterAt; rw [this]
      rw [h2] at hk
      exact hu d k hk
  by_cases hc : c = 0
  · simp only [hc, ne_eq, not_true_eq_false, if_false, if_true] at hg ⊢
    split at hg
    · subst hg
      exact ⟨by simp [World.setObj, World.newCounter], hnew⟩
    · subst hg
      refine ⟨by simp [World.setObj, World.newCounter, World.storeCounter], ?_⟩
      exact hset _ _ _ hnew
  · simp only [hc, ne_eq, not_false_eq_true, if_true, if_false, Nat.add_zero] at hg ⊢
    split at hg
    · subst hg
      exact ⟨rfl, hr⟩
    · subst hg
      refine ⟨by simp [World.setObj, World.storeCounter], ?_⟩
      exact hset _ _ _ hr

theorem lineages_grab (hd : Dealloc del) {w : World} (h : w.Lineages) (self p c : Nat)
    (hsrc : c ≠ 0 → ∃ j oj, j ≠ self ∧ w.obj j = some oj ∧ oj._counter = c ∧ oj._ptr = p) :
    (grab del w self p c).Lineages := by
  have h1 := lineages_drop hd h self
  by_cases hp : p = 0
  · subst hp; rw [grab_null]; exact h1
  obtain ⟨hlen, hr⟩ := @grab_counters del w self p c hp h1.rng
  have hobjs := @grab_nonnull_objs del w self p c hp
  refine lineages_set h1 hobjs (by omega) hr ?_
  intro o ho
  cases ho
  by_cases hc : c = 0
  · simp only [hc, ne_eq, not_true_eq_false, if_false, if_true] at hlen ⊢
    refine ⟨by omega, ?_⟩
    intro _ j oj _ hj hjc
    have := h1.lt j oj hj
    omega
  · obtain ⟨j0, oj0, hj0, hoj0, hc0, hp0⟩ := hsrc hc
    have hoj1 : (drop del w self).obj j0 = some oj0 := by
      rw [drop_obj_other hd w self hj0]; exact hoj0
    simp only [hc, ne_eq, not_false_eq_true, if_true, if_false, Nat.add_zero] at hlen ⊢
    refine ⟨?_, ?_⟩
    · have := h1.lt j0 oj0 hoj1
      omega
    · intro _ j oj _ hj hjc
      have := h1.addr j j0 oj oj0 hj hoj1 (by rw [hjc]; exact hc) (by rw [hjc, hc0])
      rw [this, hp0]

theorem lineages_addObj {w : World} (h : w.Lineages) :
    (w.addObj { _ptr := 0, _counter := 0 }).Lineages := by
  refine ⟨h.nz, ?_, ?_, h.rng⟩
  · intro i o hi
    rw [World.obj_addObj] at hi
    by_cases hil : i = w.objs.length
    · simp only [hil, if_true, Option.some.injEq] at hi
      subst hi; exact h.nz
    · simp only [hil, if_false] at hi
      exact h.lt i o hi
  · intro i j oi oj hi hj hc0 hc
    rw [World.obj_addObj] at hi hj
    by_cases hil : i = w.objs.length
    · simp only [hil, if_true, Option.some.injEq] at hi
      subst hi; exact absurd rfl hc0
    · simp only [hil, if_false] at hi
      by_cases hjl : j = w.objs.length
      · simp only [hjl, if_true, Option.some.injEq] at hj
        subst hj
        exact absurd hc hc0
      · simp only [hjl, if_false] at hj
        exact h.addr i j oi oj hi hj hc0 hc

theorem lineages_assign (hd : Dealloc del) {w : World} (h : w.Lineages) (self other : Nat) :
    (assign del w self other).Lineages := by
  unfold assign
  by_cases hso : self = other
  · simp only [hso, ne_eq, not_true_eq_false, if_false]; exact h
  · simp only [ne_eq, hso, not_false_eq_true, if_true]
    cases hoo : w.obj other with
    | none => exact h
    | some o =>
      exact lineages_grab hd h _ _ _ (fun _ => ⟨other, o, fun e => hso e.symm, hoo, rfl, rfl⟩)

theorem lineages_step (hd : Dealloc del) {w : World} (h : w.Lineages) (op : Op) :
    (step del w op).Lineages := by
  cases op with
  | alloc p n => exact ⟨h.nz, h.lt, h.addr, h.rng⟩
  | ctor => exact lineages_addObj h
  | ctorCopy other =>
    simp only [step]
    split
    · exact lineages_assign hd (lineages_addObj h) _ _
    · exact h
  | ctorRaw p => exact lineages_grab hd (lineages_addObj h) _ _ _ (fun h0 => absurd rfl h0)
  | assign self other =>
    simp only [step]
    split
    · exact lineages_assign hd h _ _
    · exact h
  | assignRaw self p =>
    simp only [step]
    split
    · exact lineages_grab hd h _ _ _ (fun h0 => absurd rfl h0)
    · exact h
  | dtor self =>
    simp only [step]
    split
    · have h1 := lineages_drop hd h self
      exact lineages_set h1 (rfl : (dtor del w self).objs = _) (Nat.le_refl _) h1.rng
        (fun o ho => by cases ho)
    · exact h

/-- Every state reachable from the empty state, by any program. -/
theorem lineages_run (hd : Dealloc del) {w : World} (h : w.Lineages) (ops : List Op) :
    (run del w ops).Lineages := by
  induction ops generalizing w with
  | nil => exact h
  | cons op ops ih =>
    rw [run_cons]
    exact ih (lineages_step hd h op)

end owning

/-! ## Copy assignment within one lineage -/

namespace owning

variable {del : World → Nat → World}

theorem dec_inc_count (n : Nat) (h1 : 2 ≤ n) (h2 : n ≤ UINT_MAX) :
    ptr_counter.dec { _count := n } = { _count := n - 1 } ∧
    (ptr_counter.dec { _count := n })._count ≠ 0 ∧
    (ptr_counter.dec { _count := n }).inc = { _count := n } := by
  have e1 : (n + UINT_MOD - 1) % UINT_MOD = n - 1 := by
    rw [UINT_MAX_eq] at h2
    rw [UINT_MOD_eq]
    omega
  have e2 : (n - 1 + 1) % UINT_MOD = n := by
    rw [UINT_MAX_eq] at h2
    rw [UINT_MOD_eq]
    omega
  refine ⟨?_, ?_, ?_⟩
  · simp only [ptr_counter.dec, e1]
  · simp only [ptr_counter.dec, e1]
    omega
  · simp only [ptr_counter.dec, ptr_counter.inc, e1, e2]

/-- The copy assignment `t = s` between two instances with the same address
and the same counter, whose count is `n`, `2 ≤ n ≤ UINT_MAX`: the state after
it is the state before it; in between, the count is `n - 1` and nothing is
deallocated. -/
theorem reassign_same {w : World} {t s : Nat} {o : Obj} {n : Nat}
    (hts : t ≠ s) (ht : w.obj t = some o) (hs : w.obj s = some o) (hv : ptr.valid o = true)
    (hk : w.counterAt o._counter = some { _count := n }) (h1 : 2 ≤ n) (h2 : n ≤ UINT_MAX) :
    assign del w t s = w ∧
    (drop del w t).counterAt o._counter = some { _count := n - 1 } ∧
    (drop del w t).freed = w.freed ∧ (drop del w t).alive = w.alive ∧
    (drop del w t).obj t = some { _ptr := 0, _counter := 0 } := by
  obtain ⟨hp0, hc0⟩ := valid_iff.mp hv
  have hclt := World.counterAt_lt hk
  have hlt := World.obj_lt ht
  obtain ⟨e1, e2, e3⟩ := dec_inc_count n h1 h2
  have hdrop := @drop_valid del _ _ _ _ ht hv hk
  rw [if_neg e2, e1] at hdrop
  have hk1 : (drop del w t).counterAt o._counter = some { _count := n - 1 } := by
    rw [hdrop]
    have := counterAt_store hclt { _count := n - 1 } o._counter
    simpa using this
  have hg := @grab_copy del w t o._ptr o._counter _ hp0 hc0 hk1
  rw [← e1, e3] at hg
  have hassign : assign del w t s = grab del w t o._ptr o._counter := by
    simp only [assign, ne_eq, hts, not_false_eq_true, if_true, hs]
  refine ⟨?_, hk1, by rw [hdrop]; rfl, by rw [hdrop]; rfl, ?_⟩
  · rw [hassign, hg, hdrop]
    apply World.ext_fields
    · simp only [World.setObj, World.storeCounter]
      rw [List.set_set]
      exact List.set_of_getElem? _ _ _ (World.obj_eq_some.mp ht)
    · simp only [World.setObj, World.storeCounter]
      rw [List.set_set]
      exact List.set_of_getElem? _ _ _ (World.counterAt_eq_some.mp hk)
    · rfl
    · rfl
    · rfl
    · rfl
  · rw [hdrop]
    have hlen : t < (w.storeCounter o._counter { _count := n - 1 }).objs.length := hlt
    rw [obj_setObj hlen]; simp

end owning

/-! ## What an operation on one instance leaves alone -/

namespace owning

variable {del : World → Nat → World}

theorem grab_obj_other (hd : Dealloc del) (w : World) (self p c : Nat) {j : Nat}
    (hj : j ≠ self) : (grab del w self p c).obj j = w.obj j := by
  rw [← drop_obj_other hd w self hj]
  by_cases hp : p = 0
  · subst hp; rw [grab_null]
  · unfold World.obj
    rw [grab_nonnull_objs w self p c hp, List.getElem?_set_ne (fun h => hj h.symm)]

/-- `grab` writes one counter only, that of the pair it adopts. -/
theorem grab_counterAt_other (w : World) (self p c : Nat) {d : Nat}
    (hd1 : d ≠ (if c ≠ 0 then c else (drop del w self).counters.length)) :
    (grab del w self p c).counterAt d = (drop del w self).counterAt d := by
  generalize hg : grab del w self p c = g
  unfold grab at hg
  by_cases hp : p = 0
  · simp only [hp, if_true] at hg
    subst hg; rfl
  · simp only [hp, if_false] at hg
    have hset : ∀ (u : World) (a : Nat) (k0 : ptr_counter), d ≠ a →
        (u.storeCounter a k0).counterAt d = u.counterAt d := by
      intro u a k0 hda
      unfold World.counterAt World.storeCounter
      simp only
      rw [List.getElem?_set_ne (fun h => hda h.symm)]
    by_cases hc : c = 0
    · simp only [hc, ne_eq, not_true_eq_false, if_false] at hg hd1
      have hnew : (drop del w self).newCounter.counterAt d = (drop del w self).counterAt d := by
        rw [counterAt_newCounter]
        simp only [hd1, if_false]
      split at hg
      · subst hg
        exact hnew
      · subst hg
        have h1 := hset ((drop del w self).newCounter.setObj self
          { _ptr := p, _counter := (drop del w self).counters.length })
          (drop del w self).counters.length (ptr_counter.inc (by assumption)) hd1
        rw [h1]
        exact hnew
    · simp only [hc, ne_eq, not_false_eq_true, if_true] at hg hd1
      split at hg
      · subst hg
        rfl
      · subst hg
        have h1 := hset ((drop del w self).setObj self { _ptr := p, _counter := c }) c
          (ptr_counter.inc (by assumption)) hd1
        rw [h1]
        rfl

/-- `drop` deallocates nothing or the address of the instance. -/
theorem drop_freed_cases (hd : Dealloc del) {w : World} {self : Nat} {o : Obj}
    (ho : w.obj self = some o) :
    (drop del w self).freed = w.freed ∨ (drop del w self).freed = w.freed ++ [o._ptr] := by
  cases hv : ptr.valid o with
  | false => rw [drop_invalid ho hv]; exact Or.inl rfl
  | true =>
    cases hk : w.counterAt o._counter with
    | none =>
      have : drop del w self = { w with ub := true } := by simp [drop, ho, hv, hk]
      rw [this]; exact Or.inl rfl
    | some k =>
      rw [drop_valid_freed hd ho hv hk]
      split
      · exact Or.inr rfl
      · exact Or.inl rfl

end owning

/-- `ptr<X>::drop` destroys nothing or the object at the address of the
instance. -/
theorem ptr_drop_alive_cases {w : World} {self : Nat} {o : Obj} (ho : w.obj self = some o) :
    (owning.drop World.delete w self).alive = w.alive ∨
    (owning.drop World.delete w self).alive = w.alive.erase o._ptr := by
  cases hv : ptr.valid o with
  | false => rw [owning.drop_invalid ho hv]; exact Or.inl rfl
  | true =>
    cases hk : w.counterAt o._counter with
    | none =>
      have : owning.drop World.delete w self = { w with ub := true } := by
        simp [owning.drop, ho, hv, hk]
      rw [this]; exact Or.inl rfl
    | some k =>
      rw [ptr_drop_alive ho hv hk]
      split
      · exact Or.inr rfl
      · exact Or.inl rfl

/-- `array_ptr<X>::drop` destroys nothing or the elements of the run at the
address of the instance. -/
theorem array_ptr_drop_alive_cases {w : World} {self : Nat} {o : Obj}
    (ho : w.obj self = some o) :
    (owning.drop World.deleteArray w self).alive = w.alive ∨
    (owning.drop World.deleteArray w self).alive =
      (World.elems o._ptr ((w.blocks.lookup o._ptr).getD 0)).reverse.foldl List.erase
        w.alive := by
  cases hv : ptr.valid o with
  | false => rw [owning.drop_invalid ho hv]; exact Or.inl rfl
  | true =>
    cases hk : w.counterAt o._counter with
    | none =>
      have : owning.drop World.deleteArray w self = { w with ub := true } := by
        simp [owning.drop, ho, hv, hk]
      rw [this]; exact Or.inl rfl
    | some k =>
      rw [owning.drop_valid ho hv hk]
      split
      · exact Or.inr rfl
      · exact Or.inl rfl

theorem List.count_erase_ne_self (l : List Nat) {a q : Nat} (h : q ≠ a) :
    (l.erase a).count q = l.count q := by
  rw [List.count_erase]
  have : (a == q) = false := by simpa using fun e : a = q => h e.symm
  simp [this]

theorem List.count_foldl_erase_not_mem (L l : List Nat) {q : Nat} (h : q ∉ L) :
    (L.foldl List.erase l).count q = l.count q := by
  rw [List.count_foldl_erase, List.count_eq_zero_of_not_mem h]
  rfl

namespace owning

variable {del : World → Nat → World}

/-- The frame of `grab` on a live instance, for a deallocation statement
that destroys at most the objects `gone`. -/
theorem frame_grab (hd : Dealloc del) {w : World} {t : Nat} {ot : Obj} (ht : w.obj t = some ot)
    (p c : Nat) (gone : List Nat)
    (halive : ∀ q, q ∉ gone → (drop del w t).alive.count q = w.alive.count q) :
    w.Frame (grab del w t p c) t ot (if c ≠ 0 then c else w.counters.length) gone := by
  have hlen := (drop_shape hd w t).2
  refine ⟨fun j hj => grab_obj_other hd w t p c hj, ?_, ?_, ?_⟩
  · intro d hd1 hd2
    rw [grab_counterAt_other w t p c (by rw [hlen]; exact hd2)]
    exact drop_counterAt_other hd w t ht hd1
  · rw [grab_freed]
    exact drop_freed_cases hd ht
  · intro q hq
    rw [(grab_heap w t p c).1]
    exact halive q hq

/-- The frame of the destructor of a live instance. -/
theorem frame_dtor (hd : Dealloc del) {w : World} {t : Nat} {ot : Obj} (ht : w.obj t = some ot)
    (gone : List Nat)
    (halive : ∀ q, q ∉ gone → (drop del w t).alive.count q = w.alive.count q) :
    w.Frame (dtor del w t) t ot ot._counter gone := by
  have hlt : t < (drop del w t).objs.length := by
    rw [drop_objs_length hd]; exact World.obj_lt ht
  refine ⟨?_, ?_, drop_freed_cases hd ht, halive⟩
  · intro j hj
    unfold dtor
    rw [obj_endLife hlt]
    simp only [hj, if_false]
    exact drop_obj_other hd w t hj
  · intro d hd1 _
    exact drop_counterAt_other hd w t ht hd1

/-- The frame of the copy assignment to a live instance. -/
theorem frame_assign (hd : Dealloc del) {w : World} {t s : Nat} {ot os : Obj}
    (ht : w.obj t = some ot) (hs : w.obj s = some os) (gone : List Nat)
    (halive : ∀ q, q ∉ gone → (drop del w t).alive.count q = w.alive.count q) :
    w.Frame (assign del w t s) t ot
      (if os._counter ≠ 0 then os._counter else w.counters.length) gone := by
  unfold assign
  by_cases hts : t = s
  · simp only [hts, ne_eq, not_true_eq_false, if_false]
    exact ⟨fun _ _ => rfl, fun _ _ _ => rfl, Or.inl rfl, fun _ _ => rfl⟩
  · simp only [ne_eq, hts, not_false_eq_true, if_true, hs]
    exact frame_grab hd ht os._ptr os._counter gone halive

end owning

theorem ptr_drop_alive_count {w : World} {t : Nat} {ot : Obj} (ht : w.obj t = some ot) :
    ∀ q, q ∉ [ot._ptr] → (owning.drop World.delete w t).alive.count q = w.alive.count q := by
  intro q hq
  have hne : q ≠ ot._ptr := fun e => hq (by rw [e]; exact List.mem_singleton.mpr rfl)
  rcases ptr_drop_alive_cases ht with h | h
  · rw [h]
  · rw [h, List.count_erase_ne_self _ hne]

theorem array_ptr_drop_alive_count {w : World} {t : Nat} {ot : Obj} (ht : w.obj t = some ot) :
    ∀ q, q ∉ World.elems ot._ptr ((w.blocks.lookup ot._ptr).getD 0) →
      (owning.drop World.deleteArray w t).alive.count q = w.alive.count q := by
  intro q hq
  rcases array_ptr_drop_alive_cases ht with h | h
  · rw [h]
  · rw [h, List.count_foldl_erase_not_mem _ _ (by simpa using hq)]

/-! ## The elements of a run -/

/-- The element at position `i` of the run of `n` elements that `new X[n]`
creates at `p`. -/
theorem World.elems_getElem? (p n i : Nat) :
    (World.elems p n)[i]? = if i < n then some (p + i) else none := by
  unfold World.elems
  rw [List.getElem?_map]
  by_cases hi : i < n
  · rw [List.getElem?_range hi]
    simp [hi]
  · rw [List.getElem?_eq_none (by simpa using hi)]
    simp [hi]

theorem World.elems_getElem?_some {p n j a : Nat} (h : (World.elems p n)[j]? = some a) :
    j < n ∧ a = p + j := by
  rw [World.elems_getElem?] at h
  by_cases hj : j < n
  · rw [if_pos hj] at h
    exact ⟨hj, (Option.some.inj h).symm⟩
  · rw [if_neg hj] at h
    exact Option.noConfusion h

/-! ## The claims -/

/-- C1, as stated, fails. The program `p = new X; ptr<X> a(p);` followed by
`UINT_MAX = 2 ^ 32 - 1` copy constructions from `a` adopts a raw address that
no live pointer holds and otherwise only copies; it reaches a state with
`2 ^ 32` live instances of one lineage in which the first instance is Valid,
its counter holds `0` (the `unsigned` count has wrapped), and `copies()`
returns `0`: the count is neither at least one nor the number of live
instances with that counter. -/
theorem C1_count_invariant_fails_on_wrap :
    ptr.Unaliased World.empty (lineageProg 1 (List.replicate UINT_MAX 0)) ∧
    (ptr.run World.empty (lineageProg 1 (List.replicate UINT_MAX 0))).obj 0 =
      some { _ptr := 1, _counter := 1 } ∧
    ptr.valid { _ptr := 1, _counter := 1 } = true ∧
    (ptr.run World.empty (lineageProg 1 (List.replicate UINT_MAX 0))).counterAt 1 =
      some { _count := 0 } ∧
    ptr.copies (ptr.run World.empty (lineageProg 1 (List.replicate UINT_MAX 0)))
      { _ptr := 1, _counter := 1 } = 0 ∧
    (ptr.run World.empty (lineageProg 1 (List.replicate UINT_MAX 0))).sharers 1 = UINT_MOD ∧
    ¬ ptr.CountInv (ptr.run World.empty (lineageProg 1 (List.replicate UINT_MAX 0))) := by
  have hrun : ptr.run World.empty (lineageProg 1 (List.replicate UINT_MAX 0)) =
      World.lineage 1 UINT_MOD := by
    rw [ptr_run_eq, owning.run_lineageProg 1 (by decide) _ (owning.replicate_srcs _ 1 (by decide)),
      List.length_replicate]
    rfl
  have hcnt : (World.lineage 1 UINT_MOD).counterAt 1 = some { _count := 0 } := by
    simp [World.counterAt, World.lineage]
  have hobj := owning.lineage_obj 1 UINT_MOD 0 (by decide)
  rw [hrun]
  refine ⟨(ptr_unaliased_iff _ _).mpr (owning.unaliased_lineageProg _ _), hobj, by decide, hcnt,
    by simp [ptr.copies, hcnt], owning.lineage_sharers _ _, ?_⟩
  intro h
  obtain ⟨k, hk, h1, _⟩ := h 0 _ hobj (by decide)
  rw [hcnt] at hk
  cases hk
  exact absurd h1 (by decide)

/-- C1, amended: count invariant. In every state reachable from the empty
state by the public operations of `ptr` (default construction,
construction/assignment from null or from a non-null raw address that no live
pointer holds, copy construction, copy assignment, destruction), as long as
no counter is ever shared by more than `UINT_MAX = 2 ^ 32 - 1` live
instances, every Valid pointer's counter exists and holds a count `>= 1` that
equals the number of live pointer instances whose `_counter` is that
counter, and `copies()` returns exactly that number. (The proof does not use
the hypothesis on raw addresses.) -/
theorem C1_count_invariant (ops : List Op) (_ha : ptr.Unaliased World.empty ops)
    (hb : ptr.Within UINT_MAX World.empty ops) :
    ∀ i o, (ptr.run World.empty ops).obj i = some o → ptr.valid o = true →
      ∃ k, (ptr.run World.empty ops).counterAt o._counter = some k ∧ 1 ≤ k._count ∧
        k._count = (ptr.run World.empty ops).sharers o._counter ∧
        ptr.copies (ptr.run World.empty ops) o = (ptr.run World.empty ops).sharers o._counter := by
  rw [ptr_within_iff] at hb
  rw [ptr_run_eq]
  have hs := owning.sound_run World.delete_dealloc World.empty_sound ops
    (hb.mono_bound (by decide))
  exact owning.countInv_of_sound hs (hb.run_bounded (owning.empty_bounded _))

/-- C1, amended, on the program `p = new X; a(p); b(a); c; c = a; ~b`: the
two remaining Valid instances `a` and `c` report the count 2. -/
theorem C1_count_invariant_witness :
    ptr.Unaliased World.empty
      [Op.alloc 10 1, Op.ctorRaw 10, Op.ctorCopy 0, Op.ctor, Op.assign 2 0, Op.dtor 1] ∧
    ptr.Within UINT_MAX World.empty
      [Op.alloc 10 1, Op.ctorRaw 10, Op.ctorCopy 0, Op.ctor, Op.assign 2 0, Op.dtor 1] ∧
    ∀ i o, (ptr.run World.empty
        [Op.alloc 10 1, Op.ctorRaw 10, Op.ctorCopy 0, Op.ctor, Op.assign 2 0, Op.dtor 1]).obj i =
          some o → ptr.valid o = true →
      ∃ k, (ptr.run World.empty
          [Op.alloc 10 1, Op.ctorRaw 10, Op.ctorCopy 0, Op.ctor, Op.assign 2 0,
            Op.dtor 1]).counterAt o._counter = some k ∧ 1 ≤ k._count ∧
        k._count = (ptr.run World.empty
          [Op.alloc 10 1, Op.ctorRaw 10, Op.ctorCopy 0, Op.ctor, Op.assign 2 0,
            Op.dtor 1]).sharers o._counter ∧
        ptr.copies (ptr.run World.empty
          [Op.alloc 10 1, Op.ctorRaw 10, Op.ctorCopy 0, Op.ctor, Op.assign 2 0, Op.dtor 1]) o =
          (ptr.run World.empty
          [Op.alloc 10 1, Op.ctorRaw 10, Op.ctorCopy 0, Op.ctor, Op.assign 2 0,
            Op.dtor 1]).sharers o._counter :=
  ⟨by decide, by decide, C1_count_invariant _ (by decide) (by decide)⟩

/-- C3: two-state invariant. After every program of public operations of
`ptr`, and after every program of public operations of `array_ptr` (the four
constructors, copy assignment, raw-address assignment, destruction, in any
number and order, from the empty state), every live pointer instance has
`_ptr` null if and only if `_counter` null, so it is either Invalid (both
null) or Valid (both non-null); and a default-constructed pointer of either
class has both null and is not Valid. -/
theorem C3_two_state (ops : List Op) (w : World) :
    (∀ i o, (ptr.run World.empty ops).obj i = some o →
      (o._ptr = 0 ↔ o._counter = 0) ∧
      ((o._ptr = 0 ∧ o._counter = 0 ∧ ptr.valid o = false) ∨
        (o._ptr ≠ 0 ∧ o._counter ≠ 0 ∧ ptr.valid o = true))) ∧
    (∀ i o, (array_ptr.run World.empty ops).obj i = some o →
      (o._ptr = 0 ↔ o._counter = 0) ∧
      ((o._ptr = 0 ∧ o._counter = 0 ∧ array_ptr.valid o = false) ∨
        (o._ptr ≠ 0 ∧ o._counter ≠ 0 ∧ array_ptr.valid o = true))) ∧
    (ptr.ctor w).obj w.objs.length = some { _ptr := 0, _counter := 0 } ∧
    (array_ptr.ctor w).obj w.objs.length = some { _ptr := 0, _counter := 0 } ∧
    ptr.valid { _ptr := 0, _counter := 0 } = false ∧
    array_ptr.valid { _ptr := 0, _counter := 0 } = false := by
  have key : ∀ o : Obj, (o._ptr = 0 ↔ o._counter = 0) →
      (o._ptr = 0 ↔ o._counter = 0) ∧
      ((o._ptr = 0 ∧ o._counter = 0 ∧ ptr.valid o = false) ∨
        (o._ptr ≠ 0 ∧ o._counter ≠ 0 ∧ ptr.valid o = true)) := by
    intro o h
    refine ⟨h, ?_⟩
    by_cases hp : o._ptr = 0
    · exact Or.inl ⟨hp, h.mp hp, by simp [ptr.valid, hp]⟩
    · have hc : o._counter ≠ 0 := fun hc => hp (h.mpr hc)
      exact Or.inr ⟨hp, hc, by simp [ptr.valid, hp, hc]⟩
  refine ⟨?_, ?_, ?_, ?_, by decide, by decide⟩
  · intro i o hi
    rw [ptr_run_eq] at hi
    exact key o ((owning.twoState_run World.delete_dealloc owning.twoState_empty
      (by decide) ops).1 i o hi)
  · intro i o hi
    rw [array_ptr_run_eq] at hi
    exact key o ((owning.twoState_run World.deleteArray_dealloc owning.twoState_empty
      (by decide) ops).1 i o hi)
  · show (w.addObj _).obj _ = _
    rw [World.obj_addObj]; simp
  · show (w.addObj _).obj _ = _
    rw [World.obj_addObj]; simp

/-- C4, as stated, fails. In the reachable state `World.full` the instance
`a = 0` is Valid, `UINT_MAX = 2 ^ 32 - 1` instances share its counter, which
holds `UINT_MAX`, and the instance `t = UINT_MAX` is a different instance,
Invalid and so not of that lineage. After the copy assignment `t = a` the
counter holds `0`, not one more than before, while `2 ^ 32` instances share
it. -/
theorem C4_copy_count_wraps :
    World.full.obj 0 = some { _ptr := 1, _counter := 1 } ∧
    ptr.valid { _ptr := 1, _counter := 1 } = true ∧
    World.full.obj UINT_MAX = some { _ptr := 0, _counter := 0 } ∧
    UINT_MAX ≠ 0 ∧
    World.full.counterAt 1 = some { _count := UINT_MAX } ∧
    World.full.sharers 1 = UINT_MAX ∧
    (ptr.assign World.full UINT_MAX 0).obj UINT_MAX = some { _ptr := 1, _counter := 1 } ∧
    (ptr.assign World.full UINT_MAX 0).sharers 1 = UINT_MAX + 1 ∧
    (ptr.assign World.full UINT_MAX 0).counterAt 1 = some { _count := 0 } ∧
    (ptr.assign World.full UINT_MAX 0).counterAt 1 ≠ some { _count := UINT_MAX + 1 } := by
  have hlen : (World.lineage 1 UINT_MAX).objs.length = UINT_MAX := by simp [World.lineage]
  have hc : (World.lineage 1 UINT_MOD).counterAt 1 = some { _count := 0 } := by
    simp [World.counterAt, World.lineage]
  rw [full_eq.2, full_eq.1]
  refine ⟨?_, by decide, ?_, by decide, ?_, ?_, owning.lineage_obj 1 UINT_MOD UINT_MAX (by decide),
    owning.lineage_sharers 1 UINT_MOD, hc, ?_⟩
  · rw [World.obj_addObj, hlen]
    have : ¬ (0 = UINT_MAX) := by decide
    simp only [this, if_false]
    exact owning.lineage_obj 1 UINT_MAX 0 (by decide)
  · rw [World.obj_addObj, hlen]
    simp
  · rw [counterAt_addObj]
    exact lineage_counterAt 1 UINT_MAX (by decide)
  · rw [World.sharers_addObj, owning.lineage_sharers]
    simp
  · rw [hc]
    decide

/-- C4, amended: copy from another pointer. For every pointer `t` and every
Valid pointer `s` that is a different instance and not in `t`'s lineage,
whose counter holds `n` below `UINT_MAX = 2 ^ 32 - 1`: after copy assignment
`t = s`, `t` holds `s`'s address and `s`'s counter, that counter's count is
`n + 1`, `s`'s own address and counter fields are unchanged, and `t`'s previous
lineage, if `t` was Valid with count `m >= 1`, has count `m - 1` and nothing
released when `m > 1`, and is released (address deallocated once, object no
longer alive, counter deleted) when `m = 1`; an Invalid `t` releases nothing.
After copy construction of a new instance from `s`, the new instance holds
`s`'s address and counter, the count is `n + 1`, `s` is unchanged and nothing
is released. -/
theorem C4_copy_from_other (w : World) (t s : Nat) (ot os : Obj) (n : Nat)
    (hts : t ≠ s) (ht : w.obj t = some ot) (hs : w.obj s = some os)
    (hv : ptr.valid os = true) (hn : w.counterAt os._counter = some { _count := n })
    (hmax : n < UINT_MAX) (hlin : ot._counter ≠ os._counter) :
    (ptr.assign w t s).obj t = some { _ptr := os._ptr, _counter := os._counter } ∧
    (ptr.assign w t s).counterAt os._counter = some { _count := n + 1 } ∧
    (ptr.assign w t s).obj s = some os ∧
    (ptr.valid ot = false →
      (ptr.assign w t s).freed = w.freed ∧ (ptr.assign w t s).alive = w.alive) ∧
    (∀ m, ptr.valid ot = true → w.counterAt ot._counter = some { _count := m } →
      1 < m → m ≤ UINT_MAX →
      (ptr.assign w t s).counterAt ot._counter = some { _count := m - 1 } ∧
      (ptr.assign w t s).freed = w.freed ∧ (ptr.assign w t s).alive = w.alive) ∧
    (ptr.valid ot = true → w.counterAt ot._counter = some { _count := 1 } →
      (ptr.assign w t s).counterAt ot._counter = none ∧
      (ptr.assign w t s).freed = w.freed ++ [ot._ptr] ∧
      (ptr.assign w t s).alive = w.alive.erase ot._ptr) ∧
    (ptr.ctorCopy w s).obj w.objs.length = some { _ptr := os._ptr, _counter := os._counter } ∧
    (ptr.ctorCopy w s).counterAt os._counter = some { _count := n + 1 } ∧
    (ptr.ctorCopy w s).obj s = some os ∧
    (ptr.ctorCopy w s).freed = w.freed ∧ (ptr.ctorCopy w s).alive = w.alive := by
  have hd := World.delete_dealloc
  have h := owning.assign_other_spec hd hts ht hs hv hn hmax hlin
  have hheap := @owning.assign_heap World.delete _ _ _ hts _ hs
  simp only [ptr_assign_eq]
  refine ⟨h.1, h.2.1, h.2.2.1, ?_, ?_, ?_, ?_⟩
  · intro hiv
    rw [h.2.2.2.1, hheap.1, owning.drop_invalid ht hiv]
    exact ⟨rfl, rfl⟩
  · intro m hvt hm h1 h2
    have hdc := owning.drop_count hd ht hvt hm (by omega) h2
    have hdh := ptr_drop_heap ht hvt hm (by omega) h2
    have hm1 : ¬ m = 1 := by omega
    simp only [hm1, if_false] at hdc hdh
    rw [h.2.2.2.2.1 _ hlin, h.2.2.2.1, hheap.1, ← ptr_drop_eq, hdh.1, ptr_drop_eq, hdc.2.2.1]
    refine ⟨?_, rfl, rfl⟩
    rw [World.counterAt_of_set hdc.2.1 (World.counterAt_lt hm)]
    simp
  · intro hvt hm
    have hdc := owning.drop_count hd ht hvt hm (by decide) (by decide)
    have hdh := ptr_drop_heap ht hvt hm (by decide) (by decide)
    simp only [if_true] at hdc hdh
    rw [h.2.2.2.2.1 _ hlin, h.2.2.2.1, hheap.1, ← ptr_drop_eq, hdh.1, ptr_drop_eq, hdc.2.2.1]
    refine ⟨?_, rfl, rfl⟩
    rw [World.counterAt_of_set hdc.2.1 (World.counterAt_lt hm)]
    simp
  · have hlt := World.obj_lt hs
    have hne : w.objs.length ≠ s := by omega
    have ht0 : (w.addObj { _ptr := 0, _counter := 0 }).obj w.objs.length =
        some { _ptr := 0, _counter := 0 } := by
      rw [World.obj_addObj]; simp
    have hs0 : (w.addObj { _ptr := 0, _counter := 0 }).obj s = some os := by
      rw [World.obj_addObj]
      have : ¬ s = w.objs.length := by omega
      simp [this, hs]
    have hc0 : ({ _ptr := 0, _counter := 0 } : Obj)._counter ≠ os._counter := by
      have := (owning.valid_iff.mp hv).2
      exact fun h => this h.symm
    have h2 := owning.assign_other_spec hd (w := w.addObj { _ptr := 0, _counter := 0 }) hne ht0
      hs0 hv hn hmax hc0
    have hheap2 := @owning.assign_heap World.delete
      (w.addObj { _ptr := 0, _counter := 0 }) _ _ hne _ hs0
    have hdi := @owning.drop_invalid World.delete _ _ _ ht0 (by decide)
    simp only [ptr_ctorCopy_eq, owning.ctorCopy]
    refine ⟨h2.1, h2.2.1, h2.2.2.1, ?_, ?_⟩
    · rw [h2.2.2.2.1, hdi]; rfl
    · rw [hheap2.1, hdi]; rfl

/-- C4, amended, in the state after `a(new X); b(new X);` for `a = b`: `a`
was the sole owner of the object at `10`, which is released. -/
theorem C4_copy_from_other_witness :
    (ptr.assign (ptr.run World.empty [Op.alloc 10 1, Op.ctorRaw 10, Op.alloc 20 1, Op.ctorRaw 20])
      0 1).obj 0 = some { _ptr := 20, _counter := 2 } ∧
    (ptr.assign (ptr.run World.empty [Op.alloc 10 1, Op.ctorRaw 10, Op.alloc 20 1, Op.ctorRaw 20])
      0 1).counterAt 2 = some { _count := 1 + 1 } ∧
    (ptr.assign (ptr.run World.empty [Op.alloc 10 1, Op.ctorRaw 10, Op.alloc 20 1, Op.ctorRaw 20])
      0 1).obj 1 = some { _ptr := 20, _counter := 2 } :=
  have h := C4_copy_from_other
    (ptr.run World.empty [Op.alloc 10 1, Op.ctorRaw 10, Op.alloc 20 1, Op.ctorRaw 20]) 0 1
    { _ptr := 10, _counter := 1 } { _ptr := 20, _counter := 2 } 1
    (by decide) (by decide) (by decide) (by decide) (by decide) (by decide) (by decide)
  ⟨h.1, h.2.1, h.2.2.1⟩

/-- C5: adoption of a raw address. In every sound state, for every live
pointer `t` and every raw address `p`, after `t = p`: what `t` owned before
has been released exactly as by `drop` (same deallocations, same alive
objects, same counters apart from the new one, every other instance
untouched). If `p` is null the assignment is `drop` and `t` is Invalid. If `p`
is non-null, `t` is Valid with address `p` and a counter that did not exist
before nor after the `drop`, that no other instance has, and whose count is
`1` — there is no hypothesis on who holds `p`, so also when another live
pointer owns `p`. The same holds for the construction of a new instance from
`p`, which releases nothing. -/
theorem C5_adopt_raw (w : World) (hs : w.Sound) (t : Nat) (ot : Obj)
    (ht : w.obj t = some ot) (p : Nat) :
    (ptr.assignRaw w t p).freed = (ptr.drop w t).freed ∧
    (ptr.assignRaw w t p).alive = (ptr.drop w t).alive ∧
    (∀ c, c ≠ w.counters.length →
      (ptr.assignRaw w t p).counterAt c = (ptr.drop w t).counterAt c) ∧
    (∀ j, j ≠ t → (ptr.assignRaw w t p).obj j = w.obj j) ∧
    (p = 0 → ptr.assignRaw w t p = ptr.drop w t ∧
      (ptr.assignRaw w t p).obj t = some { _ptr := 0, _counter := 0 } ∧
      ptr.valid { _ptr := 0, _counter := 0 } = false) ∧
    (p ≠ 0 →
      (ptr.assignRaw w t p).obj t = some { _ptr := p, _counter := w.counters.length } ∧
      ptr.valid { _ptr := p, _counter := w.counters.length } = true ∧
      w.counterAt w.counters.length = none ∧
      (ptr.drop w t).counterAt w.counters.length = none ∧
      (ptr.assignRaw w t p).counterAt w.counters.length = some { _count := 1 } ∧
      (ptr.assignRaw w t p).sharers w.counters.length = 1 ∧
      ptr.copies (ptr.assignRaw w t p) { _ptr := p, _counter := w.counters.length } = 1 ∧
      (∀ j oj, j ≠ t → (ptr.assignRaw w t p).obj j = some oj →
        oj._counter ≠ w.counters.length)) ∧
    (ptr.ctorRaw w p).freed = w.freed ∧
    (∀ j, j ≠ w.objs.length → (ptr.ctorRaw w p).obj j = w.obj j) ∧
    (p = 0 → (ptr.ctorRaw w p).obj w.objs.length = some { _ptr := 0, _counter := 0 }) ∧
    (p ≠ 0 →
      (ptr.ctorRaw w p).obj w.objs.length = some { _ptr := p, _counter := w.counters.length } ∧
      w.counterAt w.counters.length = none ∧
      (ptr.ctorRaw w p).counterAt w.counters.length = some { _count := 1 } ∧
      (ptr.ctorRaw w p).sharers w.counters.length = 1) := by
  have hd := World.delete_dealloc
  have ho1 : (owning.drop World.delete w t).obj t = some { _ptr := 0, _counter := 0 } := by
    rw [owning.drop_obj hd hs ht]; simp
  have hs0 := hs.addObj
  have ht0 : (w.addObj { _ptr := 0, _counter := 0 }).obj w.objs.length =
      some { _ptr := 0, _counter := 0 } := by
    rw [World.obj_addObj]; simp
  have hdi := @owning.drop_invalid World.delete _ _ _ ht0 (by decide)
  rw [ptr_assignRaw_eq, ptr_ctorRaw_eq, ptr_drop_eq]
  refine ⟨owning.grab_freed _ _ _ _, (owning.grab_heap _ _ _ _).1, ?_, ?_, ?_, ?_, ?_, ?_, ?_, ?_⟩
  · intro c hc
    by_cases hp : p = 0
    · subst hp; rw [owning.grab_null]
    · exact (owning.grab_raw_spec hd hs ht hp).2.2.2.2.2.2.2.2.1 c hc
  · intro j hj
    by_cases hp : p = 0
    · subst hp; rw [owning.grab_null]; exact owning.drop_obj_other hd w t hj
    · exact (owning.grab_raw_spec hd hs ht hp).2.2.2.2.2.2.2.1 j hj
  · intro hp
    subst hp
    rw [owning.grab_null]
    exact ⟨rfl, ho1, by decide⟩
  · intro hp
    have h := owning.grab_raw_spec hd hs ht hp
    have hv : ptr.valid { _ptr := p, _counter := w.counters.length } = true :=
      owning.valid_iff.mpr ⟨hp, h.2.1⟩
    refine ⟨h.1, hv, h.2.2.1, h.2.2.2.1, h.2.2.2.2.1, h.2.2.2.2.2.1, ?_, h.2.2.2.2.2.2.1⟩
    simp only [ptr.copies, hv, if_true, h.2.2.2.2.1]
  · rw [owning.grab_freed, hdi]; rfl
  · intro j hj
    by_cases hp : p = 0
    · subst hp
      rw [owning.grab_null, hdi, World.obj_addObj]
      simp [hj]
    · rw [(owning.grab_raw_spec hd hs0 ht0 hp).2.2.2.2.2.2.2.1 j hj, World.obj_addObj]
      simp [hj]
  · intro hp
    subst hp
    rw [owning.grab_null, hdi]
    exact ht0
  · intro hp
    have h := owning.grab_raw_spec hd hs0 ht0 hp
    exact ⟨h.1, h.2.2.1, h.2.2.2.2.1, h.2.2.2.2.2.1⟩

/-- C5 in the state after `a(new X); ptr<X> b;` for `b = p` with the
address `p` that `a` owns: `b` gets its own new counter with count `1`. -/
theorem C5_adopt_raw_witness :
    (ptr.run World.empty [Op.alloc 10 1, Op.ctorRaw 10, Op.ctor]).obj 0 =
      some { _ptr := 10, _counter := 1 } ∧
    (ptr.assignRaw (ptr.run World.empty [Op.alloc 10 1, Op.ctorRaw 10, Op.ctor]) 1 10).obj 1 =
      some { _ptr := 10, _counter := 2 } ∧
    (ptr.assignRaw (ptr.run World.empty [Op.alloc 10 1, Op.ctorRaw 10, Op.ctor]) 1
      10).counterAt 2 = some { _count := 1 } :=
  have hs : (ptr.run World.empty [Op.alloc 10 1, Op.ctorRaw 10, Op.ctor]).Sound := by
    rw [ptr_run_eq]
    exact owning.sound_run World.delete_dealloc World.empty_sound _
      ((ptr_within_iff _ _ _).mp (by decide))
  have h := (C5_adopt_raw (ptr.run World.empty [Op.alloc 10 1, Op.ctorRaw 10, Op.ctor]) hs 1
    { _ptr := 0, _counter := 0 } (by decide) 10).2.2.2.2.2.1 (by decide)
  ⟨by decide, h.1, h.2.2.2.2.1⟩

/-- C6: destruction. `drop` on a Valid pointer whose counter holds `n`: if
`n > 1` the count becomes `n - 1` and nothing is released (no deallocation,
the same objects alive, the same blocks); if `n = 1` the address is
deallocated once (logged once more than before), the object at it is no
longer counted alive, and the counter is deleted; in both cases the pointer
is Invalid afterwards. On an Invalid pointer `drop` changes nothing, so
dropping twice equals dropping once. The destructor is `drop`, assignment of
null is `drop`, and every assignment (`grab`) deallocates what `drop` does. -/
theorem C6_drop (w : World) (t : Nat) :
    (∀ o n, w.obj t = some o → ptr.valid o = true →
      w.counterAt o._counter = some { _count := n } → 1 < n → n ≤ UINT_MAX →
      (ptr.drop w t).counterAt o._counter = some { _count := n - 1 } ∧
      (ptr.drop w t).freed = w.freed ∧ (ptr.drop w t).alive = w.alive ∧
      (ptr.drop w t).blocks = w.blocks ∧
      (ptr.drop w t).obj t = some { _ptr := 0, _counter := 0 }) ∧
    (∀ o, w.obj t = some o → ptr.valid o = true →
      w.counterAt o._counter = some { _count := 1 } →
      (ptr.drop w t).counterAt o._counter = none ∧
      (ptr.drop w t).freed = w.freed ++ [o._ptr] ∧
      (ptr.drop w t).freed.count o._ptr = w.freed.count o._ptr + 1 ∧
      (ptr.drop w t).alive = w.alive.erase o._ptr ∧
      (ptr.drop w t).obj t = some { _ptr := 0, _counter := 0 }) ∧
    ptr.valid { _ptr := 0, _counter := 0 } = false ∧
    (∀ o, w.obj t = some o → ptr.valid o = false → ptr.drop w t = w) ∧
    ptr.drop (ptr.drop w t) t = ptr.drop w t ∧
    ptr.dtor w t = (ptr.drop w t).endLife t ∧
    ptr.assignRaw w t 0 = ptr.drop w t ∧
    (∀ p c, (ptr.grab w t p c).freed = (ptr.drop w t).freed) := by
  have hd := World.delete_dealloc
  refine ⟨?_, ?_, by decide, ?_, ?_, rfl, ?_, ?_⟩
  · intro o n ho hv hk h1 h2
    have hdc := owning.drop_count hd ho hv hk (by omega) h2
    have hdh := ptr_drop_heap ho hv hk (by omega) h2
    have hn1 : ¬ n = 1 := by omega
    simp only [hn1, if_false] at hdc hdh
    rw [ptr_drop_eq] at hdh ⊢
    refine ⟨?_, hdc.2.2.1, hdh.1, hdh.2, ?_⟩
    · rw [World.counterAt_of_set hdc.2.1 (World.counterAt_lt hk)]; simp
    · rw [World.obj_of_set hdc.1 (World.obj_lt ho)]; simp
  · intro o ho hv hk
    have hdc := owning.drop_count hd ho hv hk (by decide) (by decide)
    have hdh := ptr_drop_heap ho hv hk (by decide) (by decide)
    simp only [if_true] at hdc hdh
    rw [ptr_drop_eq] at hdh ⊢
    refine ⟨?_, hdc.2.2.1, ?_, hdh.1, ?_⟩
    · rw [World.counterAt_of_set hdc.2.1 (World.counterAt_lt hk)]; simp
    · rw [hdc.2.2.1, List.count_append]; simp
    · rw [World.obj_of_set hdc.1 (World.obj_lt ho)]; simp
  · intro o ho hv
    rw [ptr_drop_eq]
    exact owning.drop_invalid ho hv
  · simp only [ptr_drop_eq]
    exact owning.drop_drop hd w t
  · rw [ptr_assignRaw_eq, ptr_drop_eq, owning.grab_null]
  · intro p c
    rw [ptr_grab_eq, ptr_drop_eq]
    exact owning.grab_freed _ _ _ _

/-- C6 in the state after `a(new X); b(a);`: dropping `a` leaves the count
`1` and the object alive, dropping `b` next releases it. -/
theorem C6_drop_witness :
    (ptr.drop (ptr.run World.empty [Op.alloc 10 1, Op.ctorRaw 10, Op.ctorCopy 0]) 0).counterAt 1 =
      some { _count := 2 - 1 } ∧
    (ptr.drop (ptr.run World.empty [Op.alloc 10 1, Op.ctorRaw 10, Op.ctorCopy 0]) 0).alive =
      [10] ∧
    (ptr.drop (ptr.drop (ptr.run World.empty [Op.alloc 10 1, Op.ctorRaw 10, Op.ctorCopy 0]) 0)
      1).freed = [] ++ [10] :=
  have h1 := (C6_drop (ptr.run World.empty [Op.alloc 10 1, Op.ctorRaw 10, Op.ctorCopy 0]) 0).1
    { _ptr := 10, _counter := 1 } 2 (by decide) (by decide) (by decide) (by decide) (by decide)
  have h2 := (C6_drop (ptr.drop (ptr.run World.empty
    [Op.alloc 10 1, Op.ctorRaw 10, Op.ctorCopy 0]) 0) 1).2.1
    { _ptr := 10, _counter := 1 } (by decide) (by decide) (by decide)
  ⟨h1.1, h1.2.2.1, h2.2.1⟩

/-- C7: self-assignment is a no-op. For every state and every pointer `p`
(Valid with any count, Invalid, of either class), the copy assignment of `p`
to itself leaves the whole state unchanged: the address and the counter of
`p`, every count, and the alive objects. The test is on identity, not on the
address: in the state after `a(x); b(x);` for one raw address `x`, the
instances `a` and `b` hold the same address, and `a = b` is not a no-op (it
drops `a`, which deallocates `x`). -/
theorem C7_self_assignment (w : World) (p : Nat) :
    ptr.assign w p p = w ∧ array_ptr.assign w p p = w ∧
    ptr.step w (Op.assign p p) = w ∧ array_ptr.step w (Op.assign p p) = w ∧
    ((ptr.run World.empty [Op.alloc 10 1, Op.ctorRaw 10, Op.ctorRaw 10]).obj 0 =
        some { _ptr := 10, _counter := 1 } ∧
      (ptr.run World.empty [Op.alloc 10 1, Op.ctorRaw 10, Op.ctorRaw 10]).obj 1 =
        some { _ptr := 10, _counter := 2 } ∧
      (ptr.assign (ptr.run World.empty [Op.alloc 10 1, Op.ctorRaw 10, Op.ctorRaw 10]) 0 1).freed =
        [10]) := by
  refine ⟨by simp [ptr.assign], by simp [array_ptr.assign], ?_, ?_, by decide⟩
  · simp only [ptr.step, ptr.assign]
    split <;> simp
  · simp only [array_ptr.step, array_ptr.assign]
    split <;> simp

/-- C9: release of a sole owner by null assignment. Let `t` be a Valid
pointer whose counter holds `1`. For `ptr`, when the object at its address is
alive: assigning null decreases the number of alive elements by exactly one,
removes that object from the alive ones, deallocates the address and leaves
`t` Invalid. For `array_ptr`, when its address is a run of `N` elements that
are all alive: assigning null decreases the number of alive elements by
exactly `N`, every element of the run is destroyed exactly once (it is alive
once less than before), no other element is touched, the address is
deallocated and `t` is left Invalid. -/
theorem C9_release_sole_owner (w : World) (t : Nat) (o : Obj) (ho : w.obj t = some o)
    (hv : ptr.valid o = true) (hk : w.counterAt o._counter = some { _count := 1 }) :
    (o._ptr ∈ w.alive →
      (ptr.assignRaw w t 0).s_instances + 1 = w.s_instances ∧
      (ptr.assignRaw w t 0).alive = w.alive.erase o._ptr ∧
      (ptr.assignRaw w t 0).alive.count o._ptr + 1 = w.alive.count o._ptr ∧
      (ptr.assignRaw w t 0).freed = w.freed ++ [o._ptr] ∧
      (ptr.assignRaw w t 0).obj t = some { _ptr := 0, _counter := 0 } ∧
      ptr.valid { _ptr := 0, _counter := 0 } = false) ∧
    (∀ N, w.blocks.lookup o._ptr = some N → (∀ e ∈ World.elems o._ptr N, e ∈ w.alive) →
      (array_ptr.assignRaw w t 0).s_instances + N = w.s_instances ∧
      (∀ e, e ∈ World.elems o._ptr N →
        (array_ptr.assignRaw w t 0).alive.count e + 1 = w.alive.count e) ∧
      (∀ e, e ∉ World.elems o._ptr N →
        (array_ptr.assignRaw w t 0).alive.count e = w.alive.count e) ∧
      (array_ptr.assignRaw w t 0).freed = w.freed ++ [o._ptr] ∧
      (array_ptr.assignRaw w t 0).obj t = some { _ptr := 0, _counter := 0 } ∧
      array_ptr.valid { _ptr := 0, _counter := 0 } = false) := by
  constructor
  · intro hal
    have hd := World.delete_dealloc
    have hdc := owning.drop_count hd ho hv hk (by decide) (by decide)
    have hdh := ptr_drop_heap ho hv hk (by decide) (by decide)
    simp only [if_true] at hdc hdh
    rw [ptr_assignRaw_eq, owning.grab_null, ← ptr_drop_eq]
    have hobj : (ptr.drop w t).obj t = some { _ptr := 0, _counter := 0 } := by
      rw [ptr_drop_eq, World.obj_of_set hdc.1 (World.obj_lt ho)]; simp
    refine ⟨?_, hdh.1, ?_, hdc.2.2.1, hobj, by decide⟩
    · simp only [World.s_instances, hdh.1, List.length_erase_of_mem hal]
      have := List.length_pos_of_mem hal
      omega
    · rw [hdh.1, List.count_erase]
      have := List.count_pos_iff.mpr hal
      simp
      omega
  · intro N hN hal
    have hd := World.deleteArray_dealloc
    have hdc := owning.drop_count hd ho hv hk (by decide) (by decide)
    have hdh := array_ptr_drop_heap ho hv hk (by decide) (by decide)
    simp only [if_true, hN, Option.getD_some] at hdc hdh
    rw [array_ptr_assignRaw_eq, owning.grab_null, ← array_ptr_drop_eq]
    have hobj : (array_ptr.drop w t).obj t = some { _ptr := 0, _counter := 0 } := by
      rw [array_ptr_drop_eq, World.obj_of_set hdc.1 (World.obj_lt ho)]; simp
    have hnd : (World.elems o._ptr N).reverse.Nodup :=
      List.nodup_reverse.mpr (World.elems_nodup _ _)
    refine ⟨?_, ?_, ?_, hdc.2.2.1, hobj, by decide⟩
    · have := List.length_foldl_erase (World.elems o._ptr N).reverse w.alive hnd
        (fun e he => hal e (List.mem_reverse.mp he))
      simp only [World.s_instances, hdh.1]
      rw [List.length_reverse, World.elems_length] at this
      exact this
    · intro e he
      rw [hdh.1, List.count_foldl_erase, List.count_reverse,
        List.count_eq_one_of_mem (World.elems_nodup _ _) he]
      have := List.count_pos_iff.mpr (hal e he)
      omega
    · intro e he
      rw [hdh.1, List.count_foldl_erase, List.count_reverse, List.count_eq_zero_of_not_mem he]
      simp

/-- C9 on the tests `AssignZeroForDeletion` and `ArrayAssignZeroForDeletion`:
`s_instances` goes from 1 to 0, and from 20 to 0. -/
theorem C9_release_sole_owner_witness :
    (ptr.assignRaw (ptr.run World.empty [Op.alloc 10 1, Op.ctorRaw 10]) 0 0).s_instances + 1 =
      (ptr.run World.empty [Op.alloc 10 1, Op.ctorRaw 10]).s_instances ∧
    (array_ptr.assignRaw (array_ptr.run World.empty [Op.alloc 10 20, Op.ctorRaw 10]) 0
      0).s_instances + 20 = (array_ptr.run World.empty [Op.alloc 10 20, Op.ctorRaw 10]).s_instances :=
  ⟨((C9_release_sole_owner (ptr.run World.empty [Op.alloc 10 1, Op.ctorRaw 10]) 0
      { _ptr := 10, _counter := 1 } (by decide) (by decide) (by decide)).1 (by decide)).1,
    ((C9_release_sole_owner (array_ptr.run World.empty [Op.alloc 10 20, Op.ctorRaw 10]) 0
      { _ptr := 10, _counter := 1 } (by decide) (by decide) (by decide)).2 20 (by decide)
      (by decide)).1⟩

/-- C8: destructive replace. In a sound state let `t` be the sole owner
(Valid, count `1`) of the resource `r`, and let `q` be a non-null address
different from `r` whose object is alive (freshly allocated). In `t = q` the
`drop` comes first: after it `r` is deallocated, its counter is deleted and
the counter of the new lineage does not exist yet. After `t = q`, `r` has
been deallocated once, `t` is Valid with address `q` and a new counter whose
count is `1`, the alive objects are the previous ones without `r`, and `q` is
among them. For `array_ptr` the same holds with every element of the run at
`r` destroyed. -/
theorem C8_destructive_replace (w : World) (hs : w.Sound) (t : Nat) (o : Obj)
    (ho : w.obj t = some o) (hv : ptr.valid o = true)
    (hk : w.counterAt o._counter = some { _count := 1 }) (q : Nat) (hq : q ≠ 0)
    (hqr : q ≠ o._ptr) (hqa : q ∈ w.alive) :
    ((ptr.drop w t).freed = w.freed ++ [o._ptr] ∧
      (ptr.drop w t).counterAt o._counter = none ∧
      (ptr.drop w t).counterAt w.counters.length = none ∧
      (ptr.assignRaw w t q).freed = w.freed ++ [o._ptr] ∧
      (ptr.assignRaw w t q).alive = w.alive.erase o._ptr ∧
      q ∈ (ptr.assignRaw w t q).alive ∧
      (ptr.assignRaw w t q).obj t = some { _ptr := q, _counter := w.counters.length } ∧
      ptr.valid { _ptr := q, _counter := w.counters.length } = true ∧
      (ptr.assignRaw w t q).counterAt w.counters.length = some { _count := 1 } ∧
      ptr.copies (ptr.assignRaw w t q) { _ptr := q, _counter := w.counters.length } = 1 ∧
      (ptr.assignRaw w t q).counterAt o._counter = none) ∧
    (∀ N, w.blocks.lookup o._ptr = some N → q ∉ World.elems o._ptr N →
      (array_ptr.assignRaw w t q).freed = w.freed ++ [o._ptr] ∧
      (array_ptr.assignRaw w t q).alive =
        (World.elems o._ptr N).reverse.foldl List.erase w.alive ∧
      q ∈ (array_ptr.assignRaw w t q).alive ∧
      (array_ptr.assignRaw w t q).obj t = some { _ptr := q, _counter := w.counters.length } ∧
      (array_ptr.assignRaw w t q).counterAt w.counters.length = some { _count := 1 } ∧
      (array_ptr.assignRaw w t q).counterAt o._counter = none) := by
  have hclt := World.counterAt_lt hk
  have hne : o._counter ≠ w.counters.length := by omega
  constructor
  · have hd := World.delete_dealloc
    have hdc := owning.drop_count hd ho hv hk (by decide) (by decide)
    have hdh := ptr_drop_heap ho hv hk (by decide) (by decide)
    have hg := owning.grab_raw_spec hd hs ho hq
    simp only [if_true] at hdc hdh
    have hcn : (owning.drop World.delete w t).counterAt o._counter = none := by
      rw [World.counterAt_of_set hdc.2.1 hclt]; simp
    have hvq : ptr.valid { _ptr := q, _counter := w.counters.length } = true :=
      owning.valid_iff.mpr ⟨hq, hg.2.1⟩
    have hal : (owning.grab World.delete w t q 0).alive = w.alive.erase o._ptr := by
      rw [(owning.grab_heap _ _ _ _).1, ← ptr_drop_eq, hdh.1]
    rw [ptr_assignRaw_eq, ptr_drop_eq]
    refine ⟨hdc.2.2.1, hcn, hg.2.2.2.1, ?_, hal, ?_, hg.1, hvq, hg.2.2.2.2.1, ?_, ?_⟩
    · rw [owning.grab_freed, hdc.2.2.1]
    · rw [hal]; exact (List.mem_erase_of_ne hqr).mpr hqa
    · simp only [ptr.copies, hvq, if_true, hg.2.2.2.2.1]
    · rw [hg.2.2.2.2.2.2.2.2.1 _ hne, hcn]
  · intro N hN hqn
    have hd := World.deleteArray_dealloc
    have hdc := owning.drop_count hd ho hv hk (by decide) (by decide)
    have hdh := array_ptr_drop_heap ho hv hk (by decide) (by decide)
    have hg := owning.grab_raw_spec hd hs ho hq
    simp only [if_true, hN, Option.getD_some] at hdc hdh
    have hcn : (owning.drop World.deleteArray w t).counterAt o._counter = none := by
      rw [World.counterAt_of_set hdc.2.1 hclt]; simp
    have hal : (owning.grab World.deleteArray w t q 0).alive =
        (World.elems o._ptr N).reverse.foldl List.erase w.alive := by
      rw [(owning.grab_heap _ _ _ _).1, ← array_ptr_drop_eq, hdh.1]
    rw [array_ptr_assignRaw_eq]
    refine ⟨?_, hal, ?_, hg.1, hg.2.2.2.2.1, ?_⟩
    · rw [owning.grab_freed, hdc.2.2.1]
    · rw [hal]
      apply List.count_pos_iff.mp
      rw [List.count_foldl_erase, List.count_reverse, List.count_eq_zero_of_not_mem hqn]
      have := List.count_pos_iff.mpr hqa
      omega
    · rw [hg.2.2.2.2.2.2.2.2.1 _ hne, hcn]

/-- C8 on the test `AssignNewPointerForDeletion`: after `a = new X` only the
new object is alive. -/
theorem C8_destructive_replace_witness :
    (ptr.assignRaw (ptr.run World.empty [Op.alloc 10 1, Op.ctorRaw 10, Op.alloc 20 1]) 0 20).freed =
      [] ++ [10] ∧
    (ptr.assignRaw (ptr.run World.empty [Op.alloc 10 1, Op.ctorRaw 10, Op.alloc 20 1]) 0 20).alive =
      [20] ∧
    (ptr.assignRaw (ptr.run World.empty [Op.alloc 10 1, Op.ctorRaw 10, Op.alloc 20 1]) 0
      20).counterAt 2 = some { _count := 1 } :=
  have hs : (ptr.run World.empty [Op.alloc 10 1, Op.ctorRaw 10, Op.alloc 20 1]).Sound := by
    rw [ptr_run_eq]
    exact owning.sound_run World.delete_dealloc World.empty_sound _
      ((ptr_within_iff _ _ _).mp (by decide))
  have h := (C8_destructive_replace
    (ptr.run World.empty [Op.alloc 10 1, Op.ctorRaw 10, Op.alloc 20 1]) hs 0
    { _ptr := 10, _counter := 1 } (by decide) (by decide) (by decide) 20 (by decide) (by decide)
    (by decide)).1
  ⟨h.2.2.2.1, h.2.2.2.2.1, h.2.2.2.2.2.2.2.2.1⟩

/-- C10, as stated, fails for `n = 2 ^ 32 + 1`. After `p = new X; a(p);` and
`2 ^ 32` copy constructions, the count has wrapped to `1`; the first release
(the destruction of `a`) already deallocates the resource, which is then not
alive although `2 ^ 32` instances, the instance `1` among them, remain. -/
theorem C10_first_release_frees_on_wrap :
    (ptr.run World.empty (lastOwnerProg 1 (List.replicate UINT_MOD 0) [(0, true)])).freed = [1] ∧
    (ptr.run World.empty (lastOwnerProg 1 (List.replicate UINT_MOD 0)
      [(0, true)])).s_instances = 0 ∧
    (ptr.run World.empty (lastOwnerProg 1 (List.replicate UINT_MOD 0) [(0, true)])).sharers 1 =
      UINT_MOD ∧
    (ptr.run World.empty (lastOwnerProg 1 (List.replicate UINT_MOD 0) [(0, true)])).obj 1 =
      some { _ptr := 1, _counter := 1 } ∧
    1 < 1 + (List.replicate UINT_MOD 0).length := by
  have h := run_wrap_release
  refine ⟨h.1, ?_, h.2.2.1, h.2.2.2, ?_⟩
  · simp only [World.s_instances, h.2.1, List.length_nil]
  · rw [List.length_replicate]; decide

/-- C10, amended: last owner out releases. For every `n = 1 + srcs.length`
with `1 <= n <= 2 ^ 32`: a pointer adopts the fresh resource at `p`, and
`n - 1` further instances are made by copy construction, each from an
instance that exists by then. The instances in `rel` are then released, each
once, in any order, each by destruction or by null assignment. As long as
fewer than `n` are released, nothing has been deallocated, the resource is
alive (`s_instances = 1`), every instance not released still holds `(p, 1)`,
their number is `n - rel.length`, and `copies()` reports that number (before
the first release only if `n < 2 ^ 32`). When all `n` are released, the
resource has been deallocated exactly once, nothing is alive, and no instance
is Valid. -/
theorem C10_last_owner_releases (p : Nat) (hp : p ≠ 0) (srcs : List Nat)
    (hsrc : ∀ i (hi : i < srcs.length), srcs[i] < 1 + i) (hn : 1 + srcs.length ≤ UINT_MOD)
    (rel : List (Nat × Bool)) (hnd : (rel.map Prod.fst).Nodup)
    (hlt : ∀ x ∈ rel, x.1 < 1 + srcs.length) :
    (rel.length < 1 + srcs.length →
      (ptr.run World.empty (lastOwnerProg p srcs rel)).freed = [] ∧
      (ptr.run World.empty (lastOwnerProg p srcs rel)).alive = [p] ∧
      (ptr.run World.empty (lastOwnerProg p srcs rel)).s_instances = 1 ∧
      (ptr.run World.empty (lastOwnerProg p srcs rel)).sharers 1 =
        1 + srcs.length - rel.length ∧
      (∀ i, i < 1 + srcs.length → i ∉ rel.map Prod.fst →
        (ptr.run World.empty (lastOwnerProg p srcs rel)).obj i =
          some { _ptr := p, _counter := 1 }) ∧
      ptr.valid { _ptr := p, _counter := 1 } = true ∧
      (1 ≤ rel.length ∨ 1 + srcs.length < UINT_MOD →
        ptr.copies (ptr.run World.empty (lastOwnerProg p srcs rel))
          { _ptr := p, _counter := 1 } = 1 + srcs.length - rel.length)) ∧
    (rel.length = 1 + srcs.length →
      (ptr.run World.empty (lastOwnerProg p srcs rel)).freed = [p] ∧
      (ptr.run World.empty (lastOwnerProg p srcs rel)).alive = [] ∧
      (ptr.run World.empty (lastOwnerProg p srcs rel)).s_instances = 0 ∧
      (∀ i o, (ptr.run World.empty (lastOwnerProg p srcs rel)).obj i = some o →
        ptr.valid o = false)) := by
  have hf := run_lastOwnerProg p hp srcs hsrc hn rel hnd hlt
  have hcnt := hf.cnt
  have hheap := hf.heap
  simp only [List.length_map] at hcnt hheap
  have hv : ptr.valid { _ptr := p, _counter := 1 } = true := by simp [ptr.valid, hp]
  constructor
  · intro hlt2
    simp only [hlt2, if_true] at hheap
    refine ⟨hheap.1, hheap.2, by simp [World.s_instances, hheap.2], by omega, hf.rest, hv, ?_⟩
    intro hc
    have hc1 := hf.sound.cnt 1
    have hs0 : ¬ ((1 : Nat) = 0 ∨
        (ptr.run World.empty (lastOwnerProg p srcs rel)).sharers 1 = 0) := by omega
    rw [if_neg hs0] at hc1
    simp only [ptr.copies, hv, if_true, hc1]
    have hmod : (ptr.run World.empty (lastOwnerProg p srcs rel)).sharers 1 < UINT_MOD := by
      rcases hc with h | h <;> omega
    rw [Nat.mod_eq_of_lt hmod]
    omega
  · intro heq
    have hnl : ¬ (rel.length < 1 + srcs.length) := by omega
    simp only [hnl, if_false] at hheap
    refine ⟨hheap.1, hheap.2, by simp [World.s_instances, hheap.2], ?_⟩
    intro i o ho
    rcases hf.shape i o ho with h | h
    · have := World.sharers_pos_of_obj ho
      rw [h] at this
      simp only at this
      omega
    · rw [h]; decide

/-- C10, amended, for `n = 2`, the scenario `a = new X; b(a); a = 0; b = 0`:
after `a = 0` the resource is alive and `b` reports the count `1`; after
`b = 0` nothing is alive. -/
theorem C10_last_owner_releases_witness :
    ((ptr.run World.empty (lastOwnerProg 10 [0] [(0, false)])).s_instances = 1 ∧
      ptr.copies (ptr.run World.empty (lastOwnerProg 10 [0] [(0, false)]))
        { _ptr := 10, _counter := 1 } = 1 + [0].length - [(0, false)].length) ∧
    (ptr.run World.empty (lastOwnerProg 10 [0] [(0, false), (1, false)])).s_instances = 0 :=
  have h1 := (C10_last_owner_releases 10 (by decide) [0] (by decide) (by decide) [(0, false)]
    (by decide) (by decide)).1 (by decide)
  have h2 := (C10_last_owner_releases 10 (by decide) [0] (by decide) (by decide)
    [(0, false), (1, false)] (by decide) (by decide)).2 (by decide)
  ⟨⟨h1.2.2.1, h1.2.2.2.2.2.2 (Or.inl (by decide))⟩, h2.2.2.1⟩

/-- C14: comparisons are on addresses only. For all pointers `a`, `b` of
the same class, each of `==`, `!=`, `<`, `<=`, `>`, `>=` returns the result of
that comparison on the two stored addresses; the functions read no counter,
no count and no pointed-to value (they take no state, and the result is the
same for any counters `c`, `d`). Hence for raw addresses `x < y` held by `pa`
and `pb`: `pa < pb`, `pb > pa` and `pa != pb`; and `a == b` holds if and only
if `a` and `b` hold the same address. -/
theorem C14_compare_addresses (a b : Obj) (c d x y : Nat) :
    (ptr.op_eq a b = decide (a._ptr = b._ptr) ∧ ptr.op_ne a b = decide (a._ptr ≠ b._ptr) ∧
      ptr.op_lt a b = decide (a._ptr < b._ptr) ∧ ptr.op_le a b = decide (a._ptr ≤ b._ptr) ∧
      ptr.op_gt a b = decide (a._ptr > b._ptr) ∧ ptr.op_ge a b = decide (a._ptr ≥ b._ptr)) ∧
    (array_ptr.op_eq a b = decide (a._ptr = b._ptr) ∧
      array_ptr.op_ne a b = decide (a._ptr ≠ b._ptr) ∧
      array_ptr.op_lt a b = decide (a._ptr < b._ptr) ∧
      array_ptr.op_le a b = decide (a._ptr ≤ b._ptr) ∧
      array_ptr.op_gt a b = decide (a._ptr > b._ptr) ∧
      array_ptr.op_ge a b = decide (a._ptr ≥ b._ptr)) ∧
    (ptr.op_eq a b = ptr.op_eq { a with _counter := c } { b with _counter := d } ∧
      ptr.op_ne a b = ptr.op_ne { a with _counter := c } { b with _counter := d } ∧
      ptr.op_lt a b = ptr.op_lt { a with _counter := c } { b with _counter := d } ∧
      ptr.op_le a b = ptr.op_le { a with _counter := c } { b with _counter := d } ∧
      ptr.op_gt a b = ptr.op_gt { a with _counter := c } { b with _counter := d } ∧
      ptr.op_ge a b = ptr.op_ge { a with _counter := c } { b with _counter := d }) ∧
    (x < y →
      ptr.op_lt { _ptr := x, _counter := c } { _ptr := y, _counter := d } = true ∧
      ptr.op_gt { _ptr := y, _counter := d } { _ptr := x, _counter := c } = true ∧
      ptr.op_ne { _ptr := x, _counter := c } { _ptr := y, _counter := d } = true ∧
      array_ptr.op_lt { _ptr := x, _counter := c } { _ptr := y, _counter := d } = true ∧
      array_ptr.op_gt { _ptr := y, _counter := d } { _ptr := x, _counter := c } = true ∧
      array_ptr.op_ne { _ptr := x, _counter := c } { _ptr := y, _counter := d } = true) ∧
    (ptr.op_eq a b = true ↔ a._ptr = b._ptr) ∧
    (array_ptr.op_eq a b = true ↔ a._ptr = b._ptr) := by
  refine ⟨⟨?_, ?_, rfl, rfl, rfl, rfl⟩, ⟨?_, ?_, rfl, rfl, rfl, rfl⟩,
    ⟨rfl, rfl, rfl, rfl, rfl, rfl⟩, ?_, ?_, ?_⟩
  · exact nat_beq_decide _ _
  · exact nat_bne_decide _ _
  · exact nat_beq_decide _ _
  · exact nat_bne_decide _ _
  · intro h
    have hne : x ≠ y := by omega
    simp [ptr.op_lt, ptr.op_gt, ptr.op_ne, array_ptr.op_lt, array_ptr.op_gt, array_ptr.op_ne, h,
      hne]
  · simp [ptr.op_eq]
  · simp [array_ptr.op_eq]

/-- C14 on the test `EqualityOperators`, with `xa = 10 < xb = 20`: after
`pa = xa; pb = xb`, `pa < pb`, `pb > pa` and `pa != pb`. -/
theorem C14_compare_addresses_witness :
    ptr.op_lt { _ptr := 10, _counter := 1 } { _ptr := 20, _counter := 2 } = true ∧
    ptr.op_gt { _ptr := 20, _counter := 2 } { _ptr := 10, _counter := 1 } = true ∧
    ptr.op_ne { _ptr := 10, _counter := 1 } { _ptr := 20, _counter := 2 } = true :=
  have h := (C14_compare_addresses { _ptr := 0, _counter := 0 } { _ptr := 0, _counter := 0 }
    1 2 10 20).2.2.2.1 (by decide)
  ⟨h.1, h.2.1, h.2.2.1⟩

/-- C15: total order usable as a container key. On the pointers of one
class, `<` is a strict total order on the addresses and the six operators are
consistent: exactly one of `a < b`, `a == b`, `b < a` holds; `a < b` and
`b < c` imply `a < c`; `(a > b) = (b < a)`; `(a <= b) = not (b < a)`;
`(a >= b) = not (a < b)`; `(a != b) = not (a == b)`; `a <= a` and `a >= a`. -/
theorem C15_total_order (a b c : Obj) :
    ((ptr.op_lt a b = true ∧ ptr.op_eq a b = false ∧ ptr.op_lt b a = false) ∨
      (ptr.op_lt a b = false ∧ ptr.op_eq a b = true ∧ ptr.op_lt b a = false) ∨
      (ptr.op_lt a b = false ∧ ptr.op_eq a b = false ∧ ptr.op_lt b a = true)) ∧
    (ptr.op_lt a b = true → ptr.op_lt b c = true → ptr.op_lt a c = true) ∧
    ptr.op_gt a b = ptr.op_lt b a ∧
    ptr.op_le a b = !ptr.op_lt b a ∧
    ptr.op_ge a b = !ptr.op_lt a b ∧
    ptr.op_ne a b = !ptr.op_eq a b ∧
    ptr.op_le a a = true ∧ ptr.op_ge a a = true ∧
    ((array_ptr.op_lt a b = true ∧ array_ptr.op_eq a b = false ∧ array_ptr.op_lt b a = false) ∨
      (array_ptr.op_lt a b = false ∧ array_ptr.op_eq a b = true ∧ array_ptr.op_lt b a = false) ∨
      (array_ptr.op_lt a b = false ∧ array_ptr.op_eq a b = false ∧
        array_ptr.op_lt b a = true)) ∧
    (array_ptr.op_lt a b = true → array_ptr.op_lt b c = true → array_ptr.op_lt a c = true) ∧
    array_ptr.op_gt a b = array_ptr.op_lt b a ∧
    array_ptr.op_le a b = !array_ptr.op_lt b a ∧
    array_ptr.op_ge a b = !array_ptr.op_lt a b ∧
    array_ptr.op_ne a b = !array_ptr.op_eq a b ∧
    array_ptr.op_le a a = true ∧ array_ptr.op_ge a a = true := by
  have tri : ((ptr.op_lt a b = true ∧ ptr.op_eq a b = false ∧ ptr.op_lt b a = false) ∨
      (ptr.op_lt a b = false ∧ ptr.op_eq a b = true ∧ ptr.op_lt b a = false) ∨
      (ptr.op_lt a b = false ∧ ptr.op_eq a b = false ∧ ptr.op_lt b a = true)) := by
    simp only [ptr.op_lt, ptr.op_eq, decide_eq_true_eq, decide_eq_false_iff_not, beq_iff_eq,
      beq_eq_false_iff_ne, ne_eq]
    omega
  have trans : ptr.op_lt a b = true → ptr.op_lt b c = true → ptr.op_lt a c = true := by
    simp only [ptr.op_lt, decide_eq_true_eq]
    omega
  have hle : ptr.op_le a b = !ptr.op_lt b a := by
    simp only [ptr.op_le, ptr.op_lt]
    by_cases h : b._ptr < a._ptr
    · have : ¬ a._ptr ≤ b._ptr := by omega
      simp [h, this]
    · have : a._ptr ≤ b._ptr := by omega
      simp [h, this]
  have hge : ptr.op_ge a b = !ptr.op_lt a b := by
    simp only [ptr.op_ge, ptr.op_lt]
    by_cases h : a._ptr < b._ptr
    · have : ¬ a._ptr ≥ b._ptr := by omega
      simp [h, this]
    · have : a._ptr ≥ b._ptr := by omega
      simp [h, this]
  have hne : ptr.op_ne a b = !ptr.op_eq a b := rfl
  have hgt : ptr.op_gt a b = ptr.op_lt b a := rfl
  have hrefl : ptr.op_le a a = true ∧ ptr.op_ge a a = true := by
    simp [ptr.op_le, ptr.op_ge]
  exact ⟨tri, trans, hgt, hle, hge, hne, hrefl.1, hrefl.2, tri, trans, hgt, hle, hge, hne,
    hrefl.1, hrefl.2⟩

/-- C15, transitivity on three addresses. -/
theorem C15_total_order_witness :
    ptr.op_lt { _ptr := 10, _counter := 1 } { _ptr := 30, _counter := 3 } = true :=
  (C15_total_order { _ptr := 10, _counter := 1 } { _ptr := 20, _counter := 2 }
    { _ptr := 30, _counter := 3 }).2.1 (by decide) (by decide)

/-- C20: introspection. For every pointer of either class, `copies()`
returns the count of its counter when the pointer is Valid and `0` when it is
Invalid; `shared() = (copies() > 1)`, `unique() = (copies() == 1)`,
`unreferenced() = (copies() == 0)`. -/
theorem C20_introspection (w : World) (o : Obj) :
    (∀ k, ptr.valid o = true → w.counterAt o._counter = some k → ptr.copies w o = k._count) ∧
    (ptr.valid o = false → ptr.copies w o = 0) ∧
    ptr.shared w o = decide (ptr.copies w o > 1) ∧
    ptr.unique w o = decide (ptr.copies w o = 1) ∧
    ptr.unreferenced w o = decide (ptr.copies w o = 0) ∧
    (∀ k, array_ptr.valid o = true → w.counterAt o._counter = some k →
      array_ptr.copies w o = k._count) ∧
    (array_ptr.valid o = false → array_ptr.copies w o = 0) ∧
    array_ptr.shared w o = decide (array_ptr.copies w o > 1) ∧
    array_ptr.unique w o = decide (array_ptr.copies w o = 1) ∧
    array_ptr.unreferenced w o = decide (array_ptr.copies w o = 0) := by
  refine ⟨?_, ?_, rfl, ?_, ?_, ?_, ?_, rfl, ?_, ?_⟩
  · intro k hv hk
    simp [ptr.copies, hv, hk]
  · intro hv
    simp [ptr.copies, hv]
  · exact nat_beq_decide _ _
  · exact nat_beq_decide _ _
  · intro k hv hk
    simp [array_ptr.copies, hv, hk]
  · intro hv
    simp [array_ptr.copies, hv]
  · exact nat_beq_decide _ _
  · exact nat_beq_decide _ _

/-- C20 in the state after `a(new X); b(a);`: `a.copies()` is 2. -/
theorem C20_introspection_witness :
    ptr.copies (ptr.run World.empty [Op.alloc 10 1, Op.ctorRaw 10, Op.ctorCopy 0])
      { _ptr := 10, _counter := 1 } = ({ _count := 2 } : ptr_counter)._count :=
  (C20_introspection (ptr.run World.empty [Op.alloc 10 1, Op.ctorRaw 10, Op.ctorCopy 0])
    { _ptr := 10, _counter := 1 }).1 { _count := 2 } (by decide) (by decide)

/-- C17: access requires Valid. After every program of public operations,
for every live pointer of either class: if it is Valid, the assertion
`assert(_ptr)` of `operator->`, `operator*` and both `operator[]` holds (the
address is non-null), `operator->` returns the owned address, `operator*`
denotes the object at it and `operator[]` the element `i` from it; if it is
Invalid, each of these operations fails its assertion. A result, when there
is one, is the address of the denoted object, never an error value. -/
theorem C17_access_requires_valid (ops : List Op) (i : Nat) :
    (∀ t o, (ptr.run World.empty ops).obj t = some o →
      (ptr.valid o = true → o._ptr ≠ 0 ∧ ptr.arrow o = some o._ptr ∧
        ptr.deref o = some o._ptr ∧ ptr.index o i = some (rawIndex o._ptr i) ∧
        ptr.index_const o i = some (rawIndex o._ptr i)) ∧
      (ptr.valid o = false → ptr.arrow o = none ∧ ptr.deref o = none ∧
        ptr.index o i = none ∧ ptr.index_const o i = none)) ∧
    (∀ t o, (array_ptr.run World.empty ops).obj t = some o →
      (array_ptr.valid o = true → o._ptr ≠ 0 ∧ array_ptr.arrow o = some o._ptr ∧
        array_ptr.deref o = some o._ptr ∧ array_ptr.index o i = some (rawIndex o._ptr i) ∧
        array_ptr.index_const o i = some (rawIndex o._ptr i)) ∧
      (array_ptr.valid o = false → array_ptr.arrow o = none ∧ array_ptr.deref o = none ∧
        array_ptr.index o i = none ∧ array_ptr.index_const o i = none)) ∧
    (∀ o r, (ptr.arrow o = some r → r = o._ptr ∧ r ≠ 0) ∧
      (ptr.deref o = some r → r = o._ptr ∧ r ≠ 0) ∧
      (ptr.index o i = some r → r = rawIndex o._ptr i ∧ o._ptr ≠ 0) ∧
      (ptr.index_const o i = some r → r = rawIndex o._ptr i ∧ o._ptr ≠ 0) ∧
      (array_ptr.arrow o = some r → r = o._ptr ∧ r ≠ 0) ∧
      (array_ptr.deref o = some r → r = o._ptr ∧ r ≠ 0) ∧
      (array_ptr.index o i = some r → r = rawIndex o._ptr i ∧ o._ptr ≠ 0) ∧
      (array_ptr.index_const o i = some r → r = rawIndex o._ptr i ∧ o._ptr ≠ 0)) := by
  have key : ∀ o : Obj, (o._ptr = 0 ↔ o._counter = 0) →
      (ptr.valid o = true → o._ptr ≠ 0 ∧ ptr.arrow o = some o._ptr ∧
        ptr.deref o = some o._ptr ∧ ptr.index o i = some (rawIndex o._ptr i) ∧
        ptr.index_const o i = some (rawIndex o._ptr i)) ∧
      (ptr.valid o = false → ptr.arrow o = none ∧ ptr.deref o = none ∧
        ptr.index o i = none ∧ ptr.index_const o i = none) := by
    intro o h2
    constructor
    · intro hv
      obtain ⟨hp, _⟩ := owning.valid_iff.mp hv
      simp [ptr.arrow, ptr.deref, ptr.index, ptr.index_const, hp]
    · intro hv
      have hp : o._ptr = 0 := by
        by_contra hp
        have hc : o._counter ≠ 0 := fun hc => hp (h2.mpr hc)
        rw [owning.valid_iff.mpr ⟨hp, hc⟩] at hv
        cases hv
      simp [ptr.arrow, ptr.deref, ptr.index, ptr.index_const, hp]
  have acc : ∀ (o : Obj) (r : Nat),
      (ptr.arrow o = some r → r = o._ptr ∧ r ≠ 0) ∧
      (ptr.index o i = some r → r = rawIndex o._ptr i ∧ o._ptr ≠ 0) := by
    intro o r
    constructor
    · intro h
      simp only [ptr.arrow] at h
      split at h
      · cases h; exact ⟨rfl, by assumption⟩
      · cases h
    · intro h
      simp only [ptr.index] at h
      split at h
      · cases h; exact ⟨rfl, by assumption⟩
      · cases h
  refine ⟨?_, ?_, ?_⟩
  · intro t o ho
    rw [ptr_run_eq] at ho
    exact key o ((owning.twoState_run World.delete_dealloc owning.twoState_empty
      (by decide) ops).1 t o ho)
  · intro t o ho
    rw [array_ptr_run_eq] at ho
    exact key o ((owning.twoState_run World.deleteArray_dealloc owning.twoState_empty
      (by decide) ops).1 t o ho)
  · intro o r
    exact ⟨(acc o r).1, (acc o r).1, (acc o r).2, (acc o r).2, (acc o r).1, (acc o r).1,
      (acc o r).2, (acc o r).2⟩

/-- C17 on the test `AccessPointer`: `a->` gives the address of the object,
and after `a = 0` it fails. -/
theorem C17_access_requires_valid_witness :
    ptr.arrow { _ptr := 10, _counter := 1 } = some 10 ∧
    ptr.arrow { _ptr := 0, _counter := 0 } = none :=
  ⟨(((C17_access_requires_valid [Op.alloc 10 1, Op.ctorRaw 10] 0).1 0
      { _ptr := 10, _counter := 1 } (by decide)).1 (by decide)).2.1,
    (((C17_access_requires_valid [Op.alloc 10 1, Op.ctorRaw 10, Op.assignRaw 0 0] 0).1 0
      { _ptr := 0, _counter := 0 } (by decide)).2 (by decide)).1⟩

/-- C18: indexing. Let `p` be the non-null address of the run of `N`
elements that `new X[N]` creates (the list `World.elems p N`, which the
allocation adds to the alive objects, in the order of the positions), let the
`array_ptr` `q` adopt `p` (by assignment to a live instance `t`, or by
construction), and let `i < N`. Then `q[i]`, in the const and in the
non-const overload, denotes the element at position `i` of the run: its
address is the entry number `i` of the run, `p + i`, which is the address of
`p[i]`; a different index denotes a different element; the element is alive
after `p = new X[N]; array_ptr<X> q(p);`. In every memory in which the
element at each position `j` of the run holds the value `v j`, reading `q[i]`
gives `v i`, the value of `p[i]`, and a store through `q[i]` changes the
value at position `i` of the run and at no other position. `*q` and `q->`
denote the element zero of the run, the same element as `q[0]`. -/
theorem C18_indexing (w : World) (t : Nat) (ot : Obj) (ht : w.obj t = some ot)
    (p N i : Nat) (hp : p ≠ 0) (hi : i < N) :
    (∃ c, (array_ptr.assignRaw w t p).obj t = some { _ptr := p, _counter := c }) ∧
    (∃ c, (array_ptr.ctorRaw w p).obj w.objs.length = some { _ptr := p, _counter := c }) ∧
    ((w.alloc p N).alive = w.alive ++ World.elems p N ∧
      (World.elems p N).length = N ∧ (World.elems p N).Nodup ∧
      (array_ptr.ctorRaw (w.alloc p N) p).alive = w.alive ++ World.elems p N) ∧
    (∀ c, array_ptr.index { _ptr := p, _counter := c } i = some (rawIndex p i) ∧
      array_ptr.index_const { _ptr := p, _counter := c } i = some (rawIndex p i) ∧
      rawIndex p i ∈ World.elems p N ∧
      (∀ (V : Type) (mem : Nat → V),
        (array_ptr.index { _ptr := p, _counter := c } i).map mem = some (mem (rawIndex p i)) ∧
        (array_ptr.index_const { _ptr := p, _counter := c } i).map mem =
          some (mem (rawIndex p i))) ∧
      array_ptr.deref { _ptr := p, _counter := c } =
        array_ptr.index { _ptr := p, _counter := c } 0 ∧
      array_ptr.arrow { _ptr := p, _counter := c } =
        array_ptr.index { _ptr := p, _counter := c } 0 ∧
      array_ptr.deref { _ptr := p, _counter := c } = some p ∧
      array_ptr.arrow { _ptr := p, _counter := c } = some p) ∧
    (∀ c, array_ptr.index { _ptr := p, _counter := c } i = (World.elems p N)[i]? ∧
      array_ptr.index_const { _ptr := p, _counter := c } i = (World.elems p N)[i]? ∧
      array_ptr.index { _ptr := p, _counter := c } i = some (p + i) ∧
      array_ptr.index_const { _ptr := p, _counter := c } i = some (p + i) ∧
      (World.elems p N)[i]? = some (rawIndex p i) ∧
      (∀ j, j ≠ i →
        array_ptr.index { _ptr := p, _counter := c } j ≠
          array_ptr.index { _ptr := p, _counter := c } i ∧
        array_ptr.index_const { _ptr := p, _counter := c } j ≠
          array_ptr.index_const { _ptr := p, _counter := c } i) ∧
      (∀ a, array_ptr.index { _ptr := p, _counter := c } i = some a →
        a ∈ (array_ptr.ctorRaw (w.alloc p N) p).alive) ∧
      (∀ (V : Type) (mem v : Nat → V),
        (∀ j a, (World.elems p N)[j]? = some a → mem a = v j) →
        (array_ptr.index { _ptr := p, _counter := c } i).map mem = some (v i) ∧
        (array_ptr.index_const { _ptr := p, _counter := c } i).map mem = some (v i) ∧
        mem (rawIndex p i) = v i ∧
        (array_ptr.deref { _ptr := p, _counter := c }).map mem = some (v 0) ∧
        (array_ptr.arrow { _ptr := p, _counter := c }).map mem = some (v 0)) ∧
      (∀ (V : Type) (mem : Nat → V) (x : V) (a : Nat),
        array_ptr.index { _ptr := p, _counter := c } i = some a →
        ∀ j b, (World.elems p N)[j]? = some b →
          Function.update mem a x b = if j = i then x else mem b) ∧
      array_ptr.deref { _ptr := p, _counter := c } = (World.elems p N)[0]? ∧
      array_ptr.arrow { _ptr := p, _counter := c } = (World.elems p N)[0]?) := by
  have hd := World.deleteArray_dealloc
  have ht0 : (w.addObj { _ptr := 0, _counter := 0 }).obj w.objs.length =
      some { _ptr := 0, _counter := 0 } := by
    rw [World.obj_addObj]; simp
  have hN : 0 < N := by omega
  have hei : (World.elems p N)[i]? = some (p + i) := by
    rw [World.elems_getElem?, if_pos hi]
  have he0 : (World.elems p N)[0]? = some p := by
    rw [World.elems_getElem?, if_pos hN]; rfl
  have hidx : ∀ c j, array_ptr.index { _ptr := p, _counter := c } j = some (p + j) := by
    intro c j
    simp [array_ptr.index, hp, rawIndex]
  have hidxc : ∀ c j, array_ptr.index_const { _ptr := p, _counter := c } j = some (p + j) := by
    intro c j
    simp [array_ptr.index_const, hp, rawIndex]
  have hder : ∀ c, array_ptr.deref { _ptr := p, _counter := c } = some p := by
    intro c
    simp [array_ptr.deref, hp]
  have harr : ∀ c, array_ptr.arrow { _ptr := p, _counter := c } = some p := by
    intro c
    simp [array_ptr.arrow, hp]
  have halive : (array_ptr.ctorRaw (w.alloc p N) p).alive = w.alive ++ World.elems p N := by
    rw [array_ptr_ctorRaw_eq, owning.ctorRaw_nonnull _ hp]
    rfl
  have hmem : rawIndex p i ∈ World.elems p N := by
    simp only [World.elems, rawIndex, List.mem_map, List.mem_range]
    exact ⟨i, hi, rfl⟩
  refine ⟨⟨_, owning.grab_nonnull_obj hd ht p 0 hp⟩, ⟨_, owning.grab_nonnull_obj hd ht0 p 0 hp⟩,
    ⟨rfl, World.elems_length p N, World.elems_nodup p N, halive⟩, ?_, ?_⟩
  · intro c
    refine ⟨hidx c i, hidxc c i, hmem, fun V mem => ?_, ?_, ?_, hder c, harr c⟩
    · rw [hidx, hidxc]; exact ⟨rfl, rfl⟩
    · rw [hder, hidx]; rfl
    · rw [harr, hidx]; rfl
  · intro c
    refine ⟨by rw [hidx, hei], by rw [hidxc, hei], hidx c i, hidxc c i, hei, ?_, ?_, ?_, ?_,
      by rw [hder, he0], by rw [harr, he0]⟩
    · intro j hj
      rw [hidx, hidx, hidxc, hidxc]
      constructor <;>
      · intro h
        have := Option.some.inj h
        omega
    · intro a ha
      rw [hidx] at ha
      have := Option.some.inj ha
      rw [halive, ← this]
      exact List.mem_append_right _ hmem
    · intro V mem v hv
      have h1 := hv i (p + i) hei
      have h0 := hv 0 p he0
      rw [hidx, hidxc, hder, harr]
      exact ⟨congrArg some h1, congrArg some h1, h1, congrArg some h0, congrArg some h0⟩
    · intro V mem x a ha j b hb
      rw [hidx] at ha
      have ha2 := Option.some.inj ha
      obtain ⟨_, hb2⟩ := World.elems_getElem?_some hb
      by_cases hji : j = i
      · rw [if_pos hji, hb2, hji, ← ha2]
        exact Function.update_same _ _ _
      · rw [if_neg hji]
        exact Function.update_noteq (by omega) _ _

/-- C18 on the test `ArrayIndexing`, `int* p = new int[10]` with `p[j] = j`
for every `j` and `array_ptr<int> q = p`: `&q[3]` is the entry number `3` of
the run, and `q[3]` reads `3`. -/
theorem C18_indexing_witness :
    array_ptr.index { _ptr := 10, _counter := 1 } 3 = (World.elems 10 10)[3]? ∧
    (array_ptr.index { _ptr := 10, _counter := 1 } 3).map (fun a => a - 10) = some 3 :=
  have h := (C18_indexing (array_ptr.run World.empty [Op.alloc 10 10, Op.ctor]) 0
    { _ptr := 0, _counter := 0 } (by decide) 10 10 3 (by decide) (by decide)).2.2.2.2 1
  ⟨h.1, (h.2.2.2.2.2.2.2.1 Nat (fun a => a - 10) (fun j => j) (fun j a hja => by
    have := (World.elems_getElem?_some hja).2
    show a - 10 = j
    omega)).1⟩

/-- C19: validity query. For every pointer of either class, `operator bool`
and `valid()` return the same value, which is true if and only if the address
and the counter are both non-null. In every sound state, for live instances
`t` and `s`, that value is false for a default-constructed pointer, for `t`
after the assignment of null, and for the target after copying (by
assignment or construction) an Invalid source `s`; and it is true for the
target after adopting a non-null address `p` (by assignment or construction)
and after copying a Valid source `s`. -/
theorem C19_validity_query (w : World) (hs : w.Sound) (t s : Nat) (ot os : Obj)
    (ht : w.obj t = some ot) (hso : w.obj s = some os) (hts : t ≠ s) (p : Nat) (hp : p ≠ 0) :
    (∀ o, ptr.toBool o = ptr.valid o ∧ array_ptr.toBool o = array_ptr.valid o ∧
      (ptr.valid o = true ↔ o._ptr ≠ 0 ∧ o._counter ≠ 0) ∧
      (array_ptr.valid o = true ↔ o._ptr ≠ 0 ∧ o._counter ≠ 0)) ∧
    ((∃ o, (ptr.ctor w).obj w.objs.length = some o ∧ ptr.valid o = false) ∧
      (∃ o, (ptr.assignRaw w t 0).obj t = some o ∧ ptr.valid o = false) ∧
      (ptr.valid os = false →
        (∃ o, (ptr.assign w t s).obj t = some o ∧ ptr.valid o = false) ∧
        (∃ o, (ptr.ctorCopy w s).obj w.objs.length = some o ∧ ptr.valid o = false)) ∧
      (∃ o, (ptr.assignRaw w t p).obj t = some o ∧ ptr.valid o = true) ∧
      (∃ o, (ptr.ctorRaw w p).obj w.objs.length = some o ∧ ptr.valid o = true) ∧
      (ptr.valid os = true →
        (∃ o, (ptr.assign w t s).obj t = some o ∧ ptr.valid o = true) ∧
        (∃ o, (ptr.ctorCopy w s).obj w.objs.length = some o ∧ ptr.valid o = true))) ∧
    ((∃ o, (array_ptr.ctor w).obj w.objs.length = some o ∧ array_ptr.valid o = false) ∧
      (∃ o, (array_ptr.assignRaw w t 0).obj t = some o ∧ array_ptr.valid o = false) ∧
      (array_ptr.valid os = false →
        (∃ o, (array_ptr.assign w t s).obj t = some o ∧ array_ptr.valid o = false) ∧
        (∃ o, (array_ptr.ctorCopy w s).obj w.objs.length = some o ∧
          array_ptr.valid o = false)) ∧
      (∃ o, (array_ptr.assignRaw w t p).obj t = some o ∧ array_ptr.valid o = true) ∧
      (∃ o, (array_ptr.ctorRaw w p).obj w.objs.length = some o ∧ array_ptr.valid o = true) ∧
      (array_ptr.valid os = true →
        (∃ o, (array_ptr.assign w t s).obj t = some o ∧ array_ptr.valid o = true) ∧
        (∃ o, (array_ptr.ctorCopy w s).obj w.objs.length = some o ∧
          array_ptr.valid o = true))) := by
  have h1 := owning.validity_after World.delete_dealloc hs ht hso hts hp
  have h2 := owning.validity_after_ctor World.delete_dealloc hs hso hp
  have h3 := owning.validity_after World.deleteArray_dealloc hs ht hso hts hp
  have h4 := owning.validity_after_ctor World.deleteArray_dealloc hs hso hp
  refine ⟨fun o => ⟨rfl, rfl, owning.valid_iff, owning.valid_iff⟩, ?_, ?_⟩
  · exact ⟨h2.1, h1.1, fun hv => ⟨h1.2.1 hv, h2.2.1 hv⟩, h1.2.2.1, h2.2.2.1,
      fun hv => ⟨h1.2.2.2 hv, h2.2.2.2 hv⟩⟩
  · exact ⟨h4.1, h3.1, fun hv => ⟨h3.2.1 hv, h4.2.1 hv⟩, h3.2.2.1, h4.2.2.1,
      fun hv => ⟨h3.2.2.2 hv, h4.2.2.2 hv⟩⟩

/-- C19 on the test `BoolValidityCheck`, in the state after
`ptr<X> a, b(new X);`: `a = b` makes `a` Valid, `b = 0` makes `b` Invalid. -/
theorem C19_validity_query_witness :
    (∃ o, (ptr.assign (ptr.run World.empty [Op.ctor, Op.alloc 10 1, Op.ctorRaw 10]) 0 1).obj 0 =
      some o ∧ ptr.valid o = true) ∧
    (∃ o, (ptr.assignRaw (ptr.run World.empty [Op.ctor, Op.alloc 10 1, Op.ctorRaw 10]) 1 0).obj 1 =
      some o ∧ ptr.valid o = false) :=
  have hs : (ptr.run World.empty [Op.ctor, Op.alloc 10 1, Op.ctorRaw 10]).Sound := by
    rw [ptr_run_eq]
    exact owning.sound_run World.delete_dealloc World.empty_sound _
      ((ptr_within_iff _ _ _).mp (by decide))
  ⟨((C19_validity_query (ptr.run World.empty [Op.ctor, Op.alloc 10 1, Op.ctorRaw 10]) hs 0 1
      { _ptr := 0, _counter := 0 } { _ptr := 10, _counter := 1 } (by decide) (by decide)
      (by decide) 20 (by decide)).2.1.2.2.2.2.2 (by decide)).1,
    (C19_validity_query (ptr.run World.empty [Op.ctor, Op.alloc 10 1, Op.ctorRaw 10]) hs 1 0
      { _ptr := 10, _counter := 1 } { _ptr := 0, _counter := 0 } (by decide) (by decide)
      (by decide) 20 (by decide)).2.1.2.1⟩

/-- C12, as stated, fails for a Valid pointer whose count is `0`. In the
state reached by `p = new X; a(p);` and `2 ^ 32 - 1` copy constructions, the
instance `a = 0` is Valid and its counter holds `0` (the count of `2 ^ 32`
sharers has wrapped). Copy-constructing `b` from `a` makes the count `1`, and
destroying `b` makes it `0`: the resource is deallocated and the counter
deleted, while `a` still holds the address. -/
theorem C12_copy_destroy_releases_on_wrap :
    (ptr.run World.empty (lineageProg 1 (List.replicate UINT_MAX 0))).obj 0 =
      some { _ptr := 1, _counter := 1 } ∧
    ptr.valid { _ptr := 1, _counter := 1 } = true ∧
    (ptr.run World.empty (lineageProg 1 (List.replicate UINT_MAX 0))).counterAt 1 =
      some { _count := 0 } ∧
    (ptr.run World.empty (lineageProg 1 (List.replicate UINT_MAX 0))).objs.length = UINT_MOD ∧
    (ptr.run World.empty (lineageProg 1 (List.replicate UINT_MAX 0))).freed = [] ∧
    (ptr.dtor (ptr.ctorCopy (ptr.run World.empty (lineageProg 1 (List.replicate UINT_MAX 0))) 0)
      UINT_MOD).freed = [1] ∧
    (ptr.dtor (ptr.ctorCopy (ptr.run World.empty (lineageProg 1 (List.replicate UINT_MAX 0))) 0)
      UINT_MOD).counterAt 1 = none ∧
    (ptr.dtor (ptr.ctorCopy (ptr.run World.empty (lineageProg 1 (List.replicate UINT_MAX 0))) 0)
      UINT_MOD).obj 0 = some { _ptr := 1, _counter := 1 } := by
  have hrun : ptr.run World.empty (lineageProg 1 (List.replicate UINT_MAX 0)) =
      World.lineage 1 UINT_MOD := by
    rw [ptr_run_eq, owning.run_lineageProg 1 (by decide) _ (owning.replicate_srcs _ 1 (by decide)),
      List.length_replicate]
    rfl
  have hcnt : (World.lineage 1 UINT_MOD).counterAt 1 = some { _count := 0 } := by
    simp [World.counterAt, World.lineage]
  have hd := owning.dtor_lineage_at World.delete_dealloc 1 (UINT_MOD + 1) UINT_MOD (by decide)
    (by decide) (by decide)
  rw [hrun, ctorCopy_lineage 1 UINT_MOD 0 (by decide) (by decide), ptr_dtor_eq]
  exact ⟨owning.lineage_obj 1 UINT_MOD 0 (by decide), by decide, hcnt, lineage_length _ _, rfl,
    hd.1, hd.2.1, hd.2.2 0 (by decide) (by decide)⟩

/-- C12, amended: passing by value is a safe shared reference. For every
Valid pointer `a` whose counter holds a count `n >= 1`: copy-constructing a
new instance `b` from `a` releases nothing (no deallocation, the same objects
alive) and makes `b` share `a`'s address and counter; destroying `b` then
restores exactly the previous state — the whole state is the one before,
with the ended instance `b` in addition — so `a`'s address and counter, the
count `n`, the deallocations and the alive objects are unchanged. -/
theorem C12_pass_by_value (w : World) (a : Nat) (oa : Obj) (n : Nat)
    (ha : w.obj a = some oa) (hv : ptr.valid oa = true)
    (hk : w.counterAt oa._counter = some { _count := n }) (h1 : 1 ≤ n) (h2 : n ≤ UINT_MAX) :
    (ptr.ctorCopy w a).freed = w.freed ∧ (ptr.ctorCopy w a).alive = w.alive ∧
    (ptr.ctorCopy w a).obj w.objs.length = some { _ptr := oa._ptr, _counter := oa._counter } ∧
    ptr.dtor (ptr.ctorCopy w a) w.objs.length = { w with objs := w.objs ++ [none] } ∧
    (ptr.dtor (ptr.ctorCopy w a) w.objs.length).obj a = some oa ∧
    (ptr.dtor (ptr.ctorCopy w a) w.objs.length).counterAt oa._counter = some { _count := n } ∧
    (ptr.dtor (ptr.ctorCopy w a) w.objs.length).counters = w.counters ∧
    (ptr.dtor (ptr.ctorCopy w a) w.objs.length).freed = w.freed ∧
    (ptr.dtor (ptr.ctorCopy w a) w.objs.length).alive = w.alive ∧
    (ptr.dtor (ptr.ctorCopy w a) w.objs.length).blocks = w.blocks ∧
    (ptr.dtor (ptr.ctorCopy w a) w.objs.length).obj w.objs.length = none := by
  have hd := World.delete_dealloc
  have hcd := owning.copy_destroy hd ha hv hk h1 h2
  have hw1 := owning.ctorCopy_valid hd ha hv hk
  have hlt := World.obj_lt ha
  rw [ptr_dtor_eq, ptr_ctorCopy_eq, hcd]
  refine ⟨?_, ?_, ?_, rfl, ?_, hk, rfl, rfl, rfl, rfl, ?_⟩
  · rw [hw1]; rfl
  · rw [hw1]; rfl
  · rw [hw1]
    have hlen : w.objs.length < ((w.addObj { _ptr := 0, _counter := 0 }).storeCounter
        oa._counter (ptr_counter.inc { _count := n })).objs.length := by
      simp [World.addObj, World.storeCounter]
    rw [owning.obj_setObj hlen]; simp
  · unfold World.obj at ha ⊢
    simp only
    rw [List.getElem?_append_left hlt]
    exact ha
  · unfold World.obj
    simp

/-- C12, amended, in the state after `a(new X);`: `foo(a)` with
`void foo(ptr<X> b)` leaves the state as it was. -/
theorem C12_pass_by_value_witness :
    (ptr.dtor (ptr.ctorCopy (ptr.run World.empty [Op.alloc 10 1, Op.ctorRaw 10]) 0)
      (ptr.run World.empty [Op.alloc 10 1, Op.ctorRaw 10]).objs.length).counterAt 1 =
      some { _count := 1 } ∧
    (ptr.dtor (ptr.ctorCopy (ptr.run World.empty [Op.alloc 10 1, Op.ctorRaw 10]) 0)
      (ptr.run World.empty [Op.alloc 10 1, Op.ctorRaw 10]).objs.length).freed =
      (ptr.run World.empty [Op.alloc 10 1, Op.ctorRaw 10]).freed :=
  have h := C12_pass_by_value (ptr.run World.empty [Op.alloc 10 1, Op.ctorRaw 10]) 0
    { _ptr := 10, _counter := 1 } 1 (by decide) (by decide) (by decide) (by decide) (by decide)
  ⟨h.2.2.2.2.2.1, h.2.2.2.2.2.2.2.1⟩

/-- C13: copy from an Invalid source. In a state where every instance has
both data members null or both non-null (every reachable state, C3), for an
Invalid instance `a` and another instance `b` whose counter, if `b` is Valid,
is a live counter: the copy construction from `a`
is the default construction, so the new instance is Invalid; the copy
assignment `b = a` is the release `drop` of `b`: `a` is unchanged, `b` is
Invalid afterwards, no counter is created, and an Invalid `b` leaves the
state unchanged. If `b` was Valid with a count `m`, `1 <= m <= UINT_MAX`,
its counter holds `m - 1` afterwards and nothing is deallocated when
`m > 1`, and as sole owner (`m = 1`) its resource is deallocated, taken from
the alive objects, and its counter deleted. -/
theorem C13_copy_from_invalid (w : World) (hw : w.TwoState) (a b : Nat) (oa ob : Obj)
    (hab : b ≠ a) (ha : w.obj a = some oa) (hva : ptr.valid oa = false)
    (hb : w.obj b = some ob)
    (hkb : ptr.valid ob = true → (w.counterAt ob._counter).isSome = true) :
    ptr.ctorCopy w a = ptr.ctor w ∧
    (ptr.ctorCopy w a).obj w.objs.length = some { _ptr := 0, _counter := 0 } ∧
    ptr.valid { _ptr := 0, _counter := 0 } = false ∧
    (ptr.ctorCopy w a).obj a = some oa ∧
    (ptr.ctorCopy w a).counters = w.counters ∧
    ptr.assign w b a = ptr.drop w b ∧
    (ptr.assign w b a).obj a = some oa ∧
    (∃ ob1, (ptr.assign w b a).obj b = some ob1 ∧ ptr.valid ob1 = false) ∧
    (ptr.assign w b a).counters.length = w.counters.length ∧
    (ptr.valid ob = false → ptr.assign w b a = w) ∧
    (∀ m, ptr.valid ob = true → w.counterAt ob._counter = some { _count := m } →
      1 ≤ m → m ≤ UINT_MAX →
      (ptr.assign w b a).obj b = some { _ptr := 0, _counter := 0 } ∧
      (ptr.assign w b a).counterAt ob._counter =
        (if m = 1 then none else some { _count := m - 1 }) ∧
      (ptr.assign w b a).freed = (if m = 1 then w.freed ++ [ob._ptr] else w.freed) ∧
      (ptr.assign w b a).alive = (if m = 1 then w.alive.erase ob._ptr else w.alive) ∧
      (ptr.assign w b a).ub = w.ub) := by
  have hd := World.delete_dealloc
  have hcc : ptr.ctorCopy w a = w.addObj { _ptr := 0, _counter := 0 } := by
    rw [ptr_ctorCopy_eq]; exact owning.ctorCopy_invalid hw ha hva
  have hlt := World.obj_lt ha
  have has : ptr.assign w b a = ptr.drop w b := by
    rw [ptr_assign_eq, ptr_drop_eq]; exact owning.assign_invalid hw hab ha hva
  have hne : a ≠ b := fun h => hab h.symm
  refine ⟨hcc, ?_, by decide, ?_, ?_, has, ?_, ?_, ?_, ?_, ?_⟩
  · rw [hcc, World.obj_addObj]; simp
  · rw [hcc, World.obj_addObj]
    have : a ≠ w.objs.length := by omega
    rw [if_neg this]
    exact ha
  · rw [hcc]; rfl
  · rw [has, ptr_drop_eq, owning.drop_obj_other hd w b hne]
    exact ha
  · rw [has, ptr_drop_eq]
    cases hvb : ptr.valid ob with
    | false =>
      rw [owning.drop_invalid hb hvb]
      exact ⟨ob, hb, hvb⟩
    | true =>
      cases hk : w.counterAt ob._counter with
      | none =>
        have h := hkb hvb
        rw [hk] at h
        exact Bool.noConfusion h
      | some k =>
        refine ⟨{ _ptr := 0, _counter := 0 }, ?_, by decide⟩
        rw [World.obj_of_set (owning.drop_valid_objs hd hb hvb hk) (World.obj_lt hb)]
        simp
  · rw [has, ptr_drop_eq]
    exact (owning.drop_shape hd w b).2
  · intro hvb
    rw [has, ptr_drop_eq]
    exact owning.drop_invalid hb hvb
  · intro m hvb hk h1 h2
    rw [has]
    have hc := owning.drop_count hd hb hvb hk h1 h2
    have hh := ptr_drop_heap hb hvb hk h1 h2
    rw [ptr_drop_eq] at hh ⊢
    refine ⟨?_, ?_, hc.2.2.1, hh.1, hc.2.2.2⟩
    · rw [World.obj_of_set hc.1 (World.obj_lt hb)]; simp
    · rw [World.counterAt_of_set hc.2.1 (World.counterAt_lt hk)]; simp

/-- C13 on the test `CopyInvalidPointers`, in the state after
`ptr<X> a; ptr<X> b(a); b = new X;`: the assignment `b = a` makes `b`
Invalid, deallocates the object of `b` and leaves nothing alive. -/
theorem C13_copy_from_invalid_witness :
    (ptr.assign (ptr.run World.empty [Op.ctor, Op.ctorCopy 0, Op.alloc 10 1, Op.assignRaw 1 10])
      1 0).obj 1 = some { _ptr := 0, _counter := 0 } ∧
    (ptr.assign (ptr.run World.empty [Op.ctor, Op.ctorCopy 0, Op.alloc 10 1, Op.assignRaw 1 10])
      1 0).freed = [10] ∧
    (ptr.assign (ptr.run World.empty [Op.ctor, Op.ctorCopy 0, Op.alloc 10 1, Op.assignRaw 1 10])
      1 0).alive = [] :=
  have hw : (ptr.run World.empty
      [Op.ctor, Op.ctorCopy 0, Op.alloc 10 1, Op.assignRaw 1 10]).TwoState := by
    rw [ptr_run_eq]
    exact (owning.twoState_run World.delete_dealloc owning.twoState_empty (by decide) _).1
  have h := (C13_copy_from_invalid
    (ptr.run World.empty [Op.ctor, Op.ctorCopy 0, Op.alloc 10 1, Op.assignRaw 1 10]) hw 0 1
    { _ptr := 0, _counter := 0 } { _ptr := 10, _counter := 1 } (by decide) (by decide)
    (by decide) (by decide) (by decide)).2.2.2.2.2.2.2.2.2.2 1 (by decide) (by decide)
    (by decide) (by decide)
  ⟨h.1, h.2.2.1, h.2.2.2.1⟩

/-- C16: `array_ptr` is `ptr` with a different deallocation. The two class
templates are one text with the deallocation statement as a parameter
(`delete[]` for `array_ptr`, `delete` for `ptr`). For every program and
every initial state, and so after every step, the run on `array_ptr`
instances and the run on `ptr` instances have the same pointer instances
(address and counter of each), the same counters with the same counts, the
same blocks, the same deallocations in the same order and the same
undefined-behaviour flag; validity, introspection and the six comparisons
return the same results. The states differ in the alive elements only: the
deallocation of `array_ptr` destroys every element of the run at the address,
that of `ptr` the one object at the address, as on the program
`p = new X[3]; { array_ptr<X> a(p); }`, which leaves nothing alive, while
the same program on `ptr` leaves two elements. -/
theorem C16_array_ptr_is_ptr (w : World) (ops : List Op) :
    (array_ptr.run w ops = owning.run World.deleteArray w ops ∧
      ptr.run w ops = owning.run World.delete w ops) ∧
    (∃ a, array_ptr.run w ops = (ptr.run w ops).withAlive a) ∧
    ((array_ptr.run w ops).objs = (ptr.run w ops).objs ∧
      (array_ptr.run w ops).counters = (ptr.run w ops).counters ∧
      (array_ptr.run w ops).blocks = (ptr.run w ops).blocks ∧
      (array_ptr.run w ops).freed = (ptr.run w ops).freed ∧
      (array_ptr.run w ops).ub = (ptr.run w ops).ub) ∧
    (∀ n, (array_ptr.run w (ops.take n)).objs = (ptr.run w (ops.take n)).objs ∧
      (array_ptr.run w (ops.take n)).counters = (ptr.run w (ops.take n)).counters ∧
      (array_ptr.run w (ops.take n)).freed = (ptr.run w (ops.take n)).freed) ∧
    (∀ o, array_ptr.valid o = ptr.valid o ∧ array_ptr.toBool o = ptr.toBool o ∧
      array_ptr.copies (array_ptr.run w ops) o = ptr.copies (ptr.run w ops) o ∧
      array_ptr.shared (array_ptr.run w ops) o = ptr.shared (ptr.run w ops) o ∧
      array_ptr.unique (array_ptr.run w ops) o = ptr.unique (ptr.run w ops) o ∧
      array_ptr.unreferenced (array_ptr.run w ops) o = ptr.unreferenced (ptr.run w ops) o) ∧
    (∀ a b, array_ptr.op_eq a b = ptr.op_eq a b ∧ array_ptr.op_ne a b = ptr.op_ne a b ∧
      array_ptr.op_lt a b = ptr.op_lt a b ∧ array_ptr.op_le a b = ptr.op_le a b ∧
      array_ptr.op_gt a b = ptr.op_gt a b ∧ array_ptr.op_ge a b = ptr.op_ge a b) ∧
    (∀ v p, (World.deleteArray v p).objs = (World.delete v p).objs ∧
      (World.deleteArray v p).counters = (World.delete v p).counters ∧
      (World.deleteArray v p).blocks = (World.delete v p).blocks ∧
      (World.deleteArray v p).freed = (World.delete v p).freed ∧
      (World.deleteArray v p).ub = (World.delete v p).ub ∧
      (World.deleteArray v p).alive =
        (World.elems p ((v.blocks.lookup p).getD 0)).reverse.foldl List.erase v.alive ∧
      (World.delete v p).alive = v.alive.erase p) ∧
    ((array_ptr.run World.empty [Op.alloc 10 3, Op.ctorRaw 10, Op.dtor 0]).alive = [] ∧
      (ptr.run World.empty [Op.alloc 10 3, Op.ctorRaw 10, Op.dtor 0]).alive = [11, 12] ∧
      (array_ptr.run World.empty [Op.alloc 10 3, Op.ctorRaw 10, Op.dtor 0]).freed = [10] ∧
      (ptr.run World.empty [Op.alloc 10 3, Op.ctorRaw 10, Op.dtor 0]).freed = [10]) := by
  have key : ∀ l : List Op, ∃ a, array_ptr.run w l = (ptr.run w l).withAlive a :=
    fun l => array_ptr_run_withAlive w l
  obtain ⟨a, ha⟩ := key ops
  refine ⟨⟨array_ptr_run_eq w ops, ptr_run_eq w ops⟩, ⟨a, ha⟩, ?_, ?_, ?_, ?_, ?_, ?_⟩
  · rw [ha]; exact ⟨rfl, rfl, rfl, rfl, rfl⟩
  · intro n
    obtain ⟨b, hb⟩ := key (ops.take n)
    rw [hb]; exact ⟨rfl, rfl, rfl⟩
  · intro o
    rw [ha]; exact ⟨rfl, rfl, rfl, rfl, rfl, rfl⟩
  · intro x y
    exact ⟨rfl, rfl, rfl, rfl, rfl, rfl⟩
  · intro v p
    exact ⟨rfl, rfl, rfl, rfl, rfl, rfl, rfl⟩
  · decide

/-- C21: the aliasing hazard. In every state reachable by public operations
and for every non-null raw address `p`, the construction of a pointer from
`p` is not rejected and changes nothing else: the new instance is Valid with
address `p` and a counter that did not exist before and holds `1`, whoever
holds `p` already; the same for `array_ptr`. And there is an operation
sequence in which the deallocation of `p` is performed twice:
`p = new X; ptr<X> a(p); ptr<X> b(p);` gives two Valid pointers with the
address `p`, each with its own counter at count `1`; the destruction of `b`
(the temporary of a call `foo(p)`) deallocates `p` while `a` is still Valid
with the address `p`, and the destruction of `a` deallocates `p` again. -/
theorem C21_aliasing_hazard (ops : List Op) (p : Nat) (hp : p ≠ 0) :
    ((ptr.ctorRaw (ptr.run World.empty ops) p).obj (ptr.run World.empty ops).objs.length =
        some { _ptr := p, _counter := (ptr.run World.empty ops).counters.length } ∧
      ptr.valid { _ptr := p, _counter := (ptr.run World.empty ops).counters.length } = true ∧
      (ptr.run World.empty ops).counterAt (ptr.run World.empty ops).counters.length = none ∧
      (ptr.ctorRaw (ptr.run World.empty ops) p).counterAt
        (ptr.run World.empty ops).counters.length = some { _count := 1 } ∧
      (∀ j, j ≠ (ptr.run World.empty ops).objs.length →
        (ptr.ctorRaw (ptr.run World.empty ops) p).obj j = (ptr.run World.empty ops).obj j) ∧
      (∀ c, c ≠ (ptr.run World.empty ops).counters.length →
        (ptr.ctorRaw (ptr.run World.empty ops) p).counterAt c =
          (ptr.run World.empty ops).counterAt c) ∧
      (ptr.ctorRaw (ptr.run World.empty ops) p).freed = (ptr.run World.empty ops).freed ∧
      (ptr.ctorRaw (ptr.run World.empty ops) p).alive = (ptr.run World.empty ops).alive ∧
      (ptr.ctorRaw (ptr.run World.empty ops) p).ub = (ptr.run World.empty ops).ub) ∧
    ((array_ptr.ctorRaw (array_ptr.run World.empty ops) p).obj
        (array_ptr.run World.empty ops).objs.length =
        some { _ptr := p, _counter := (array_ptr.run World.empty ops).counters.length } ∧
      array_ptr.valid
        { _ptr := p, _counter := (array_ptr.run World.empty ops).counters.length } = true ∧
      (array_ptr.ctorRaw (array_ptr.run World.empty ops) p).counterAt
        (array_ptr.run World.empty ops).counters.length = some { _count := 1 } ∧
      (array_ptr.ctorRaw (array_ptr.run World.empty ops) p).freed =
        (array_ptr.run World.empty ops).freed ∧
      (array_ptr.ctorRaw (array_ptr.run World.empty ops) p).ub =
        (array_ptr.run World.empty ops).ub) ∧
    ((ptr.run World.empty [Op.alloc 10 1, Op.ctorRaw 10, Op.ctorRaw 10]).obj 0 =
        some { _ptr := 10, _counter := 1 } ∧
      (ptr.run World.empty [Op.alloc 10 1, Op.ctorRaw 10, Op.ctorRaw 10]).obj 1 =
        some { _ptr := 10, _counter := 2 } ∧
      ptr.valid { _ptr := 10, _counter := 1 } = true ∧
      ptr.valid { _ptr := 10, _counter := 2 } = true ∧
      (ptr.run World.empty [Op.alloc 10 1, Op.ctorRaw 10, Op.ctorRaw 10]).counterAt 1 =
        some { _count := 1 } ∧
      (ptr.run World.empty [Op.alloc 10 1, Op.ctorRaw 10, Op.ctorRaw 10]).counterAt 2 =
        some { _count := 1 } ∧
      (ptr.run World.empty [Op.alloc 10 1, Op.ctorRaw 10, Op.ctorRaw 10]).freed = [] ∧
      (ptr.run World.empty [Op.alloc 10 1, Op.ctorRaw 10, Op.ctorRaw 10]).ub = false ∧
      (ptr.run World.empty [Op.alloc 10 1, Op.ctorRaw 10, Op.ctorRaw 10, Op.dtor 1]).freed =
        [10] ∧
      (ptr.run World.empty [Op.alloc 10 1, Op.ctorRaw 10, Op.ctorRaw 10, Op.dtor 1]).alive =
        [] ∧
      (ptr.run World.empty [Op.alloc 10 1, Op.ctorRaw 10, Op.ctorRaw 10, Op.dtor 1]).obj 0 =
        some { _ptr := 10, _counter := 1 } ∧
      (ptr.run World.empty
        [Op.alloc 10 1, Op.ctorRaw 10, Op.ctorRaw 10, Op.dtor 1, Op.dtor 0]).freed =
        [10, 10] ∧
      (array_ptr.run World.empty
        [Op.alloc 10 3, Op.ctorRaw 10, Op.ctorRaw 10, Op.dtor 1, Op.dtor 0]).freed =
        [10, 10]) := by
  have hz1 := (owning.twoState_run World.delete_dealloc owning.twoState_empty
    (by decide) ops).2
  have hz2 := (owning.twoState_run World.deleteArray_dealloc owning.twoState_empty
    (by decide) ops).2
  rw [← ptr_run_eq] at hz1
  rw [← array_ptr_run_eq] at hz2
  have h1 := @owning.ctorRaw_spec World.delete (ptr.run World.empty ops) hz1 p hp
  have h2 := @owning.ctorRaw_spec World.deleteArray (array_ptr.run World.empty ops) hz2 p hp
  refine ⟨⟨h1.1, h1.2.1, h1.2.2.1, h1.2.2.2.1, h1.2.2.2.2.1, h1.2.2.2.2.2.1,
    h1.2.2.2.2.2.2.1, h1.2.2.2.2.2.2.2.1, h1.2.2.2.2.2.2.2.2.2⟩,
    ⟨h2.1, h2.2.1, h2.2.2.2.1, h2.2.2.2.2.2.2.1, h2.2.2.2.2.2.2.2.2.2⟩, ?_⟩
  decide

/-- C21 on the state after `p = new X; ptr<X> a(p);`: the construction of
`b` from the same `p` gives a Valid `b` with the new counter `2` at count
`1`. -/
theorem C21_aliasing_hazard_witness :
    (ptr.ctorRaw (ptr.run World.empty [Op.alloc 10 1, Op.ctorRaw 10]) 10).obj 1 =
      some { _ptr := 10, _counter := 2 } ∧
    (ptr.ctorRaw (ptr.run World.empty [Op.alloc 10 1, Op.ctorRaw 10]) 10).counterAt 2 =
      some { _count := 1 } :=
  have h := (C21_aliasing_hazard [Op.alloc 10 1, Op.ctorRaw 10] 10 (by decide)).1
  ⟨h.1, h.2.2.2.1⟩

/-- C22, as stated, fails: `dec` is invoked on a counter whose count is `0`.
After `p = new X; ptr<X> a(p);` and `2 ^ 32 - 1` copy constructions from `a`
the counter of the `2 ^ 32` sharers holds `0` (the increments have wrapped)
and `a` is Valid. The destruction of `a` calls `drop`, which calls `dec` on
that counter: the count wraps below zero to `UINT_MAX`. -/
theorem C22_dec_on_count_zero :
    (ptr.run World.empty (lineageProg 1 (List.replicate UINT_MAX 0))).obj 0 =
      some { _ptr := 1, _counter := 1 } ∧
    ptr.valid { _ptr := 1, _counter := 1 } = true ∧
    (ptr.run World.empty (lineageProg 1 (List.replicate UINT_MAX 0))).counterAt 1 =
      some { _count := 0 } ∧
    0 ∈ ptr.decs World.empty (lineageProg 1 (List.replicate UINT_MAX 0) ++ [Op.dtor 0]) ∧
    ptr_counter.dec { _count := 0 } = { _count := UINT_MAX } ∧
    (ptr.run World.empty (lineageProg 1 (List.replicate UINT_MAX 0) ++ [Op.dtor 0])).counterAt 1 =
      some { _count := UINT_MAX } := by
  have hrun : owning.run World.delete World.empty (lineageProg 1 (List.replicate UINT_MAX 0)) =
      World.lineage 1 UINT_MOD := by
    rw [owning.run_lineageProg 1 (by decide) _ (owning.replicate_srcs _ 1 (by decide)),
      List.length_replicate]
    rfl
  have hz := owning.dtor_lineage_zero World.delete_dealloc 1 UINT_MOD 0 (by decide) (by decide)
    (by decide)
  have hcnt : (World.lineage 1 UINT_MOD).counterAt 1 = some { _count := 0 } := by
    simp [World.counterAt, World.lineage]
  have hmem := owning.decs_lineage_dtor World.delete_dealloc 1 UINT_MOD 0 (by decide) (by decide)
    (by decide)
  have hstep : owning.run World.delete (World.lineage 1 UINT_MOD) [Op.dtor 0] =
      owning.dtor World.delete (World.lineage 1 UINT_MOD) 0 := by
    rw [owning.run_single]
    show (if ((World.lineage 1 UINT_MOD).obj 0).isSome then
      owning.dtor World.delete (World.lineage 1 UINT_MOD) 0 else World.lineage 1 UINT_MOD) = _
    rw [owning.lineage_obj 1 UINT_MOD 0 (by decide)]
    rfl
  rw [ptr_decs_eq, ptr_run_eq, ptr_run_eq, owning.decs_append, owning.run_append, hrun, hstep]
  exact ⟨owning.lineage_obj 1 UINT_MOD 0 (by decide), by decide, hcnt,
    List.mem_append_right _ hmem, by decide, hz.2.1⟩

/-- C22, amended: counter underflow is unreachable while no counter is
shared by more than `UINT_MAX = 2 ^ 32 - 1` live instances. For every program
of public operations from the empty state, on `ptr` or on `array_ptr`, after
each operation of which no counter has more than `UINT_MAX` sharers: every
call of `dec` (they are all in `drop`) gets a count `c >= 1`, so the
decrement gives `c - 1` and does not wrap; no deleted counter is
dereferenced; and every counter in the store holds a count of at least one.
A counter is created with the count `0`, and `grab` increments it to `1` in
the same call. -/
theorem C22_no_underflow (ops : List Op) :
    (ptr.Within UINT_MAX World.empty ops →
      (∀ c ∈ ptr.decs World.empty ops, 1 ≤ c ∧ (ptr_counter.dec { _count := c })._count = c - 1) ∧
      (ptr.run World.empty ops).ub = false ∧
      (∀ c k, (ptr.run World.empty ops).counterAt c = some k → 1 ≤ k._count)) ∧
    (array_ptr.Within UINT_MAX World.empty ops →
      (∀ c ∈ array_ptr.decs World.empty ops,
        1 ≤ c ∧ (ptr_counter.dec { _count := c })._count = c - 1) ∧
      (array_ptr.run World.empty ops).ub = false ∧
      (∀ c k, (array_ptr.run World.empty ops).counterAt c = some k → 1 ≤ k._count)) ∧
    ptr_counter.ctor._count = 0 ∧ ptr_counter.ctor.inc = { _count := 1 } := by
  have hdec : ∀ c, 1 ≤ c → c ≤ UINT_MAX → (ptr_counter.dec { _count := c })._count = c - 1 := by
    intro c h1 h2
    simp only [ptr_counter.dec]
    rw [UINT_MAX_eq] at h2
    rw [UINT_MOD_eq]
    omega
  refine ⟨?_, ?_, rfl, by decide⟩
  · intro hw
    rw [ptr_within_iff] at hw
    obtain ⟨g1, g2, g3⟩ := owning.decs_pos World.delete_dealloc ops World.empty_sound
      (owning.empty_bounded _) hw
    rw [ptr_decs_eq, ptr_run_eq]
    exact ⟨fun c hc => ⟨(g1 c hc).1, hdec c (g1 c hc).1 (g1 c hc).2⟩, g2.ub,
      fun c k hk => (owning.counters_pos g2 g3 hk).1⟩
  · intro hw
    rw [array_ptr_within_iff] at hw
    obtain ⟨g1, g2, g3⟩ := owning.decs_pos World.deleteArray_dealloc ops World.empty_sound
      (owning.empty_bounded _) hw
    rw [array_ptr_decs_eq, array_ptr_run_eq]
    exact ⟨fun c hc => ⟨(g1 c hc).1, hdec c (g1 c hc).1 (g1 c hc).2⟩, g2.ub,
      fun c k hk => (owning.counters_pos g2 g3 hk).1⟩

/-- C22, amended, on `p = new X; ptr<X> a(p); { ptr<X> b(a); }` and the
destruction of `a`: `dec` is called on the counts `2` and `1`. -/
theorem C22_no_underflow_witness :
    ptr.decs World.empty
      [Op.alloc 10 1, Op.ctorRaw 10, Op.ctorCopy 0, Op.dtor 1, Op.dtor 0] = [2, 1] ∧
    (1 ≤ 2 ∧ (ptr_counter.dec { _count := 2 })._count = 2 - 1) :=
  ⟨by decide,
    ((C22_no_underflow [Op.alloc 10 1, Op.ctorRaw 10, Op.ctorCopy 0, Op.dtor 1, Op.dtor 0]).1
      (by decide)).1 2 (by decide)⟩

/-- C23: re-adopting one's own address. Let `t` be Valid with the address
`p` and a counter that holds `1` (the sole owner of `p`). In the assignment
`t = p` of the raw address `p` itself, the initial `drop` deallocates `p`,
and `t` ends Valid with the address `p` and a counter that did not exist
before and holds `1`; the old counter is deleted, `p` has been deallocated and
taken from the alive objects (it is not alive any more when it was alive
once). A later `drop` of `t`, or its destruction, deallocates `p` a second
time. The same holds for `array_ptr`, where the deallocation is that of the
run at `p`. -/
theorem C23_readopt_own_address (w : World) (t : Nat) (ot : Obj) (ht : w.obj t = some ot)
    (hv : ptr.valid ot = true) (hk : w.counterAt ot._counter = some { _count := 1 }) :
    ((ptr.drop w t).freed = w.freed ++ [ot._ptr] ∧
      (ptr.drop w t).alive = w.alive.erase ot._ptr ∧
      (ptr.assignRaw w t ot._ptr).obj t =
        some { _ptr := ot._ptr, _counter := w.counters.length } ∧
      ptr.valid { _ptr := ot._ptr, _counter := w.counters.length } = true ∧
      w.counterAt w.counters.length = none ∧
      (ptr.assignRaw w t ot._ptr).counterAt w.counters.length = some { _count := 1 } ∧
      (ptr.assignRaw w t ot._ptr).counterAt ot._counter = none ∧
      (ptr.assignRaw w t ot._ptr).freed = w.freed ++ [ot._ptr] ∧
      (ptr.assignRaw w t ot._ptr).alive = w.alive.erase ot._ptr ∧
      (w.alive.count ot._ptr ≤ 1 → ot._ptr ∉ (ptr.assignRaw w t ot._ptr).alive) ∧
      (ptr.assignRaw w t ot._ptr).ub = w.ub ∧
      (ptr.drop (ptr.assignRaw w t ot._ptr) t).freed = w.freed ++ [ot._ptr, ot._ptr] ∧
      (ptr.dtor (ptr.assignRaw w t ot._ptr) t).freed = w.freed ++ [ot._ptr, ot._ptr]) ∧
    ((array_ptr.drop w t).freed = w.freed ++ [ot._ptr] ∧
      (array_ptr.assignRaw w t ot._ptr).obj t =
        some { _ptr := ot._ptr, _counter := w.counters.length } ∧
      array_ptr.valid { _ptr := ot._ptr, _counter := w.counters.length } = true ∧
      (array_ptr.assignRaw w t ot._ptr).counterAt w.counters.length = some { _count := 1 } ∧
      (array_ptr.assignRaw w t ot._ptr).counterAt ot._counter = none ∧
      (array_ptr.assignRaw w t ot._ptr).freed = w.freed ++ [ot._ptr] ∧
      (array_ptr.assignRaw w t ot._ptr).alive =
        (World.elems ot._ptr ((w.blocks.lookup ot._ptr).getD 0)).reverse.foldl List.erase
          w.alive ∧
      (array_ptr.assignRaw w t ot._ptr).ub = w.ub ∧
      (array_ptr.drop (array_ptr.assignRaw w t ot._ptr) t).freed =
        w.freed ++ [ot._ptr, ot._ptr] ∧
      (array_ptr.dtor (array_ptr.assignRaw w t ot._ptr) t).freed =
        w.freed ++ [ot._ptr, ot._ptr]) := by
  have h1 := owning.readopt World.delete_dealloc ht hv hk
  have h2 := owning.readopt World.deleteArray_dealloc ht hv hk
  have ha1 : (ptr.drop w t).alive = w.alive.erase ot._ptr := by
    have := (ptr_drop_heap ht hv hk (Nat.le_refl 1) (by decide)).1
    simpa using this
  have ha2 : (array_ptr.drop w t).alive =
      (World.elems ot._ptr ((w.blocks.lookup ot._ptr).getD 0)).reverse.foldl List.erase
        w.alive := by
    have := (array_ptr_drop_heap ht hv hk (Nat.le_refl 1) (by decide)).1
    simpa using this
  have hg1 : (ptr.assignRaw w t ot._ptr).alive = w.alive.erase ot._ptr := by
    rw [← ha1]
    exact (@owning.grab_heap World.delete w t ot._ptr 0).1
  have hg2 : (array_ptr.assignRaw w t ot._ptr).alive =
      (World.elems ot._ptr ((w.blocks.lookup ot._ptr).getD 0)).reverse.foldl List.erase
        w.alive := by
    rw [← ha2]
    exact (@owning.grab_heap World.deleteArray w t ot._ptr 0).1
  refine ⟨⟨h1.1, ha1, h1.2.1, h1.2.2.1, h1.2.2.2.1, h1.2.2.2.2.1, h1.2.2.2.2.2.1,
    h1.2.2.2.2.2.2.1, hg1, ?_, h1.2.2.2.2.2.2.2.1, h1.2.2.2.2.2.2.2.2.2.1,
    h1.2.2.2.2.2.2.2.2.2.1⟩,
    ⟨h2.1, h2.2.1, h2.2.2.1, h2.2.2.2.2.1, h2.2.2.2.2.2.1, h2.2.2.2.2.2.2.1, hg2,
    h2.2.2.2.2.2.2.2.1, h2.2.2.2.2.2.2.2.2.2.1, h2.2.2.2.2.2.2.2.2.2.1⟩⟩
  intro hc
  rw [hg1]
  intro hmem
  have h := List.count_pos_iff.mpr hmem
  rw [List.count_erase_self] at h
  omega

/-- C23 on the state after `p = new X; ptr<X> a(p);`: after `a = p` the
object is deallocated and not alive while `a` is Valid with the address `p`,
and the destruction of `a` deallocates `p` again. -/
theorem C23_readopt_own_address_witness :
    (ptr.assignRaw (ptr.run World.empty [Op.alloc 10 1, Op.ctorRaw 10]) 0 10).obj 0 =
      some { _ptr := 10, _counter := 2 } ∧
    (ptr.assignRaw (ptr.run World.empty [Op.alloc 10 1, Op.ctorRaw 10]) 0 10).alive = [] ∧
    (ptr.dtor (ptr.assignRaw (ptr.run World.empty [Op.alloc 10 1, Op.ctorRaw 10]) 0 10) 0).freed =
      [10, 10] :=
  have h := (C23_readopt_own_address (ptr.run World.empty [Op.alloc 10 1, Op.ctorRaw 10]) 0
    { _ptr := 10, _counter := 1 } (by decide) (by decide) (by decide)).1
  ⟨h.2.2.1, h.2.2.2.2.2.2.2.2.1, h.2.2.2.2.2.2.2.2.2.2.2.2⟩

/-- C24: re-assignment within one lineage. Every state reachable from the
empty state, by any program on `ptr` or on `array_ptr`, has the property
`Lineages`. In a state with that property let `t` and `s` be distinct live
instances with the same counter, `t` Valid, the count being `n >= 2`. Then
`s` has the address of `t` too, and the copy assignment `t = s` leaves the
state as it was: every pointer's address and counter, every counter and the
count `n`, the deallocations and the alive objects are unchanged. Inside the
operation, after `drop`, the count is `n - 1 >= 1`, `t` is Invalid and
nothing has been deallocated, so the release branch of `drop` is not taken;
`grab` then returns the count to `n`. The same holds for `array_ptr`. -/
theorem C24_reassign_within_lineage (w : World) (hw : w.Lineages) (t s : Nat) (ot os : Obj)
    (n : Nat) (hts : t ≠ s) (ht : w.obj t = some ot) (hs : w.obj s = some os)
    (hv : ptr.valid ot = true) (hc : os._counter = ot._counter)
    (hk : w.counterAt ot._counter = some { _count := n }) (h2 : 2 ≤ n) :
    (os = ot ∧ n ≤ UINT_MAX) ∧
    (ptr.assign w t s = w ∧
      (∀ j, (ptr.assign w t s).obj j = w.obj j) ∧
      (ptr.assign w t s).counterAt ot._counter = some { _count := n } ∧
      (ptr.assign w t s).freed = w.freed ∧ (ptr.assign w t s).alive = w.alive ∧
      (ptr.drop w t).counterAt ot._counter = some { _count := n - 1 } ∧ 1 ≤ n - 1 ∧
      (ptr.drop w t).freed = w.freed ∧ (ptr.drop w t).alive = w.alive ∧
      (ptr.drop w t).obj t = some { _ptr := 0, _counter := 0 }) ∧
    (array_ptr.assign w t s = w ∧
      (∀ j, (array_ptr.assign w t s).obj j = w.obj j) ∧
      (array_ptr.assign w t s).counterAt ot._counter = some { _count := n } ∧
      (array_ptr.assign w t s).freed = w.freed ∧ (array_ptr.assign w t s).alive = w.alive ∧
      (array_ptr.drop w t).counterAt ot._counter = some { _count := n - 1 } ∧ 1 ≤ n - 1 ∧
      (array_ptr.drop w t).freed = w.freed ∧ (array_ptr.drop w t).alive = w.alive ∧
      (array_ptr.drop w t).obj t = some { _ptr := 0, _counter := 0 }) ∧
    (∀ ops, (ptr.run World.empty ops).Lineages ∧ (array_ptr.run World.empty ops).Lineages) := by
  have hc0 := (owning.valid_iff.mp hv).2
  have hp : ot._ptr = os._ptr := hw.addr t s ot os ht hs hc0 hc.symm
  have hos : os = ot := by
    cases os; cases ot
    simp only at hp hc
    rw [hp, hc]
  have hmax : n ≤ UINT_MAX := by
    have := hw.rng _ _ hk
    simp only at this
    rw [UINT_MOD_eq] at this
    rw [UINT_MAX_eq]
    omega
  rw [hos] at hs
  have h1 := @owning.reassign_same World.delete w t s ot n hts ht hs hv hk h2 hmax
  have h3 := @owning.reassign_same World.deleteArray w t s ot n hts ht hs hv hk h2 hmax
  rw [← ptr_assign_eq, ← ptr_drop_eq] at h1
  rw [← array_ptr_assign_eq, ← array_ptr_drop_eq] at h3
  refine ⟨⟨hos, hmax⟩, ⟨h1.1, ?_, ?_, ?_, ?_, h1.2.1, by omega, h1.2.2.1, h1.2.2.2.1,
    h1.2.2.2.2⟩, ⟨h3.1, ?_, ?_, ?_, ?_, h3.2.1, by omega, h3.2.2.1, h3.2.2.2.1, h3.2.2.2.2⟩, ?_⟩
  · intro j; rw [h1.1]
  · rw [h1.1]; exact hk
  · rw [h1.1]
  · rw [h1.1]
  · intro j; rw [h3.1]
  · rw [h3.1]; exact hk
  · rw [h3.1]
  · rw [h3.1]
  · intro ops
    rw [ptr_run_eq, array_ptr_run_eq]
    exact ⟨owning.lineages_run World.delete_dealloc owning.lineages_empty ops,
      owning.lineages_run World.deleteArray_dealloc owning.lineages_empty ops⟩

/-- C24 on the state after `p = new X; ptr<X> a(p); ptr<X> b(a);`: the
assignment `b = a` leaves the state as it was, with the count `2`. -/
theorem C24_reassign_within_lineage_witness :
    ptr.assign (ptr.run World.empty [Op.alloc 10 1, Op.ctorRaw 10, Op.ctorCopy 0]) 1 0 =
      ptr.run World.empty [Op.alloc 10 1, Op.ctorRaw 10, Op.ctorCopy 0] ∧
    (ptr.drop (ptr.run World.empty [Op.alloc 10 1, Op.ctorRaw 10, Op.ctorCopy 0]) 1).counterAt 1 =
      some { _count := 2 - 1 } :=
  have hw : (ptr.run World.empty [Op.alloc 10 1, Op.ctorRaw 10, Op.ctorCopy 0]).Lineages := by
    rw [ptr_run_eq]
    exact owning.lineages_run World.delete_dealloc owning.lineages_empty _
  have h := (C24_reassign_within_lineage
    (ptr.run World.empty [Op.alloc 10 1, Op.ctorRaw 10, Op.ctorCopy 0]) hw 1 0
    { _ptr := 10, _counter := 1 } { _ptr := 10, _counter := 1 } 2 (by decide) (by decide)
    (by decide) (by decide) rfl (by decide) (by decide)).2.1
  ⟨h.1, h.2.2.2.2.2.1⟩

/-- C25, as stated, fails when another lineage holds the address of `t`. In
the state after `p = new X; ptr<X> a(p); ptr<X> b(p);` the instances `a` and
`b` have the address `p` and different counters, each at count `1`, and the
object at `p` is alive. The destruction of `a`, and as well the assignment
`a = 0`, leaves the data members of `b` and the count of the counter of `b`
unchanged, but the object at `p`, the resource of the lineage of `b`, is not
alive afterwards. -/
theorem C25_frame_fails_on_alias :
    (ptr.run World.empty [Op.alloc 10 1, Op.ctorRaw 10, Op.ctorRaw 10]).obj 0 =
      some { _ptr := 10, _counter := 1 } ∧
    (ptr.run World.empty [Op.alloc 10 1, Op.ctorRaw 10, Op.ctorRaw 10]).obj 1 =
      some { _ptr := 10, _counter := 2 } ∧
    (ptr.run World.empty [Op.alloc 10 1, Op.ctorRaw 10, Op.ctorRaw 10]).counterAt 2 =
      some { _count := 1 } ∧
    (ptr.run World.empty [Op.alloc 10 1, Op.ctorRaw 10, Op.ctorRaw 10]).alive = [10] ∧
    (ptr.dtor (ptr.run World.empty [Op.alloc 10 1, Op.ctorRaw 10, Op.ctorRaw 10]) 0).obj 1 =
      some { _ptr := 10, _counter := 2 } ∧
    ptr.valid { _ptr := 10, _counter := 2 } = true ∧
    (ptr.dtor (ptr.run World.empty [Op.alloc 10 1, Op.ctorRaw 10, Op.ctorRaw 10]) 0).counterAt 2 =
      some { _count := 1 } ∧
    (ptr.dtor (ptr.run World.empty [Op.alloc 10 1, Op.ctorRaw 10, Op.ctorRaw 10]) 0).alive = [] ∧
    (ptr.assignRaw (ptr.run World.empty [Op.alloc 10 1, Op.ctorRaw 10, Op.ctorRaw 10]) 0 0).obj 1 =
      some { _ptr := 10, _counter := 2 } ∧
    (ptr.assignRaw (ptr.run World.empty [Op.alloc 10 1, Op.ctorRaw 10, Op.ctorRaw 10]) 0
      0).alive = [] := by
  decide

/-- C25, amended: the frame of the mutating operations. In every state, for
a live instance `t` with the data members `ot`, each of the assignment of a
raw address `t = p`, the copy assignment `t = s` from a live instance `s`, and
the destruction of `t` leaves unchanged: the address and the counter of
every other instance; every counter but the previous counter of `t` and the
counter `t` gets (a new one for `t = p`, that of `s` for `t = s`); the
deallocations, but for at most one deallocation of the previous address of
`t`; and the alive objects at every address other than the previous address
of `t` (for `array_ptr`: other than the elements of the run at that address).
So the alive resource of another lineage is unchanged when its address is
not that of `t`, which is the case in a state without aliasing. The queries
(comparisons, `valid`, `operator bool`, `copies`, `shared`, `unique`,
`unreferenced`) are functions of the state that return no state. -/
theorem C25_frame (w : World) (t s : Nat) (ot os : Obj) (p : Nat) (ht : w.obj t = some ot)
    (hs : w.obj s = some os) :
    (w.Frame (ptr.assignRaw w t p) t ot w.counters.length [ot._ptr] ∧
      w.Frame (ptr.assign w t s) t ot
        (if os._counter ≠ 0 then os._counter else w.counters.length) [ot._ptr] ∧
      w.Frame (ptr.dtor w t) t ot ot._counter [ot._ptr]) ∧
    (w.Frame (array_ptr.assignRaw w t p) t ot w.counters.length
        (World.elems ot._ptr ((w.blocks.lookup ot._ptr).getD 0)) ∧
      w.Frame (array_ptr.assign w t s) t ot
        (if os._counter ≠ 0 then os._counter else w.counters.length)
        (World.elems ot._ptr ((w.blocks.lookup ot._ptr).getD 0)) ∧
      w.Frame (array_ptr.dtor w t) t ot ot._counter
        (World.elems ot._ptr ((w.blocks.lookup ot._ptr).getD 0))) ∧
    (∀ j oj, j ≠ t → w.obj j = some oj → oj._ptr ≠ ot._ptr →
      ((ptr.assignRaw w t p).obj j = some oj ∧
        (ptr.assignRaw w t p).alive.count oj._ptr = w.alive.count oj._ptr) ∧
      ((ptr.assign w t s).obj j = some oj ∧
        (ptr.assign w t s).alive.count oj._ptr = w.alive.count oj._ptr) ∧
      ((ptr.dtor w t).obj j = some oj ∧
        (ptr.dtor w t).alive.count oj._ptr = w.alive.count oj._ptr)) := by
  have hd1 := World.delete_dealloc
  have hd2 := World.deleteArray_dealloc
  have a1 := ptr_drop_alive_count ht
  have a2 := array_ptr_drop_alive_count ht
  have f1 : w.Frame (ptr.assignRaw w t p) t ot w.counters.length [ot._ptr] := by
    have := owning.frame_grab hd1 ht p 0 [ot._ptr] a1
    simpa using this
  have f2 : w.Frame (ptr.assign w t s) t ot
      (if os._counter ≠ 0 then os._counter else w.counters.length) [ot._ptr] :=
    owning.frame_assign hd1 ht hs [ot._ptr] a1
  have f3 : w.Frame (ptr.dtor w t) t ot ot._counter [ot._ptr] :=
    owning.frame_dtor hd1 ht [ot._ptr] a1
  have g1 : w.Frame (array_ptr.assignRaw w t p) t ot w.counters.length
      (World.elems ot._ptr ((w.blocks.lookup ot._ptr).getD 0)) := by
    have := owning.frame_grab hd2 ht p 0 _ a2
    simpa using this
  have g2 := owning.frame_assign hd2 ht hs _ a2
  have g3 := owning.frame_dtor hd2 ht _ a2
  refine ⟨⟨f1, f2, f3⟩, ⟨g1, g2, g3⟩, ?_⟩
  intro j oj hj hjo hne
  have hmem : oj._ptr ∉ [ot._ptr] := fun h => hne (List.mem_singleton.mp h)
  exact ⟨⟨(f1.1 j hj).trans hjo, f1.2.2.2 _ hmem⟩, ⟨(f2.1 j hj).trans hjo, f2.2.2.2 _ hmem⟩,
    ⟨(f3.1 j hj).trans hjo, f3.2.2.2 _ hmem⟩⟩

/-- C25, amended, on the state after `a(new X); b(new X);`: the destruction
of `a` leaves the data members of `b` and its object alive. -/
theorem C25_frame_witness :
    (ptr.dtor (ptr.run World.empty [Op.alloc 10 1, Op.ctorRaw 10, Op.alloc 20 1, Op.ctorRaw 20])
      0).obj 1 = some { _ptr := 20, _counter := 2 } ∧
    (ptr.dtor (ptr.run World.empty [Op.alloc 10 1, Op.ctorRaw 10, Op.alloc 20 1, Op.ctorRaw 20])
      0).alive.count 20 =
      (ptr.run World.empty
        [Op.alloc 10 1, Op.ctorRaw 10, Op.alloc 20 1, Op.ctorRaw 20]).alive.count 20 :=
  ((C25_frame (ptr.run World.empty [Op.alloc 10 1, Op.ctorRaw 10, Op.alloc 20 1, Op.ctorRaw 20])
    0 1 { _ptr := 10, _counter := 1 } { _ptr := 20, _counter := 2 } 0 (by decide)
    (by decide)).2.2 1 { _ptr := 20, _counter := 2 } (by decide) (by decide) (by decide)).2.2

/-- C26, as stated, fails: a Valid pointer reports a count of `0`. After
`p = new X; ptr<X> a(p);` and `2 ^ 32 - 1` copy constructions from `a`, the
instance `a` is Valid, `copies()` is `0` (the count of the `2 ^ 32` sharers
has wrapped), and `unreferenced()` is true while `valid()` is true. -/
theorem C26_valid_reports_zero :
    (ptr.run World.empty (lineageProg 1 (List.replicate UINT_MAX 0))).obj 0 =
      some { _ptr := 1, _counter := 1 } ∧
    ptr.valid { _ptr := 1, _counter := 1 } = true ∧
    ptr.copies (ptr.run World.empty (lineageProg 1 (List.replicate UINT_MAX 0)))
      { _ptr := 1, _counter := 1 } = 0 ∧
    ptr.unreferenced (ptr.run World.empty (lineageProg 1 (List.replicate UINT_MAX 0)))
      { _ptr := 1, _counter := 1 } = true := by
  have hrun : ptr.run World.empty (lineageProg 1 (List.replicate UINT_MAX 0)) =
      World.lineage 1 UINT_MOD := by
    rw [ptr_run_eq, owning.run_lineageProg 1 (by decide) _ (owning.replicate_srcs _ 1 (by decide)),
      List.length_replicate]
    rfl
  have hcnt : (World.lineage 1 UINT_MOD).counterAt 1 = some { _count := 0 } := by
    simp [World.counterAt, World.lineage]
  have hv : ptr.valid { _ptr := 1, _counter := 1 } = true := by decide
  have hcop : ptr.copies (World.lineage 1 UINT_MOD) { _ptr := 1, _counter := 1 } = 0 := by
    simp only [ptr.copies, hv, if_true, hcnt]
  rw [hrun]
  refine ⟨owning.lineage_obj 1 UINT_MOD 0 (by decide), hv, hcop, ?_⟩
  simp only [ptr.unreferenced, hcop]
  rfl

/-- C26, amended. In every state and for every pointer, exactly one of
`shared()`, `unique()`, `unreferenced()` is true. In every state reached from
the empty state by a program of public operations after each operation of
which no counter has more than `UINT_MAX = 2 ^ 32 - 1` sharers, for every
live pointer, `unreferenced()` is true if and only if `valid()` is false, and
a Valid pointer reports a count of at least one. The same holds for
`array_ptr`. -/
theorem C26_exactly_one_query (ops : List Op) :
    (∀ w o, (ptr.shared w o = true ∧ ptr.unique w o = false ∧ ptr.unreferenced w o = false) ∨
      (ptr.shared w o = false ∧ ptr.unique w o = true ∧ ptr.unreferenced w o = false) ∨
      (ptr.shared w o = false ∧ ptr.unique w o = false ∧ ptr.unreferenced w o = true)) ∧
    (∀ w o, (array_ptr.shared w o = true ∧ array_ptr.unique w o = false ∧
        array_ptr.unreferenced w o = false) ∨
      (array_ptr.shared w o = false ∧ array_ptr.unique w o = true ∧
        array_ptr.unreferenced w o = false) ∨
      (array_ptr.shared w o = false ∧ array_ptr.unique w o = false ∧
        array_ptr.unreferenced w o = true)) ∧
    (ptr.Within UINT_MAX World.empty ops →
      ∀ i o, (ptr.run World.empty ops).obj i = some o →
        (ptr.unreferenced (ptr.run World.empty ops) o = true ↔ ptr.valid o = false) ∧
        (ptr.valid o = true → 1 ≤ ptr.copies (ptr.run World.empty ops) o)) ∧
    (array_ptr.Within UINT_MAX World.empty ops →
      ∀ i o, (array_ptr.run World.empty ops).obj i = some o →
        (array_ptr.unreferenced (array_ptr.run World.empty ops) o = true ↔
          array_ptr.valid o = false) ∧
        (array_ptr.valid o = true → 1 ≤ array_ptr.copies (array_ptr.run World.empty ops) o)) := by
  have hone : ∀ w o,
      (ptr.shared w o = true ∧ ptr.unique w o = false ∧ ptr.unreferenced w o = false) ∨
      (ptr.shared w o = false ∧ ptr.unique w o = true ∧ ptr.unreferenced w o = false) ∨
      (ptr.shared w o = false ∧ ptr.unique w o = false ∧ ptr.unreferenced w o = true) := by
    intro w o
    simp only [ptr.shared, ptr.unique, ptr.unreferenced, beq_iff_eq, decide_eq_true_eq,
      decide_eq_false_iff_not, beq_eq_false_iff_ne, ne_eq]
    omega
  have key : ∀ w : World, w.Sound → w.Bounded UINT_MAX → ∀ i o, w.obj i = some o →
      (ptr.unreferenced w o = true ↔ ptr.valid o = false) ∧
      (ptr.valid o = true → 1 ≤ ptr.copies w o) := by
    intro w hs hb i o ho
    cases hv : ptr.valid o with
    | false =>
      refine ⟨⟨fun _ => rfl, fun _ => ?_⟩, fun h => Bool.noConfusion h⟩
      simp [ptr.unreferenced, ptr.copies, hv]
    | true =>
      obtain ⟨k, _, hk1, hk2, hk3⟩ := owning.countInv_of_sound hs hb i o ho hv
      have hpos : 1 ≤ ptr.copies w o := by omega
      refine ⟨⟨fun h => ?_, fun h => Bool.noConfusion h⟩, fun _ => hpos⟩
      simp only [ptr.unreferenced, beq_iff_eq] at h
      omega
  refine ⟨hone, hone, ?_, ?_⟩
  · intro hw
    rw [ptr_within_iff] at hw
    obtain ⟨_, g2, g3⟩ := owning.decs_pos World.delete_dealloc ops World.empty_sound
      (owning.empty_bounded _) hw
    rw [ptr_run_eq]
    exact key _ g2 g3
  · intro hw
    rw [array_ptr_within_iff] at hw
    obtain ⟨_, g2, g3⟩ := owning.decs_pos World.deleteArray_dealloc ops World.empty_sound
      (owning.empty_bounded _) hw
    rw [array_ptr_run_eq]
    exact key _ g2 g3

/-- C26, amended, on the state after `p = new X; ptr<X> a(p), b;`: `a` is
not unreferenced, `b` is. -/
theorem C26_exactly_one_query_witness :
    (ptr.unreferenced (ptr.run World.empty [Op.alloc 10 1, Op.ctorRaw 10, Op.ctor])
        { _ptr := 0, _counter := 0 } = true ↔
      ptr.valid { _ptr := 0, _counter := 0 } = false) ∧
    1 ≤ ptr.copies (ptr.run World.empty [Op.alloc 10 1, Op.ctorRaw 10, Op.ctor])
      { _ptr := 10, _counter := 1 } :=
  ⟨((C26_exactly_one_query [Op.alloc 10 1, Op.ctorRaw 10, Op.ctor]).2.2.1 (by decide) 1
      { _ptr := 0, _counter := 0 } (by decide)).1,
    ((C26_exactly_one_query [Op.alloc 10 1, Op.ctorRaw 10, Op.ctor]).2.2.1 (by decide) 0
      { _ptr := 10, _counter := 1 } (by decide)).2 (by decide)⟩
